import Mathlib

/-!
# Fyrion resource repository

A shallow embedding of `Engine/Source/Fyrion/Resource/Repository.cpp`.

* Storage slots live at permanent addresses `pages[page]->elements[offset]`; a
  `ResourceStorage*` is therefore represented by the pair `(page, offset)`
  (`StoragePtr`), independently of the `rid` value stored inside the slot.
* `ResourceData` objects live on a heap (`Repo.datas`) addressed by `DataPtr`.
  A freed object leaves a hole, so that a dangling pointer is detected as a
  fault instead of silently reading something else.
* `data->fields[i]` is either null or points at `data->memory + offset`; the
  embedding stores the object living at that address in the field table itself.
* Dereferencing null, reading freed or never constructed memory, indexing out of
  bounds and a failing `FY_ASSERT` are faults; recursion and loops take fuel and
  report `Fault.diverged` when it runs out.
-/

namespace Fyrion

/-! ## Basic types -/

def U32_MAX : Nat := 4294967295

abbrev TypeID := Nat

/-- The identifier `RID{offset, page}`; `id` is the 64-bit view of the pair. -/
structure RID where
  offset : Nat
  page : Nat
deriving DecidableEq

def RID.id (r : RID) : Nat := r.offset + 2 ^ 32 * r.page

/-- The value of `RID{}`. -/
def RID.null : RID := ⟨0, 0⟩

/-- Address of the slot `pages[page]->elements[offset]`. -/
abbrev StoragePtr := RID

/-- Address of a heap allocated `ResourceData`. -/
abbrev DataPtr := Nat

structure UUID where
  firstValue : Nat
  secondValue : Nat
deriving DecidableEq

/-- The value of `UUID{}`. -/
def UUID.null : UUID := ⟨0, 0⟩

/-- The conversion `if (uuid)`. -/
def UUID.toBool (u : UUID) : Bool := u.firstValue != 0 || u.secondValue != 0

inductive ResourceFieldType where
  | Undefined
  | Value
  | SubObject
  | SubObjectSet
  | Stream
deriving DecidableEq

inductive Fault where
  | nullDeref
  | uninitialised
  | useAfterFree
  | outOfBounds
  | badCast
  | assertion
  | diverged
deriving DecidableEq

/-- The part of an external `TypeHandler` the repository uses: identity and
`GetTypeInfo().size`. `Copy` duplicates the object, `Destructor` ends it. -/
structure TypeHandler where
  typeId : TypeID
  size : Nat
deriving DecidableEq

/-- Iteration order of a `HashSet<RID>` is whatever order the list has. -/
abbrev HashSet := List RID

def HashSet.Has (s : HashSet) (r : RID) : Bool := decide (r ∈ s)

def HashSet.Insert (s : HashSet) (r : RID) : HashSet := if r ∈ s then s else s ++ [r]

def HashSet.Erase (s : HashSet) (r : RID) : HashSet := s.filter (fun x => decide (x ≠ r))

structure SubObjectSetData where
  subObjects : HashSet := []
  prototypeRemoved : HashSet := []
deriving DecidableEq

structure StreamObject where
  streamId : Nat := 0
deriving DecidableEq

/-- The bytes of a value handled through an external `TypeHandler`. -/
abbrev Value := Nat

/-- The object living at `data->memory + field->offset`. -/
inductive FieldValue where
  | value (v : Value)
  | rid (r : RID)
  | set (d : SubObjectSetData)
  | stream (o : StreamObject)
  | garbage
deriving DecidableEq

structure ResourceField where
  name : String
  index : Nat
  fieldType : ResourceFieldType
  typeHandler : Option TypeHandler := none
  offset : Nat := 0
deriving DecidableEq

structure ResourceType where
  name : String
  typeId : TypeID
  size : Nat := 0
  alignment : Nat := 0
  fieldsByName : List (String × ResourceField) := []
  fieldsByIndex : List (Option ResourceField) := []
  typeHandler : Option TypeHandler := none
deriving DecidableEq

structure ResourceData where
  storage : StoragePtr
  memory : Bool := false
  fields : List (Option FieldValue) := []
  dataOnWrite : Option DataPtr := none
  readOnly : Bool := true
deriving DecidableEq

structure ResourceStorage where
  rid : RID
  uuid : UUID
  resourceType : Option ResourceType
  data : Option DataPtr
  prototype : Option StoragePtr := none
  parent : Option StoragePtr := none
  parentIndex : Nat := U32_MAX
  markedToDestroy : Bool := false
  active : Bool := true
  version : Nat := 1
deriving DecidableEq

/-- The slot after `MemSet(resourceStorage, 0, sizeof(ResourceStorage))`. -/
def ResourceStorage.zeroed : ResourceStorage :=
  { rid := RID.null, uuid := UUID.null, resourceType := none, data := none,
    prototype := none, parent := none, parentIndex := 0, markedToDestroy := false,
    active := false, version := 0 }

structure ToDestroyResourceData where
  data : Option DataPtr
  destroySubObjects : Bool
  destroyResource : Bool
deriving DecidableEq

/-- Sizes the compiler fixes and the sources do not show: `FY_REPO_PAGE_SIZE`,
`sizeof(SubObjectSetData)` and `sizeof(StreamObject)`. -/
structure Config where
  pageSize : Nat
  sizeofRID : Nat
  sizeofSubObjectSetData : Nat
  sizeofStreamObject : Nat
  typeIdRID : TypeID
  typeIdSubObjectSetData : TypeID
  typeIdStreamObject : TypeID

/-- One entry of `ResourceTypeCreation::fields`. -/
structure ResourceFieldCreation where
  name : String
  index : Nat
  type : ResourceFieldType
  valueId : TypeID := 0

structure ResourceTypeCreation where
  name : String
  typeId : TypeID
  fields : List ResourceFieldCreation

/-- The file-scope state of `Repository.cpp`, together with the external type
registry (`Registry::FindTypeById`) and the heap of `ResourceData` objects. -/
structure Repo where
  registry : TypeID → Option TypeHandler
  resourceTypes : TypeID → Option ResourceType
  resourceTypesByName : String → Option ResourceType
  counter : Nat
  pageCount : Nat
  pages : Nat → Bool
  storages : StoragePtr → Option ResourceStorage
  datas : DataPtr → Option ResourceData
  nextData : DataPtr
  byUUID : UUID → Option RID
  byPath : String → Option RID
  toCollectItems : List ToDestroyResourceData

/-- The handle `ResourceObject{m_data}`. -/
structure ResourceObject where
  m_data : Option DataPtr
deriving DecidableEq

/-! ## Memory access -/

/-- Point update of a table. -/
def upd {α β : Type} [DecidableEq α] (f : α → β) (k : α) (v : β) : α → β :=
  fun x => if x = k then v else f x

/-- `*p` for a possibly null pointer. -/
def deref {α : Type} : Option α → Except Fault α
  | some a => .ok a
  | none => .error .nullDeref

/-- `arr[i]` on an `Array`/`Span`, which does not check bounds. -/
def index {α : Type} (l : List α) (i : Nat) : Except Fault α :=
  match l[i]? with
  | some a => .ok a
  | none => .error .outOfBounds

/-- Reads `pages[p.page]->elements[p.offset]`. -/
def Repo.getStorage (s : Repo) (p : StoragePtr) : Except Fault ResourceStorage :=
  if s.pages p.page then
    match s.storages p with
    | some st => .ok st
    | none => .error .uninitialised
  else .error .nullDeref

def Repo.setStorage (s : Repo) (p : StoragePtr) (st : ResourceStorage) : Repo :=
  { s with storages := upd s.storages p (some st) }

def Repo.getData (s : Repo) (d : DataPtr) : Except Fault ResourceData :=
  match s.datas d with
  | some x => .ok x
  | none => .error .useAfterFree

def Repo.setData (s : Repo) (d : DataPtr) (x : ResourceData) : Repo :=
  { s with datas := upd s.datas d (some x) }

/-- The allocator hands out a fresh address for a new `ResourceData`. -/
def Repo.allocData (s : Repo) (x : ResourceData) : DataPtr × Repo :=
  (s.nextData, { s with datas := upd s.datas s.nextData (some x), nextData := s.nextData + 1 })

def Repo.freeData (s : Repo) (d : DataPtr) : Repo :=
  { s with datas := upd s.datas d none }

def Repo.enqueue (s : Repo) (x : ToDestroyResourceData) : Repo :=
  { s with toCollectItems := s.toCollectItems ++ [x] }

/-! ## Identifiers and pages -/

def PAGE (cfg : Config) (value : Nat) : Nat := (value / cfg.pageSize) % 2 ^ 32

def OFFSET (cfg : Config) (value : Nat) : Nat := (Nat.land value (cfg.pageSize - 1)) % 2 ^ 32

def GetOrAllocate (cfg : Config) (s : Repo) (rid : RID) : Except Fault Repo :=
  if rid.page < cfg.pageSize then
    if s.pages rid.page then .ok s
    else .ok { s with pages := upd s.pages rid.page true, pageCount := s.pageCount + 1 }
  else .error .outOfBounds

def GetID (cfg : Config) (s : Repo) : RID × Repo :=
  (⟨OFFSET cfg s.counter, PAGE cfg s.counter⟩, { s with counter := (s.counter + 1) % 2 ^ 64 })

/-- The call `HashMap::Insert`: an entry already present is kept. -/
def mapInsert {α β : Type} [DecidableEq α] (m : α → Option β) (k : α) (v : β) : α → Option β :=
  match m k with
  | some _ => m
  | none => upd m k (some v)

def GetIDByUUID (cfg : Config) (s : Repo) (uuid : UUID) : RID × Repo :=
  match (if uuid.toBool then s.byUUID uuid else none) with
  | some rid => (rid, s)
  | none =>
    let (rid, s1) := GetID cfg s
    (rid, { s1 with byUUID := mapInsert s1.byUUID uuid rid })

/-! ## Versions -/

def UpdateVersion : Nat → Repo → StoragePtr → Except Fault Repo
  | 0, _, _ => .error .diverged
  | fuel + 1, s, p => do
    let st ← s.getStorage p
    let s1 := s.setStorage p { st with version := (st.version + 1) % 2 ^ 32 }
    match st.parent with
    | some q => UpdateVersion fuel s1 q
    | none => .ok s1

/-! ## Repository -/

def Repository.CreateResource (cfg : Config) (s : Repo) (typeId : TypeID) (uuid : UUID) :
    Except Fault (RID × Repo) := do
  let (rid, s1) := GetIDByUUID cfg s uuid
  let s2 ← GetOrAllocate cfg s1 rid
  let resourceType := s2.resourceTypes typeId
  .ok (rid, s2.setStorage rid
    { rid := rid, uuid := uuid, resourceType := resourceType, data := none })

def Repository.Read (s : Repo) (rid : RID) : Except Fault ResourceObject := do
  let storage ← s.getStorage rid
  .ok ⟨storage.data⟩

/-- The copy-forward loop of `Repository::Write`, from field `i` on. -/
def writeCopyFields (resourceType : ResourceType) (copy : List (Option FieldValue)) :
    Nat → Nat → Except Fault (List (Option FieldValue))
  | 0, _ => .ok []
  | n + 1, i => do
    let src ← index copy i
    let cell ← match src with
      | none => .ok none
      | some v => do
        let field ← (← index resourceType.fieldsByIndex i) |> deref
        match field.typeHandler with
        | some _ => .ok (some v)
        | none => .ok (some FieldValue.garbage)
    let rest ← writeCopyFields resourceType copy n (i + 1)
    .ok (cell :: rest)

def Repository.Write (s : Repo) (rid : RID) : Except Fault (ResourceObject × Repo) := do
  let storage ← s.getStorage rid
  let resourceType ← deref storage.resourceType
  let n := resourceType.fieldsByIndex.length
  match storage.data with
  | some cp => do
    let copyData ← s.getData cp
    let fields ← writeCopyFields resourceType copyData.fields n 0
    let (p, s1) := s.allocData
      { storage := rid, memory := true, fields := fields, dataOnWrite := some cp, readOnly := false }
    .ok (⟨some p⟩, s1)
  | none =>
    let (p, s1) := s.allocData
      { storage := rid, memory := true, fields := List.replicate n none, dataOnWrite := none,
        readOnly := false }
    .ok (⟨some p⟩, s1)

def Repository.CreateFromPrototype (cfg : Config) (s : Repo) (prototype : RID) (uuid : UUID) :
    Except Fault (RID × Repo) := do
  let (rid, s1) := GetIDByUUID cfg s uuid
  let s2 ← GetOrAllocate cfg s1 rid
  let prototypeStorage ← s2.getStorage prototype
  match prototypeStorage.resourceType with
  | none => .error .assertion
  | some resourceType =>
    let (p, s3) := s2.allocData
      { storage := rid, memory := false,
        fields := List.replicate resourceType.fieldsByIndex.length none }
    .ok (rid, s3.setStorage rid
      { rid := rid, uuid := uuid, resourceType := some resourceType, data := some p,
        prototype := some prototype })

def Repository.GetVersion (s : Repo) (rid : RID) : Except Fault Nat := do
  let storage ← s.getStorage rid
  .ok storage.version

def Repository.IsAlive (s : Repo) (rid : RID) : Except Fault Bool := do
  let storage ← s.getStorage rid
  .ok (decide (storage.rid.id ≠ 0))

def Repository.DestroyResource (s : Repo) (rid : RID) : Except Fault Repo := do
  let storage ← s.getStorage rid
  let s1 := s.enqueue { data := storage.data, destroySubObjects := true, destroyResource := true }
  .ok (s1.setStorage rid { storage with markedToDestroy := true })

/-! ## ResourceObject -/

/-- The field descriptor `m_data->storage->resourceType->fieldsByIndex[index]`. -/
def fieldOf (s : Repo) (d : ResourceData) (i : Nat) : Except Fault ResourceField := do
  let storage ← s.getStorage d.storage
  let resourceType ← deref storage.resourceType
  let field ← index resourceType.fieldsByIndex i
  deref field

/-- Stores `v` at `fields[i]`, pointing the entry into `memory` first when it is null. -/
def storeField (d : ResourceData) (i : Nat) (v : FieldValue) : Except Fault ResourceData := do
  let cell ← index d.fields i
  if cell.isSome || d.memory then .ok { d with fields := d.fields.set i (some v) }
  else .error .nullDeref

def ResourceObject.SetValue (s : Repo) (h : ResourceObject) (i : Nat) (v : Value) :
    Except Fault Repo := do
  let p ← deref h.m_data
  let d ← s.getData p
  let field ← fieldOf s d i
  if field.fieldType ≠ ResourceFieldType.Value then .error .assertion
  else do
    let _ ← deref field.typeHandler
    let d1 ← storeField d i (FieldValue.value v)
    .ok (s.setData p d1)

def ResourceObject.GetValue : Nat → Repo → ResourceObject → Nat → Except Fault (Option FieldValue)
  | 0, _, _, _ => .error .diverged
  | fuel + 1, s, h, i => do
    let p ← deref h.m_data
    let d ← s.getData p
    let ptr ← index d.fields i
    match ptr with
    | some v => .ok (some v)
    | none => do
      let storage ← s.getStorage d.storage
      match storage.prototype with
      | some q => do
        let proto ← s.getStorage q
        ResourceObject.GetValue fuel s ⟨proto.data⟩ i
      | none => .ok none

def ResourceObject.Commit (fuel : Nat) (s : Repo) (h : ResourceObject) :
    Except Fault (ResourceObject × Repo) := do
  let p ← deref h.m_data
  let d ← s.getData p
  let s1 := s.setData p { d with readOnly := true }
  let storage ← s1.getStorage d.storage
  match d.dataOnWrite with
  | some old =>
    if storage.data = some old then do
      let s2 := s1.setStorage d.storage { storage with data := some p }
      let s3 ← UpdateVersion fuel s2 d.storage
      .ok (⟨none⟩, s3.enqueue { data := some old, destroySubObjects := false, destroyResource := false })
    else
      .ok (h, s1.setData p { d with readOnly := true, dataOnWrite := storage.data })
  | none => do
    let s2 := s1.setStorage d.storage { storage with data := some p }
    let s3 ← UpdateVersion fuel s2 d.storage
    .ok (h, s3)

/-! ## Sub-object fields -/

/-- Reads the `SubObjectSetData` behind a non-null `fields[i]`. -/
def asSet : FieldValue → Except Fault SubObjectSetData
  | FieldValue.set d => .ok d
  | _ => .error .badCast

/-- Reads the `RID` behind a non-null `fields[i]`. -/
def asRID : FieldValue → Except Fault RID
  | FieldValue.rid r => .ok r
  | _ => .error .badCast

/-- Sets `storage->parent` and `storage->parentIndex` of the slot of `rid`. -/
def setOwner (s : Repo) (rid : RID) (parent : Option StoragePtr) (parentIndex : Nat) :
    Except Fault Repo := do
  let storage ← s.getStorage rid
  .ok (s.setStorage rid { storage with parent := parent, parentIndex := parentIndex })

def ResourceObject.SetSubObject (s : Repo) (h : ResourceObject) (i : Nat) (subobject : RID) :
    Except Fault Repo := do
  let p ← deref h.m_data
  let d ← s.getData p
  let field ← fieldOf s d i
  if field.fieldType ≠ ResourceFieldType.SubObject then .error .assertion
  else do
    let s1 ← setOwner s subobject (some d.storage) i
    let d1 ← storeField d i (FieldValue.rid subobject)
    .ok (s1.setData p d1)

/-- The `SubObjectSetData` at `fields[i]`, constructed empty when the entry is null. -/
def ensureSet (d : ResourceData) (i : Nat) : Except Fault SubObjectSetData := do
  let cell ← index d.fields i
  match cell with
  | some v => asSet v
  | none => if d.memory then .ok {} else .error .nullDeref

def ResourceObject.AddToSubObjectSet (s : Repo) (h : ResourceObject) (i : Nat)
    (subObjects : List RID) : Except Fault Repo := do
  let p ← deref h.m_data
  let d ← s.getData p
  let field ← fieldOf s d i
  if field.fieldType ≠ ResourceFieldType.SubObjectSet then .error .assertion
  else do
    let sd ← ensureSet d i
    let d0 ← storeField d i (FieldValue.set sd)
    let (s1, sd1) ← subObjects.foldlM
      (fun (acc : Repo × SubObjectSetData) rid => do
        let s2 ← setOwner acc.1 rid (some d.storage) i
        .ok (s2, { acc.2 with subObjects := acc.2.subObjects.Insert rid }))
      (s.setData p d0, sd)
    let d1 ← s1.getData p
    .ok (s1.setData p { d1 with fields := d1.fields.set i (some (FieldValue.set sd1)) })

def ResourceObject.RemoveFromSubObjectSet (s : Repo) (h : ResourceObject) (i : Nat)
    (subObjects : List RID) : Except Fault Repo := do
  let p ← deref h.m_data
  let d ← s.getData p
  let field ← fieldOf s d i
  if field.fieldType ≠ ResourceFieldType.SubObjectSet then .error .assertion
  else do
    let cell ← index d.fields i
    match cell with
    | none => .ok s
    | some v => do
      let sd ← asSet v
      let (s1, sd1) ← subObjects.foldlM
        (fun (acc : Repo × SubObjectSetData) rid => do
          let s2 ← setOwner acc.1 rid none U32_MAX
          .ok (s2, { acc.2 with subObjects := acc.2.subObjects.Erase rid }))
        (s, sd)
      let d1 ← s1.getData p
      .ok (s1.setData p { d1 with fields := d1.fields.set i (some (FieldValue.set sd1)) })

def ResourceObject.ClearSubObjectSet (s : Repo) (h : ResourceObject) (i : Nat) :
    Except Fault Repo := do
  let p ← deref h.m_data
  let d ← s.getData p
  let field ← fieldOf s d i
  if field.fieldType ≠ ResourceFieldType.SubObjectSet then .error .assertion
  else do
    let cell ← index d.fields i
    match cell with
    | none => .ok s
    | some v => do
      let sd ← asSet v
      let s1 ← sd.subObjects.foldlM (fun (acc : Repo) rid => setOwner acc rid none U32_MAX) s
      let d1 ← s1.getData p
      if sd.prototypeRemoved.isEmpty then
        .ok (s1.setData p { d1 with fields := d1.fields.set i none })
      else
        .ok (s1.setData p
          { d1 with fields := d1.fields.set i (some (FieldValue.set { sd with subObjects := [] })) })

def ResourceObject.RemoveFromPrototypeSubObjectSet (s : Repo) (h : ResourceObject) (i : Nat)
    (remove : List RID) : Except Fault Repo := do
  let p ← deref h.m_data
  let d ← s.getData p
  let field ← fieldOf s d i
  if field.fieldType ≠ ResourceFieldType.SubObjectSet then .error .assertion
  else do
    let sd ← ensureSet d i
    let d0 ← storeField d i (FieldValue.set sd)
    let sd1 := remove.foldl
      (fun (acc : SubObjectSetData) rid =>
        { acc with prototypeRemoved := acc.prototypeRemoved.Insert rid }) sd
    .ok (s.setData p { d0 with fields := d0.fields.set i (some (FieldValue.set sd1)) })

def ResourceObject.CancelRemoveFromPrototypeSubObjectSet (s : Repo) (h : ResourceObject) (i : Nat)
    (remove : List RID) : Except Fault Repo := do
  let p ← deref h.m_data
  let d ← s.getData p
  let field ← fieldOf s d i
  if field.fieldType ≠ ResourceFieldType.SubObjectSet then .error .assertion
  else do
    let sd ← ensureSet d i
    let d0 ← storeField d i (FieldValue.set sd)
    let sd1 := remove.foldl
      (fun (acc : SubObjectSetData) rid =>
        { acc with prototypeRemoved := acc.prototypeRemoved.Erase rid }) sd
    .ok (s.setData p { d0 with fields := d0.fields.set i (some (FieldValue.set sd1)) })

/-- The cast `static_cast<SubObjectSetData*>(data->fields[index])`, null when the entry is. -/
def setAt (d : ResourceData) (i : Nat) : Except Fault (Option SubObjectSetData) := do
  let cell ← index d.fields i
  match cell with
  | none => .ok none
  | some v => do
    let sd ← asSet v
    .ok (some sd)

def ResourceObject.ResourceSubObjectAllowed :
    Nat → Repo → Nat → Option DataPtr → Option DataPtr → RID → Except Fault Bool
  | 0, _, _, _, _, _ => .error .diverged
  | fuel + 1, s, i, data, ownerData, rid => do
    let removed ← match ownerData with
      | some o => do
        let od ← s.getData o
        let sd ← setAt od i
        match sd with
        | some x => .ok (x.prototypeRemoved.Has rid)
        | none => .ok false
      | none => .ok false
    if removed then .ok false
    else do
      let d ← s.getData (← deref data)
      let storage ← s.getStorage d.storage
      match storage.prototype with
      | some q => do
        let proto ← s.getStorage q
        ResourceObject.ResourceSubObjectAllowed fuel s i proto.data data rid
      | none => .ok true

/-- The state of the out-parameters `count` and `subObjects` of `ResourceGetSubObjectSet`. -/
structure Enumeration where
  count : Nat
  subObjects : Option (List RID)

/-- The statement `if (subObjects) (*subObjects)[count] = rid; count++`. -/
def Enumeration.push (e : Enumeration) (rid : RID) : Except Fault Enumeration :=
  match e.subObjects with
  | none => .ok { e with count := e.count + 1 }
  | some span =>
    if e.count < span.length then
      .ok { count := e.count + 1, subObjects := some (span.set e.count rid) }
    else .error .outOfBounds

def ResourceObject.ResourceGetSubObjectSet :
    Nat → Repo → Option DataPtr → Option DataPtr → Nat → Enumeration → Except Fault Enumeration
  | 0, _, _, _, _, _ => .error .diverged
  | fuel + 1, s, data, ownerData, i, e => do
    let d ← s.getData (← deref data)
    let subObjectSetData ← setAt d i
    let storage ← s.getStorage d.storage
    let e1 ← match storage.prototype with
      | some q => do
        let proto ← s.getStorage q
        ResourceObject.ResourceGetSubObjectSet fuel s proto.data data i e
      | none => .ok e
    match subObjectSetData with
    | none => .ok e1
    | some sd =>
      sd.subObjects.foldlM
        (fun (acc : Enumeration) rid => do
          let allowed ← ResourceObject.ResourceSubObjectAllowed fuel s i data ownerData rid
          if allowed then acc.push rid else .ok acc)
        e1

def ResourceObject.GetSubObjectSetCount (fuel : Nat) (s : Repo) (h : ResourceObject) (i : Nat) :
    Except Fault Nat := do
  let e ← ResourceObject.ResourceGetSubObjectSet fuel s h.m_data none i ⟨0, none⟩
  .ok e.count

/-- Runs `GetSubObjectSet(index, subObjects)` and returns the span afterwards. -/
def ResourceObject.GetSubObjectSet (fuel : Nat) (s : Repo) (h : ResourceObject) (i : Nat)
    (subObjects : List RID) : Except Fault (List RID) := do
  let e ← ResourceObject.ResourceGetSubObjectSet fuel s h.m_data none i ⟨0, some subObjects⟩
  match e.subObjects with
  | some span => .ok span
  | none => .ok subObjects

def ResourceObject.GetSubObjectSetAsArray (fuel : Nat) (s : Repo) (h : ResourceObject) (i : Nat) :
    Except Fault (List RID) := do
  let count ← ResourceObject.GetSubObjectSetCount fuel s h i
  ResourceObject.GetSubObjectSet fuel s h i (List.replicate (count % 2 ^ 32) RID.null)

/-! ## Reclamation -/

/-- The descriptor `data->storage->resourceType->fieldsByIndex[i]`, with the type itself. -/
def typeOf (s : Repo) (d : ResourceData) : Except Fault ResourceType := do
  let storage ← s.getStorage d.storage
  deref storage.resourceType

mutual

def DestroyData : Nat → Repo → Option DataPtr → Bool → Except Fault Repo
  | 0, _, _, _ => .error .diverged
  | _ + 1, s, none, _ => .ok s
  | fuel + 1, s, some p, destroySubObjects => do
    let d ← s.getData p
    let s1 ← if d.memory then do
        let s2 ← (List.range d.fields.length).foldlM
          (fun (acc : Repo) i => do
            let cur ← acc.getData p
            let cell ← index cur.fields i
            match cell with
            | none => .ok acc
            | some v => do
              let resourceType ← typeOf acc cur
              let field ← (← index resourceType.fieldsByIndex i) |> deref
              let acc1 ←
                if field.fieldType = ResourceFieldType.SubObjectSet then do
                  let sd ← asSet v
                  if destroySubObjects then
                    sd.subObjects.foldlM (fun (a : Repo) it => DestroyStorage fuel a it) acc
                  else .ok acc
                else if destroySubObjects ∧ field.fieldType = ResourceFieldType.SubObject then do
                  let suboject ← asRID v
                  DestroyStorage fuel acc suboject
                else .ok acc
              let cur1 ← acc1.getData p
              .ok (acc1.setData p { cur1 with fields := cur1.fields.set i none }))
          s
        let cur ← s2.getData p
        let _ ← typeOf s2 cur
        .ok (s2.setData p { cur with memory := false })
      else .ok s
    let _ ← s1.getData p
    .ok (s1.freeData p)

def DestroyStorage : Nat → Repo → StoragePtr → Except Fault Repo
  | 0, _, _ => .error .diverged
  | fuel + 1, s, p => do
    let storage ← s.getStorage p
    let s1 ← match storage.data with
      | some dp => DestroyData fuel s (some dp) true
      | none => .ok s
    let st ← s1.getStorage p
    let detach ← match st.parent with
      | some q =>
        if st.parentIndex ≠ U32_MAX then do
          let parentStorage ← s1.getStorage q
          .ok (if parentStorage.markedToDestroy then none else some parentStorage.rid)
        else .ok none
      | none => .ok none
    let s2 ← match detach with
      | some parentRid => do
        let (parent, s3) ← Repository.Write s1 parentRid
        let s4 ← parent.RemoveFromSubObjectSet s3 st.parentIndex [st.rid]
        let (parent1, s5) ← parent.Commit fuel s4
        match parent1.m_data with
        | some m => do
          let md ← s5.getData m
          if md.readOnly then .ok s5 else DestroyData fuel s5 (some m) true
        | none => .ok s5
      | none => .ok s1
    .ok (s2.setStorage p ResourceStorage.zeroed)

end

/-- The destructor `~ResourceObject`. -/
def ResourceObject.destroy (fuel : Nat) (s : Repo) (h : ResourceObject) : Except Fault Repo :=
  match h.m_data with
  | some m => do
    let md ← s.getData m
    if md.readOnly then .ok s else DestroyData fuel s (some m) true
  | none => .ok s

def Repository.GarbageCollect : Nat → Repo → Except Fault Repo
  | 0, _ => .error .diverged
  | fuel + 1, s =>
    match s.toCollectItems with
    | [] => .ok s
    | item :: rest => do
      let s1 := { s with toCollectItems := rest }
      let s2 ←
        if item.destroyResource then do
          let d ← s1.getData (← deref item.data)
          DestroyStorage fuel s1 d.storage
        else DestroyData fuel s1 item.data item.destroySubObjects
      Repository.GarbageCollect fuel s2

/-! ## Type registration -/

/-- The `ResourceType` under construction in `CreateResourceType`. The maps hold
pointers to shared `ResourceField` objects, here positions in `objs`. -/
structure TypeBuilder where
  size : Nat := 0
  objs : List ResourceField := []
  byName : List (String × Nat) := []
  byIndex : List (Option Nat)

/-- The call `fieldsByName.Emplace(name, MakeShared<ResourceField>(name, index, type)).first`. -/
def TypeBuilder.emplace (b : TypeBuilder) (c : ResourceFieldCreation) : Nat × TypeBuilder :=
  match b.byName.lookup c.name with
  | some k => (k, b)
  | none =>
    (b.objs.length,
      { b with objs := b.objs ++ [{ name := c.name, index := c.index, fieldType := c.type }],
               byName := b.byName ++ [(c.name, b.objs.length)] })

/-- The assignments `it->second->offset = size; it->second->typeHandler = h; size += n`. -/
def TypeBuilder.place (b : TypeBuilder) (k : Nat) (h : Option TypeHandler) (n : Nat) :
    TypeBuilder :=
  { b with
    objs := b.objs.modify (fun f => { f with typeHandler := h, offset := b.size }) k
    size := b.size + n }

/-- One iteration of the loop over `resourceTypeCreation.fields`. -/
def TypeBuilder.step (cfg : Config) (registry : TypeID → Option TypeHandler) (n : Nat)
    (b : TypeBuilder) (c : ResourceFieldCreation) : Except Fault TypeBuilder :=
  if ¬ c.index < n then .error .assertion
  else
    let (k, b1) := b.emplace c
    match b1.byIndex[c.index]? with
    | none => .error .outOfBounds
    | some (some _) => .error .assertion
    | some none =>
      let b2 := { b1 with byIndex := b1.byIndex.set c.index (some k) }
      match c.type with
      | ResourceFieldType.Value =>
        match registry c.valueId with
        | none => .error .assertion
        | some h => .ok (b2.place k (some h) h.size)
      | ResourceFieldType.SubObject =>
        .ok (b2.place k (registry cfg.typeIdRID) cfg.sizeofRID)
      | ResourceFieldType.SubObjectSet =>
        .ok (b2.place k (registry cfg.typeIdSubObjectSetData) cfg.sizeofSubObjectSetData)
      | ResourceFieldType.Stream =>
        .ok (b2.place k (registry cfg.typeIdStreamObject) cfg.sizeofStreamObject)
      | ResourceFieldType.Undefined => .ok b2

/-- The finished `ResourceType`, pointers replaced by the objects they point at. -/
def TypeBuilder.finish (b : TypeBuilder) (c : ResourceTypeCreation) : ResourceType :=
  { name := c.name, typeId := c.typeId, size := b.size, alignment := 0,
    fieldsByName := b.byName.filterMap (fun e => (b.objs[e.2]?).map (fun f => (e.1, f))),
    fieldsByIndex := b.byIndex.map (fun o => o.bind (fun k => b.objs[k]?)),
    typeHandler := none }

def Repository.CreateResourceType (cfg : Config) (s : Repo) (c : ResourceTypeCreation) :
    Except Fault Repo := do
  let n := c.fields.length
  let b ← c.fields.foldlM (TypeBuilder.step cfg s.registry n) { byIndex := List.replicate n none }
  let resourceType := b.finish c
  .ok { s with
    resourceTypesByName := mapInsert s.resourceTypesByName c.name resourceType
    resourceTypes := mapInsert s.resourceTypes c.typeId resourceType }

/-- The state before `RepositoryInit`: nothing allocated, nothing registered but the
handlers of the external registry. -/
def Repo.empty (registry : TypeID → Option TypeHandler) : Repo :=
  { registry := registry, resourceTypes := fun _ => none, resourceTypesByName := fun _ => none,
    counter := 0, pageCount := 0, pages := fun _ => false, storages := fun _ => none,
    datas := fun _ => none, nextData := 0, byUUID := fun _ => none, byPath := fun _ => none,
    toCollectItems := [] }

/-- The function `RepositoryInit`: `Repository::CreateResource({})`. -/
def RepositoryInit (cfg : Config) (s : Repo) : Except Fault Repo := do
  let (_, s1) ← Repository.CreateResource cfg s 0 UUID.null
  .ok s1

/-! ## Scenarios and state predicates used by the properties -/

/-- The sequence `h = Write(rid); op(h); h.Commit()` for a mutation `op` of the handle. -/
def writeCommit (fuel : Nat) (s : Repo) (rid : RID)
    (op : ResourceObject → Repo → Except Fault Repo) : Except Fault Repo := do
  let (h, s1) ← Repository.Write s rid
  let s2 ← op h s1
  let (_, s3) ← h.Commit fuel s2
  .ok s3

/-- The sequence `h = Write(rid); h.SetValue(i, v); h.Commit()`. -/
def writeSetCommit (fuel : Nat) (s : Repo) (rid : RID) (i : Nat) (v : Value) :
    Except Fault Repo :=
  writeCommit fuel s rid (fun h s1 => h.SetValue s1 i v)

/-- The expression `Read(rid).GetValue(i)`. -/
def readValue (fuel : Nat) (s : Repo) (rid : RID) (i : Nat) : Except Fault (Option FieldValue) := do
  let r ← Repository.Read s rid
  r.GetValue fuel s i

/-- The slots reached from `p` by following `parent`, `p` first, at most `n` of them. -/
def owners : Nat → Repo → StoragePtr → List StoragePtr
  | 0, _, _ => []
  | n + 1, s, p =>
    p :: match s.getStorage p with
      | .ok st =>
        match st.parent with
        | some q => owners n s q
        | none => []
      | .error _ => []

/-- The owner chain of `p` ends after exactly `n` readable slots. -/
def ownerChain : Nat → Repo → StoragePtr → Prop
  | 0, _, _ => False
  | n + 1, s, p =>
    ∃ st, s.getStorage p = .ok st ∧
      match st.parent with
      | some q => ownerChain n s q
      | none => n = 0

/-- Addresses from the allocation frontier on hold no `ResourceData`. -/
def Repo.HeapFresh (s : Repo) : Prop := ∀ a, s.nextData ≤ a → s.datas a = none

instance decEqRun {α : Type} [DecidableEq α] : DecidableEq (Except Fault α)
  | .ok a, .ok b =>
    if h : a = b then isTrue (by rw [h]) else isFalse (by intro h2; cases h2; exact h rfl)
  | .error a, .error b =>
    if h : a = b then isTrue (by rw [h]) else isFalse (by intro h2; cases h2; exact h rfl)
  | .ok _, .error _ => isFalse (by intro h; cases h)
  | .error _, .ok _ => isFalse (by intro h; cases h)

/-- The fault of a failed run, if it failed. -/
def faultOf {α : Type} : Except Fault α → Option Fault
  | .ok _ => none
  | .error e => some e

/-- The result of a successful run, if it succeeded. -/
def valueOf {α : Type} : Except Fault α → Option α
  | .ok a => some a
  | .error _ => none

/-! ## Specification vocabulary -/

/-- The increment `version++` on the 32-bit counter. -/
def bump (st : ResourceStorage) : ResourceStorage :=
  { st with version := (st.version + 1) % 2 ^ 32 }

/-- The state in which exactly the slots listed in `l` had their version incremented. -/
def bumpAll (s : Repo) (l : List StoragePtr) : Repo :=
  { s with storages := fun q => if q ∈ l then (s.storages q).map bump else s.storages q }

/-- Two states whose slots are readable at the same places with the same owner links. -/
def SameOwners (s s' : Repo) : Prop :=
  ∀ p st, s.getStorage p = .ok st → ∃ st', s'.getStorage p = .ok st' ∧ st'.parent = st.parent

/-- What the copy-forward loop of `Write` leaves in entry `j` for a source entry `c`. -/
def copyCell (T : ResourceType) (j : Nat) (c : Option FieldValue) : Option FieldValue :=
  match c with
  | none => none
  | some v =>
    match T.fieldsByIndex[j]? with
    | some (some f) => if f.typeHandler.isSome then some v else some FieldValue.garbage
    | _ => some FieldValue.garbage

/-- Every index of the type has a field descriptor. -/
def ResourceType.Complete (T : ResourceType) : Prop :=
  ∀ j, j < T.fieldsByIndex.length → ∃ g, T.fieldsByIndex[j]? = some (some g)

/-- The snapshot a write handle starts from: the fields of the current snapshot, or
`n` null entries when the storage has none. -/
def IsSource (s : Repo) (st : ResourceStorage) (n : Nat) (src : List (Option FieldValue)) : Prop :=
  match st.data with
  | some dp => ∃ d, s.datas dp = some d ∧ d.fields = src
  | none => src = List.replicate n none

/-- The snapshot `Write(rid)` allocates, holding the copied fields `fs`. -/
def freshSnapshot (rid : RID) (st : ResourceStorage) (fs : List (Option FieldValue)) :
    ResourceData :=
  { storage := rid, memory := true, fields := fs, dataOnWrite := st.data, readOnly := false }

/-- The state a successful `Commit` of the snapshot at `p` leaves, before the replaced
snapshot is queued. -/
def committed (s : Repo) (p : DataPtr) (d : ResourceData) (st : ResourceStorage)
    (l : List StoragePtr) : Repo :=
  bumpAll ((s.setData p { d with readOnly := true }).setStorage d.storage
    { st with data := some p }) l

/-- The state after `Write(rid)`, some mutations of the handle and a successful `Commit`:
the new snapshot holds `fields`, it is installed at `rid`, the versions of the slots in `l`
are incremented and the replaced snapshot, if any, is queued for reclamation. -/
def afterWrite (s : Repo) (rid : RID) (st : ResourceStorage) (fields : List (Option FieldValue))
    (l : List StoragePtr) : Repo :=
  { bumpAll
      { s with
        datas := upd s.datas s.nextData (some
          { storage := rid, memory := true, fields := fields, dataOnWrite := st.data,
            readOnly := true })
        nextData := s.nextData + 1
        storages := upd s.storages rid (some { st with data := some s.nextData }) } l with
    toCollectItems := s.toCollectItems ++
      match st.data with
      | some old => [{ data := some old, destroySubObjects := false, destroyResource := false }]
      | none => [] }

/-- State `s'` still holds every snapshot of `s`, and every readable slot of `s` is readable
in `s'` with the same prototype link and, outside `E`, the same current snapshot. -/
structure Keeps (s s' : Repo) (E : StoragePtr → Prop) : Prop where
  datas : ∀ a d, s.datas a = some d → s'.datas a = some d
  storages : ∀ q st, s.getStorage q = .ok st →
    ∃ st', s'.getStorage q = .ok st' ∧ st'.prototype = st.prototype ∧ (¬ E q → st'.data = st.data)

/-- The identifier the next call of `GetID` returns. -/
def nextRID (cfg : Config) (s : Repo) : RID := ⟨OFFSET cfg s.counter, PAGE cfg s.counter⟩

/-- The state after `CreateFromPrototype(p)` for a prototype of type `T`. -/
def afterClone (cfg : Config) (s : Repo) (p : RID) (T : ResourceType) : Repo :=
  { s with
    counter := (s.counter + 1) % 2 ^ 64
    byUUID := mapInsert s.byUUID UUID.null (nextRID cfg s)
    pages := upd s.pages (nextRID cfg s).page true
    pageCount := if s.pages (nextRID cfg s).page then s.pageCount else s.pageCount + 1
    datas := upd s.datas s.nextData (some
      { storage := nextRID cfg s, memory := false,
        fields := List.replicate T.fieldsByIndex.length none })
    nextData := s.nextData + 1
    storages := upd s.storages (nextRID cfg s) (some
      { rid := nextRID cfg s, uuid := UUID.null, resourceType := some T,
        data := some s.nextData, prototype := some p }) }

/-- The slot of the next identifier has not been constructed yet. -/
def Repo.SlotFresh (cfg : Config) (s : Repo) : Prop := s.storages (nextRID cfg s) = none

/-- The sequence `clone = CreateFromPrototype(p); h = Write(clone); h.SetValue(i, v);
h.Commit()`. -/
def cloneOverride (cfg : Config) (fuel : Nat) (s : Repo) (p : RID) (i : Nat) (v : Value) :
    Except Fault (RID × Repo) := do
  let (clone, s1) ← Repository.CreateFromPrototype cfg s p UUID.null
  let s2 ← writeSetCommit fuel s1 clone i v
  .ok (clone, s2)

/-- The state after `CreateResource(typeId)`. -/
def afterCreate (cfg : Config) (s : Repo) (typeId : TypeID) : Repo :=
  { s with
    counter := (s.counter + 1) % 2 ^ 64
    byUUID := mapInsert s.byUUID UUID.null (nextRID cfg s)
    pages := upd s.pages (nextRID cfg s).page true
    pageCount := if s.pages (nextRID cfg s).page then s.pageCount else s.pageCount + 1
    storages := upd s.storages (nextRID cfg s) (some
      { rid := nextRID cfg s, uuid := UUID.null, resourceType := s.resourceTypes typeId,
        data := none }) }

/-- The schema of the type `T` with one Value field "Health" at index 0. -/
def healthSchema (typeId valueId : TypeID) : ResourceTypeCreation :=
  { name := "T", typeId := typeId,
    fields := [{ name := "Health", index := 0, type := ResourceFieldType.Value, valueId := valueId }] }

/-- Registers `T`, creates a resource of it, writes 100 to "Health", commits, and reports
`(Read(rid).GetValue(0), GetVersion(rid))`. -/
def healthScenario (cfg : Config) (s : Repo) (typeId valueId : TypeID) :
    Except Fault (Option FieldValue × Nat) := do
  let s1 ← Repository.CreateResourceType cfg s (healthSchema typeId valueId)
  let (rid, s2) ← Repository.CreateResource cfg s1 typeId UUID.null
  let s3 ← writeSetCommit 1 s2 rid 0 100
  let v ← readValue 1 s3 rid 0
  let version ← Repository.GetVersion s3 rid
  .ok (v, version)

/-- The descriptor `CreateResourceType` builds for "Health", given the value's handler. -/
def healthField (h : TypeHandler) : ResourceField :=
  { name := "Health", index := 0, fieldType := ResourceFieldType.Value, typeHandler := some h,
    offset := 0 }

/-- The type `CreateResourceType` builds from `healthSchema`. -/
def healthType (typeId : TypeID) (h : TypeHandler) : ResourceType :=
  { name := "T", typeId := typeId, size := h.size, alignment := 0,
    fieldsByName := [("Health", healthField h)], fieldsByIndex := [some (healthField h)],
    typeHandler := none }

/-- Local members of a set field: none when the field is absent. -/
def localOf : Option SubObjectSetData → HashSet
  | some sd => sd.subObjects
  | none => []

/-- Identifiers a set field removes relative to the prototype: none when the field is absent. -/
def removedOf : Option SubObjectSetData → HashSet
  | some sd => sd.prototypeRemoved
  | none => []

/-- Runs `if (subObjects) (*subObjects)[count] = rid; count++` for each identifier in turn. -/
def pushAll (e : Enumeration) (ids : List RID) : Except Fault Enumeration :=
  ids.foldlM Enumeration.push e

/-- One iteration of the loop over `subObjectSetData->subObjects` in
`ResourceGetSubObjectSet`, for a test `al` standing for `ResourceSubObjectAllowed`. -/
def enumStep (al : RID → Except Fault Bool) (acc : Enumeration) (rid : RID) :
    Except Fault Enumeration := do
  let allowed ← al rid
  if allowed then acc.push rid else .ok acc

/-- The identifiers of `l` the test `al` lets through. -/
def allowedOf (al : RID → Except Fault Bool) (l : List RID) : List RID :=
  l.filter (fun r => match al r with
    | .ok true => true
    | _ => false)

/-- The members of `l` not listed in the prototype-removed set of `oc`. -/
def visible (oc : Option SubObjectSetData) (l : List RID) : List RID :=
  l.filter (fun r => !(removedOf oc).Has r)

/-- Snapshot `ac` belongs to a resource whose prototype has no prototype of its own and has
the current snapshot `ap`; `oc` and `op` are their set fields at index `i`. -/
def IsClone (s : Repo) (i : Nat) (ac ap : DataPtr) (oc op : Option SubObjectSetData) : Prop :=
  ∃ dc dp sc sp sp' p, s.datas ac = some dc ∧ s.datas ap = some dp ∧
    setAt dc i = .ok oc ∧ setAt dp i = .ok op ∧
    s.getStorage dc.storage = .ok sc ∧ sc.prototype = some p ∧
    s.getStorage p = .ok sp ∧ sp.data = some ap ∧
    s.getStorage dp.storage = .ok sp' ∧ sp'.prototype = none

/-- Snapshot `ac` belongs to a resource whose prototype has the current snapshot `ap`; `oc`
is the set field of `ac` at index `i` and `lp` are the local members of the set field of
`ap`. The prototype may have a prototype chain of its own. -/
def IsCloneOf (s : Repo) (i : Nat) (ac ap : DataPtr) (oc : Option SubObjectSetData)
    (lp : List RID) : Prop :=
  ∃ dc dp sc sp p op, s.datas ac = some dc ∧ s.datas ap = some dp ∧
    setAt dc i = .ok oc ∧ setAt dp i = .ok op ∧ localOf op = lp ∧
    s.getStorage dc.storage = .ok sc ∧ sc.prototype = some p ∧
    s.getStorage p = .ok sp ∧ sp.data = some ap

/-- The expression `Read(rid).GetSubObjectSetCount(i)`. -/
def readCount (fuel : Nat) (s : Repo) (rid : RID) (i : Nat) : Except Fault Nat := do
  let r ← Repository.Read s rid
  r.GetSubObjectSetCount fuel s i

/-- The scenario of sub-object-set inheritance: `clone = CreateFromPrototype(p)`, then
`RemoveFromPrototypeSubObjectSet(f, x)` committed on the clone, then
`CancelRemoveFromPrototypeSubObjectSet(f, x)` committed on the clone. Reports the count on the
clone after each step and the count on `p` after the removal. -/
def inheritScenario (cfg : Config) (fuel : Nat) (s : Repo) (p : RID) (f : Nat) (x : RID) :
    Except Fault (Nat × Nat × Nat × Nat) := do
  let (clone, s1) ← Repository.CreateFromPrototype cfg s p UUID.null
  let n0 ← readCount fuel s1 clone f
  let s2 ← writeCommit 1 s1 clone (fun h t => h.RemoveFromPrototypeSubObjectSet t f [x])
  let n1 ← readCount fuel s2 clone f
  let np ← readCount fuel s2 p f
  let s3 ← writeCommit 1 s2 clone (fun h t => h.CancelRemoveFromPrototypeSubObjectSet t f [x])
  let n2 ← readCount fuel s3 clone f
  .ok (n0, n1, np, n2)

/-! ## Concrete states -/

namespace demo

def cfg : Config :=
  { pageSize := 4096, sizeofRID := 8, sizeofSubObjectSetData := 64, sizeofStreamObject := 16,
    typeIdRID := 1, typeIdSubObjectSetData := 2, typeIdStreamObject := 3 }

/-- External registry knowing `RID`, `SubObjectSetData`, `StreamObject` and `u32` (id 10). -/
def registry : TypeID → Option TypeHandler := fun t =>
  if t = 1 then some ⟨1, 8⟩
  else if t = 2 then some ⟨2, 64⟩
  else if t = 3 then some ⟨3, 16⟩
  else if t = 10 then some ⟨10, 4⟩
  else none

/-- The state of a run, the empty repository if it faulted. -/
def orEmpty (r : Except Fault Repo) : Repo :=
  match r with
  | .ok s => s
  | .error _ => Repo.empty registry

/-- A type with a Value field, a SubObjectSet field and a SubObject field. -/
def nodeSchema : ResourceTypeCreation :=
  { name := "Node", typeId := 78,
    fields := [{ name := "Health", index := 0, type := ResourceFieldType.Value, valueId := 10 },
               { name := "Children", index := 1, type := ResourceFieldType.SubObjectSet },
               { name := "Link", index := 2, type := ResourceFieldType.SubObject }] }

/-- After `RepositoryInit`. -/
def init : Repo := orEmpty (RepositoryInit cfg (Repo.empty registry))

/-- After registering the types `T` (id 77) and `Node` (id 78). -/
def registered : Repo := orEmpty (do
  let s1 ← Repository.CreateResourceType cfg init (healthSchema 77 10)
  Repository.CreateResourceType cfg s1 nodeSchema)

/-- After creating one resource of type `T`: it gets the identifier `(offset 1, page 0)`. -/
def created : Repo := orEmpty (do
  let (_, s1) ← Repository.CreateResource cfg registered 77 UUID.null
  .ok s1)

/-- After a first commit on that resource, Health = 7. -/
def populated : Repo := orEmpty (writeSetCommit 1 created ⟨1, 0⟩ 0 7)

/-- The populated state with the version counter of the resource at its maximum. -/
def wrapping : Repo :=
  match populated.storages ⟨1, 0⟩ with
  | some st => populated.setStorage ⟨1, 0⟩ { st with version := U32_MAX }
  | none => populated

/-- Versions of `(1, 0)` before and after `Write` and `Commit` in the state `wrapping`. -/
def wrapScenario : Except Fault (Nat × Nat) := do
  let before ← Repository.GetVersion wrapping ⟨1, 0⟩
  let (h, s1) ← Repository.Write wrapping ⟨1, 0⟩
  let (_, s2) ← h.Commit 1 s1
  let after ← Repository.GetVersion s2 ⟨1, 0⟩
  .ok (before, after)

/-- `p = CreateResource(T); clone = CreateFromPrototype(p)` with nothing committed to `p`,
then `(Read(clone).GetValue(0), Read(p).GetValue(0))` with the given fuel. -/
def emptyPrototypeScenario (fuel : Nat) :
    Except Fault (Except Fault (Option FieldValue) × Except Fault (Option FieldValue)) := do
  let (p, s1) ← Repository.CreateResource cfg registered 77 UUID.null
  let (clone, s2) ← Repository.CreateFromPrototype cfg s1 p UUID.null
  .ok (readValue fuel s2 clone 0, readValue fuel s2 p 0)

/-- A prototype `(1, 0)` owning `(2, 0)` and `(3, 0)` in its set field 1, and its clone
`(5, 0)`, which adds `(4, 0)` and removes `(2, 0)` relative to the prototype. The snapshots
are at address 0 (prototype) and 2 (clone). -/
def family : Repo := orEmpty (do
  let (p, s1) ← Repository.CreateResource cfg registered 78 UUID.null
  let (x1, s2) ← Repository.CreateResource cfg s1 78 UUID.null
  let (x2, s3) ← Repository.CreateResource cfg s2 78 UUID.null
  let (y, s4) ← Repository.CreateResource cfg s3 78 UUID.null
  let s5 ← writeCommit 1 s4 p (fun h t => h.AddToSubObjectSet t 1 [x1, x2])
  let (c, s6) ← Repository.CreateFromPrototype cfg s5 p UUID.null
  writeCommit 1 s6 c (fun h t => do
    let t1 ← h.AddToSubObjectSet t 1 [y]
    h.RemoveFromPrototypeSubObjectSet t1 1 [x1]))

/-- A clone `(3, 0)` of the populated `(1, 0)` that adds `x = (2, 0)` to its set field 1 and
also lists `x` as removed relative to the prototype. Reports `GetSubObjectSetCount(1)` on the
clone, what `GetSubObjectSet(1)` leaves in a span of one null identifier, and the clone's own
set field. -/
def removedLocalScenario : Except Fault (Nat × List RID × Option FieldValue) := do
  let (p, s1) ← Repository.CreateResource cfg registered 78 UUID.null
  let s2 ← writeSetCommit 1 s1 p 0 5
  let (x, s3) ← Repository.CreateResource cfg s2 78 UUID.null
  let (c, s4) ← Repository.CreateFromPrototype cfg s3 p UUID.null
  let s5 ← writeCommit 1 s4 c (fun h t => do
    let t1 ← h.AddToSubObjectSet t 1 [x]
    h.RemoveFromPrototypeSubObjectSet t1 1 [x])
  let r ← Repository.Read s5 c
  let count ← r.GetSubObjectSetCount 3 s5 1
  let out ← r.GetSubObjectSet 3 s5 1 [RID.null]
  let d ← s5.getData (← deref r.m_data)
  let cell ← index d.fields 1
  .ok (count, out, cell)

/-- `IsAlive` of each of the given identifiers. -/
def aliveFlags (s : Repo) (rids : List RID) : Except Fault (List Bool) :=
  rids.mapM (Repository.IsAlive s)

/-- Ownership of depth 1: the root `(1, 0)` holds `(2, 0)` in its set field 1 and `(3, 0)` in
its SubObject field 2. Runs `DestroyResource(root); GarbageCollect()` and reports `IsAlive`
of the three identifiers. -/
def cascadeFlatScenario (fuel : Nat) : Except Fault (List Bool) := do
  let (root, s1) ← Repository.CreateResource cfg registered 78 UUID.null
  let (c1, s2) ← Repository.CreateResource cfg s1 78 UUID.null
  let (c2, s3) ← Repository.CreateResource cfg s2 78 UUID.null
  let s4 ← writeCommit 1 s3 root (fun h t => do
    let t1 ← h.AddToSubObjectSet t 1 [c1]
    h.SetSubObject t1 2 c2)
  let s5 ← Repository.DestroyResource s4 root
  let s6 ← Repository.GarbageCollect fuel s5
  aliveFlags s6 [root, c1, c2]

/-- Ownership of depth 2 through a SubObject field: the root `(1, 0)` holds the child
`(2, 0)` in its set field 1, and the child holds the grandchild `(3, 0)` in its SubObject
field 2. Runs `DestroyResource(root); GarbageCollect()`. -/
def cascadeLinkScenario (fuel : Nat) : Except Fault (List Bool) := do
  let (root, s1) ← Repository.CreateResource cfg registered 78 UUID.null
  let (child, s2) ← Repository.CreateResource cfg s1 78 UUID.null
  let (grandchild, s3) ← Repository.CreateResource cfg s2 78 UUID.null
  let s4 ← writeCommit 1 s3 root (fun h t => h.AddToSubObjectSet t 1 [child])
  let s5 ← writeCommit 2 s4 child (fun h t => h.SetSubObject t 2 grandchild)
  let s6 ← Repository.DestroyResource s5 root
  let s7 ← Repository.GarbageCollect fuel s6
  aliveFlags s7 [root, child, grandchild]

/-- Ownership of depth 2 through set fields: the root `(1, 0)` holds the child `(2, 0)` in
its set field 1, and the child holds the grandchild `(3, 0)` in its set field 1. Runs
`DestroyResource(root); GarbageCollect()`. -/
def cascadeSetScenario (fuel : Nat) : Except Fault (List Bool) := do
  let (root, s1) ← Repository.CreateResource cfg registered 78 UUID.null
  let (child, s2) ← Repository.CreateResource cfg s1 78 UUID.null
  let (grandchild, s3) ← Repository.CreateResource cfg s2 78 UUID.null
  let s4 ← writeCommit 1 s3 root (fun h t => h.AddToSubObjectSet t 1 [child])
  let s5 ← writeCommit 2 s4 child (fun h t => h.AddToSubObjectSet t 1 [grandchild])
  let s6 ← Repository.DestroyResource s5 root
  let s7 ← Repository.GarbageCollect fuel s6
  aliveFlags s7 [root, child, grandchild]

end demo

/-! ## Vocabulary of the write path -/

/-- Every field present in the list `fields` has a descriptor with a type handler in `T`, so
that `Write` copies it with the handler's `Copy`. -/
def Copyable (T : ResourceType) (fields : List (Option FieldValue)) : Prop :=
  ∀ (i : Nat) (v : FieldValue), fields[i]? = some (some v) →
    ∃ f, T.fieldsByIndex[i]? = some (some f) ∧ f.typeHandler ≠ none

/-- Two write handles on the same resource: `h1 = Write(rid); h2 = Write(rid);
h1.SetValue(i, v1); h2.SetValue(i, v2); h1.Commit(); h2.Commit()`. Reports the state after
`h1.Commit()`, the state after `h2.Commit()` and the handle `h2` after its `Commit()`. -/
def conflictScenario (fuel : Nat) (s : Repo) (rid : RID) (i : Nat) (v1 v2 : Value) :
    Except Fault (Repo × Repo × ResourceObject) := do
  let (h1, s1) ← Repository.Write s rid
  let (h2, s2) ← Repository.Write s1 rid
  let s3 ← h1.SetValue s2 i v1
  let s4 ← h2.SetValue s3 i v2
  let (_, s5) ← h1.Commit fuel s4
  let (h2', s6) ← h2.Commit fuel s5
  .ok (s5, s6, h2')

/-! ## Identifier allocation -/

/-- The identifiers `n` successive calls of `GetID` hand out, oldest first, and the state
afterwards. -/
def allocate (cfg : Config) : Nat → Repo → List RID × Repo
  | 0, s => ([], s)
  | n + 1, s =>
    let r := GetID cfg s
    let rest := allocate cfg n r.2
    (r.1 :: rest.1, rest.2)

/-- The identifier with page `n div PAGE_SIZE` and offset `n mod PAGE_SIZE`. -/
def ridOfIndex (cfg : Config) (n : Nat) : RID := ⟨n % cfg.pageSize, n / cfg.pageSize⟩

/-! ## The UUID index -/

def Repository.GetByUUID (s : Repo) (uuid : UUID) : RID :=
  match s.byUUID uuid with
  | some rid => rid
  | none => RID.null

def Repository.GetOrCreateByUUID (cfg : Config) (s : Repo) (uuid : UUID) (typeId : TypeID) :
    Except Fault (RID × Repo) :=
  match s.byUUID uuid with
  | some rid => .ok (rid, s)
  | none =>
    let r := GetID cfg s
    let s2 := { r.2 with byUUID := mapInsert r.2.byUUID uuid r.1 }
    if s2.pages r.1.page then
      .ok (r.1, s2.setStorage r.1
        { rid := r.1, uuid := uuid, resourceType := s2.resourceTypes typeId, data := none })
    else .error .nullDeref

/-- One of the calls that take a UUID. -/
inductive UuidCall where
  | getOrCreate (typeId : TypeID)
  | create (typeId : TypeID)
  | fromPrototype (prototype : RID)

/-- The calls that go through `GetOrAllocate`. -/
def UuidCall.allocates : UuidCall → Bool
  | .getOrCreate _ => false
  | .create _ => true
  | .fromPrototype _ => true

def UuidCall.run (cfg : Config) (s : Repo) (uuid : UUID) : UuidCall → Except Fault (RID × Repo)
  | .getOrCreate t => Repository.GetOrCreateByUUID cfg s uuid t
  | .create t => Repository.CreateResource cfg s t uuid
  | .fromPrototype p => Repository.CreateFromPrototype cfg s p uuid

/-- Runs the calls in turn, all with the same UUID, and collects the identifiers returned. -/
def runCalls (cfg : Config) (uuid : UUID) : List UuidCall → Repo → Except Fault (List RID × Repo)
  | [], s => .ok ([], s)
  | c :: cs, s => do
    let r ← c.run cfg s uuid
    let rest ← runCalls cfg uuid cs r.2
    .ok (r.1 :: rest.1, rest.2)

/-- The UUID index maps only to identifiers handed out so far, and no two non-null UUIDs to
the same identifier. -/
structure UuidIndexOk (cfg : Config) (s : Repo) : Prop where
  handedOut : ∀ (v : UUID) (r : RID), s.byUUID v = some r →
    ∃ n, n < s.counter ∧ r = ridOfIndex cfg n
  injective : ∀ (v w : UUID) (r : RID), v.toBool = true → w.toBool = true →
    s.byUUID v = some r → s.byUUID w = some r → v = w

/-- The identifier the calls with `uuid` return: the one the index holds, or else the next
one to be handed out. -/
def uuidTarget (cfg : Config) (s : Repo) (uuid : UUID) : RID :=
  match s.byUUID uuid with
  | some rid => rid
  | none => nextRID cfg s

/-- The prototype of a `CreateFromPrototype` call is a typed resource other than `r`. -/
def UuidCall.PrototypeOk (s : Repo) (r : RID) : UuidCall → Prop
  | .fromPrototype p => p ≠ r ∧ ∃ sp T, s.getStorage p = .ok sp ∧ sp.resourceType = some T
  | _ => True

/-- What the calls leave alone once `uuid` is mapped to `r`. -/
structure SameIndex (s s' : Repo) (r : RID) : Prop where
  byUUID : s'.byUUID = s.byUUID
  counter : s'.counter = s.counter
  pages : s'.pages = s.pages
  storages : ∀ q, q ≠ r → s'.storages q = s.storages q

/-! ## Type registration -/

/-- The schema entry names a value type the registry knows. -/
def KnownValue (registry : TypeID → Option TypeHandler) (c : ResourceFieldCreation) : Prop :=
  c.type = ResourceFieldType.Value → registry c.valueId ≠ none

/-- The builder after the index entry of `c` has been filled. -/
def TypeBuilder.claim (b : TypeBuilder) (c : ResourceFieldCreation) : TypeBuilder :=
  { (b.emplace c).2 with byIndex := b.byIndex.set c.index (some (b.emplace c).1) }

/-- Modelled from the spec: the template `GetValue<T>(index)` of `ResourceObject.hpp`, which
`GetSubObject` instantiates at `RID`, is not among the sources; it is taken to read the
identifier recorded in the field slot through the pointer `GetValue(index)` returns. -/
def ResourceObject.GetSubObject (fuel : Nat) (s : Repo) (h : ResourceObject) (i : Nat) :
    Except Fault RID := do
  let ptr ← ResourceObject.GetValue fuel s h i
  match ptr with
  | some v => asRID v
  | none => .error .nullDeref

/-- The local members of set field `i` in the snapshot of handle `h`. -/
def localMembers (s : Repo) (h : ResourceObject) (i : Nat) : Except Fault HashSet := do
  let d ← s.getData (← deref h.m_data)
  let sd ← setAt d i
  .ok (localOf sd)

/-- The owner slot of a resource: `(storage->parent, storage->parentIndex)`. -/
def ownerSlot (s : Repo) (rid : RID) : Except Fault (Option StoragePtr × Nat) := do
  let storage ← s.getStorage rid
  .ok (storage.parent, storage.parentIndex)

/-- Slot `st'` is slot `st` up to the owner slot. -/
def SameButOwner (st st' : ResourceStorage) : Prop :=
  st' = { st with parent := st'.parent, parentIndex := st'.parentIndex }

/-- State `s'` has every readable slot of `s` readable, changed at most in its owner slot. -/
def OwnersOnly (s s' : Repo) : Prop :=
  ∀ (q : StoragePtr) (sq : ResourceStorage), s.getStorage q = .ok sq →
    ∃ sq', s'.getStorage q = .ok sq' ∧ SameButOwner sq sq'

/-! ## Operations on installed snapshots -/

def Repository.ClearValues (s : Repo) (rid : RID) : Except Fault Repo := do
  let storage ← s.getStorage rid
  match storage.data with
  | none => .ok s
  | some p => do
    let data ← s.getData p
    if data.memory then do
      let s1 ← (List.range data.fields.length).foldlM
        (fun (acc : Repo) i => do
          let cur ← acc.getData p
          let cell ← index cur.fields i
          match cell with
          | none => .ok acc
          | some _ => do
            let resourceType ← typeOf acc cur
            let field ← (← index resourceType.fieldsByIndex i) |> deref
            let _ ← deref field.typeHandler
            .ok (acc.setData p { cur with fields := cur.fields.set i none }))
        s
      let cur ← s1.getData p
      .ok (s1.setData p { cur with memory := false })
    else .ok s

def Repository.SetUUID (s : Repo) (rid : RID) (uuid : UUID) : Except Fault Repo := do
  let storage ← s.getStorage rid
  let s1 := s.setStorage rid { storage with uuid := uuid }
  .ok { s1 with byUUID := mapInsert s1.byUUID uuid rid }

def Repository.SetPath (s : Repo) (rid : RID) (path : String) : Repo :=
  { s with byPath := mapInsert (upd s.byPath path none) path rid }

def Repository.RemovePath (s : Repo) (path : String) : Repo :=
  { s with byPath := upd s.byPath path none }

def Repository.InactiveResource (s : Repo) (rid : RID) : Except Fault Repo := do
  let storage ← s.getStorage rid
  .ok (s.setStorage rid { storage with active := false, version := 0 })

/-- The calls of the public interface that mutate through a handle. -/
inductive HandleOp where
  | setValue (i : Nat) (v : Value)
  | setSubObject (i : Nat) (subobject : RID)
  | addToSubObjectSet (i : Nat) (subObjects : List RID)
  | removeFromSubObjectSet (i : Nat) (subObjects : List RID)
  | clearSubObjectSet (i : Nat)
  | removeFromPrototypeSubObjectSet (i : Nat) (remove : List RID)
  | cancelRemoveFromPrototypeSubObjectSet (i : Nat) (remove : List RID)

def HandleOp.run (s : Repo) (h : ResourceObject) : HandleOp → Except Fault Repo
  | .setValue i v => h.SetValue s i v
  | .setSubObject i c => h.SetSubObject s i c
  | .addToSubObjectSet i cs => h.AddToSubObjectSet s i cs
  | .removeFromSubObjectSet i cs => h.RemoveFromSubObjectSet s i cs
  | .clearSubObjectSet i => h.ClearSubObjectSet s i
  | .removeFromPrototypeSubObjectSet i cs => h.RemoveFromPrototypeSubObjectSet s i cs
  | .cancelRemoveFromPrototypeSubObjectSet i cs => h.CancelRemoveFromPrototypeSubObjectSet s i cs

/-- The calls of the public interface that change the store, apart from reclamation
(`GarbageCollect`), `ClearValues` and the calls for types with a handler of their own
(`CreateResourceType(TypeID)`, `Commit(RID, ConstPtr)`). -/
inductive PublicOp where
  | createResourceType (c : ResourceTypeCreation)
  | setUUID (rid : RID) (uuid : UUID)
  | setPath (rid : RID) (path : String)
  | removePath (path : String)
  | inactiveResource (rid : RID)
  | createResource (typeId : TypeID) (uuid : UUID)
  | createFromPrototype (prototype : RID) (uuid : UUID)
  | getOrCreateByUUID (uuid : UUID) (typeId : TypeID)
  | write (rid : RID)
  | destroyResource (rid : RID)
  | mutate (h : ResourceObject) (op : HandleOp)
  | commit (h : ResourceObject)

def PublicOp.run (cfg : Config) (fuel : Nat) (s : Repo) : PublicOp → Except Fault Repo
  | .createResourceType c => Repository.CreateResourceType cfg s c
  | .setUUID rid uuid => Repository.SetUUID s rid uuid
  | .setPath rid path => .ok (Repository.SetPath s rid path)
  | .removePath path => .ok (Repository.RemovePath s path)
  | .inactiveResource rid => Repository.InactiveResource s rid
  | .createResource typeId uuid => do
    let r ← Repository.CreateResource cfg s typeId uuid
    .ok r.2
  | .createFromPrototype prototype uuid => do
    let r ← Repository.CreateFromPrototype cfg s prototype uuid
    .ok r.2
  | .getOrCreateByUUID uuid typeId => do
    let r ← Repository.GetOrCreateByUUID cfg s uuid typeId
    .ok r.2
  | .write rid => do
    let r ← Repository.Write s rid
    .ok r.2
  | .destroyResource rid => Repository.DestroyResource s rid
  | .mutate h op => op.run s h
  | .commit h => do
    let r ← h.Commit fuel s
    .ok r.2

/-- No slot has the snapshot at `p` as its current snapshot. -/
def NotInstalled (s : Repo) (p : Option DataPtr) : Prop :=
  ∀ (q : StoragePtr) (st : ResourceStorage) (a : DataPtr),
    s.getStorage q = .ok st → st.data = some a → p ≠ some a

/-- A mutation through a handle is made on a snapshot that is not installed. -/
def PublicOp.Private (s : Repo) : PublicOp → Prop
  | .mutate h _ => NotInstalled s h.m_data
  | _ => True

/-- Every snapshot installed in `s` holds the same fields in `s'`. -/
def InstalledKept (s s' : Repo) : Prop :=
  ∀ (q : StoragePtr) (st : ResourceStorage) (a : DataPtr) (d : ResourceData),
    s.getStorage q = .ok st → st.data = some a → s.datas a = some d →
    ∃ d', s'.datas a = some d' ∧ d'.fields = d.fields

/-! ## Further concrete states -/

namespace demo

/-- On the populated `(1, 0)` (Health = 7): `r = Read(rid); r.SetValue(0, 9)`, and separately
`ClearValues(rid)`. Reports whether `Read(rid)` is still the handle `r` after the `SetValue`,
the Health read through `Read(rid)` before, after the `SetValue`, and after the
`ClearValues`, and the version before and after the `SetValue`. -/
def mutationScenario :
    Except Fault (Bool × Option FieldValue × Option FieldValue × Option FieldValue × Nat × Nat) := do
  let before ← readValue 1 populated ⟨1, 0⟩ 0
  let v0 ← Repository.GetVersion populated ⟨1, 0⟩
  let r ← Repository.Read populated ⟨1, 0⟩
  let s1 ← r.SetValue populated 0 9
  let r1 ← Repository.Read s1 ⟨1, 0⟩
  let after ← readValue 1 s1 ⟨1, 0⟩ 0
  let v1 ← Repository.GetVersion s1 ⟨1, 0⟩
  let s2 ← Repository.ClearValues populated ⟨1, 0⟩
  let cleared ← readValue 1 s2 ⟨1, 0⟩ 0
  .ok (decide (r1 = r), before, after, cleared, v0, v1)

/-- The owner `(1, 0)` holds `c = (2, 0)` and `(3, 0)` in its set field 1; with `populate` the
child `c` has a committed snapshot (Health = 5), otherwise nothing was ever committed to it.
Runs `DestroyResource(c); GarbageCollect()` and reports the local members of field 1 in the
current snapshot of the owner and `IsAlive` of the owner and of `c`. -/
def detachScenario (populate : Bool) (fuel : Nat) : Except Fault (HashSet × Bool × Bool) := do
  let (o, s1) ← Repository.CreateResource cfg registered 78 UUID.null
  let (c, s2) ← Repository.CreateResource cfg s1 78 UUID.null
  let (x, s3) ← Repository.CreateResource cfg s2 78 UUID.null
  let s4 ← if populate then writeSetCommit 1 s3 c 0 5 else .ok s3
  let s5 ← writeCommit 1 s4 o (fun h t => h.AddToSubObjectSet t 1 [c, x])
  let s6 ← Repository.DestroyResource s5 c
  let s7 ← Repository.GarbageCollect fuel s6
  let r ← Repository.Read s7 o
  let members ← localMembers s7 r 1
  let aliveOwner ← Repository.IsAlive s7 o
  let aliveChild ← Repository.IsAlive s7 c
  .ok (members, aliveOwner, aliveChild)

/-- Three resources `(1, 0)`, `(2, 0)`, `(3, 0)` of type `Node` and a write handle on the first,
whose snapshot is at address 0. -/
def opened : Repo := orEmpty (do
  let (o, s1) ← Repository.CreateResource cfg registered 78 UUID.null
  let (_, s2) ← Repository.CreateResource cfg s1 78 UUID.null
  let (_, s3) ← Repository.CreateResource cfg s2 78 UUID.null
  let r ← Repository.Write s3 o
  .ok r.2)

/-- The populated state with a write handle on `(1, 0)`, whose snapshot is at address 1. -/
def rewriting : Repo := orEmpty (do
  let r ← Repository.Write populated ⟨1, 0⟩
  .ok r.2)

/-- A schema whose two fields carry the same index. -/
def clashSchema : ResourceTypeCreation :=
  { name := "Clash", typeId := 80,
    fields := [{ name := "a", index := 0, type := ResourceFieldType.Value, valueId := 10 },
               { name := "b", index := 0, type := ResourceFieldType.Value, valueId := 10 }] }

/-- A configuration whose pages hold two slots. -/
def smallCfg : Config := { cfg with pageSize := 2 }

/-- With pages of two slots: `RepositoryInit()` and `CreateResource(0)` fill page 0, then the
call `c` is made with the new UUID `(1, 0)`. Reports the identifier the call returns. -/
def boundaryScenario (c : UuidCall) : Except Fault RID := do
  let s1 ← RepositoryInit smallCfg (Repo.empty registry)
  let (_, s2) ← Repository.CreateResource smallCfg s1 0 UUID.null
  let r ← c.run smallCfg s2 ⟨1, 0⟩
  .ok r.1

/-- The state after `rewriting` and `SetValue(0, 9)` on the write handle. -/
def rewritten : Repo :=
  orEmpty (PublicOp.run cfg 1 rewriting (PublicOp.mutate ⟨some 1⟩ (HandleOp.setValue 0 9)))

end demo

/-! ## Field kinds and handle mutations in sequence -/

/-- The field index a handle mutation is given. -/
def HandleOp.fieldIndex : HandleOp → Nat
  | .setValue i _ => i
  | .setSubObject i _ => i
  | .addToSubObjectSet i _ => i
  | .removeFromSubObjectSet i _ => i
  | .clearSubObjectSet i => i
  | .removeFromPrototypeSubObjectSet i _ => i
  | .cancelRemoveFromPrototypeSubObjectSet i _ => i

/-- The field kind the `FY_ASSERT` of a handle mutation asks for. -/
def HandleOp.kind : HandleOp → ResourceFieldType
  | .setValue _ _ => ResourceFieldType.Value
  | .setSubObject _ _ => ResourceFieldType.SubObject
  | _ => ResourceFieldType.SubObjectSet

/-- The handle mutations that never assign an owner slot. -/
def HandleOp.ownerFree : HandleOp → Bool
  | .setValue _ _ => true
  | .removeFromPrototypeSubObjectSet _ _ => true
  | .cancelRemoveFromPrototypeSubObjectSet _ _ => true
  | _ => false

/-- Runs the mutations in turn on the same handle. -/
def runOps (h : ResourceObject) : List HandleOp → Repo → Except Fault Repo
  | [], s => .ok s
  | op :: ops, s => do
    let s1 ← op.run s h
    runOps h ops s1

namespace demo

/-- On the write handle of `opened` (type `Node`, no prototype, every field absent):
`GetSubObjectSetCount(0)` on the Value field, `GetSubObjectSetCount(2)` on the SubObject
field, and what `GetSubObjectSet(0, span)` leaves in a span of one null identifier. -/
def mismatchScenario : Except Fault Nat × Except Fault Nat × Except Fault (List RID) :=
  (ResourceObject.GetSubObjectSetCount 1 opened ⟨some 0⟩ 0,
   ResourceObject.GetSubObjectSetCount 1 opened ⟨some 0⟩ 2,
   ResourceObject.GetSubObjectSet 1 opened ⟨some 0⟩ 0 [RID.null])

/-- On the write handle of `opened`, before any `Commit`: the owner slot of `(2, 0)` before
and after `AddToSubObjectSet(1, (2, 0))`. -/
def privateScenario :
    Except Fault ((Option StoragePtr × Nat) × (Option StoragePtr × Nat)) := do
  let before ← ownerSlot opened ⟨2, 0⟩
  let s1 ← ResourceObject.AddToSubObjectSet opened ⟨some 0⟩ 1 [⟨2, 0⟩]
  let after ← ownerSlot s1 ⟨2, 0⟩
  .ok (before, after)

end demo

/-! ## Two callers of the UUID index -/

/-- Where a caller stands in `GetOrCreateByUUID(uuid, typeId)`, `CreateResource(typeId, uuid)`
or `CreateFromPrototype(prototype, uuid)`: before the lookup made under `byUUIDMutex`, before
`GetID()`, before the insert made under `byUUIDMutex`, before the construction of the slot,
or returned with an identifier. The two critical sections and the increment of the atomic
`counter` are the steps another caller cannot cut into. -/
inductive UuidPc where
  | lookup
  | allocate
  | insert (rid : RID)
  | construct (rid : RID)
  | done (rid : RID)
deriving DecidableEq

/-- A caller: the call it is executing and where it stands in it. -/
structure UuidThread where
  call : UuidCall
  pc : UuidPc := UuidPc.lookup

/-- The next step of a caller. `GetOrCreateByUUID` returns from the lookup when the UUID is
found; `GetID(UUID)` hands the identifier found to its caller, which constructs the slot
anew. -/
def UuidThread.step (cfg : Config) (uuid : UUID) (s : Repo) (t : UuidThread) :
    Except Fault (UuidThread × Repo) :=
  match t.pc with
  | .lookup =>
    match t.call with
    | .getOrCreate _ =>
      match s.byUUID uuid with
      | some rid => .ok ({ t with pc := .done rid }, s)
      | none => .ok ({ t with pc := .allocate }, s)
    | _ =>
      match (if uuid.toBool then s.byUUID uuid else none) with
      | some rid => .ok ({ t with pc := .construct rid }, s)
      | none => .ok ({ t with pc := .allocate }, s)
  | .allocate =>
    let r := GetID cfg s
    .ok ({ t with pc := .insert r.1 }, r.2)
  | .insert rid =>
    .ok ({ t with pc := .construct rid }, { s with byUUID := mapInsert s.byUUID uuid rid })
  | .construct rid =>
    match t.call with
    | .getOrCreate typeId =>
      if s.pages rid.page then
        .ok ({ t with pc := .done rid }, s.setStorage rid
          { rid := rid, uuid := uuid, resourceType := s.resourceTypes typeId, data := none })
      else .error .nullDeref
    | .create typeId => do
      let s2 ← GetOrAllocate cfg s rid
      .ok ({ t with pc := .done rid }, s2.setStorage rid
        { rid := rid, uuid := uuid, resourceType := s2.resourceTypes typeId, data := none })
    | .fromPrototype prototype => do
      let s2 ← GetOrAllocate cfg s rid
      let prototypeStorage ← s2.getStorage prototype
      match prototypeStorage.resourceType with
      | none => .error .assertion
      | some resourceType =>
        let (p, s3) := s2.allocData
          { storage := rid, memory := false,
            fields := List.replicate resourceType.fieldsByIndex.length none }
        .ok ({ t with pc := .done rid }, s3.setStorage rid
          { rid := rid, uuid := uuid, resourceType := some resourceType, data := some p,
            prototype := some prototype })
  | .done _ => .ok (t, s)

/-- The identifier a caller has returned, if it has returned. -/
def UuidThread.result (t : UuidThread) : Option RID :=
  match t.pc with
  | .done rid => some rid
  | _ => none

/-- One caller running alone from the start of its call to its return. -/
def solo (cfg : Config) (uuid : UUID) (s : Repo) (c : UuidCall) :
    Except Fault (Option RID × Repo) := do
  let r1 ← UuidThread.step cfg uuid s { call := c }
  let r2 ← UuidThread.step cfg uuid r1.2 r1.1
  let r3 ← UuidThread.step cfg uuid r2.2 r2.1
  let r4 ← UuidThread.step cfg uuid r3.2 r3.1
  .ok (r4.1.result, r4.2)

/-- Two callers `a` and `b` with the same UUID under a schedule: `false` lets `a` take its
next step, `true` lets `b`. -/
def interleave (cfg : Config) (uuid : UUID) :
    List Bool → UuidThread → UuidThread → Repo → Except Fault (UuidThread × UuidThread × Repo)
  | [], a, b, s => .ok (a, b, s)
  | false :: rest, a, b, s => do
    let r ← a.step cfg uuid s
    interleave cfg uuid rest r.1 b r.2
  | true :: rest, a, b, s => do
    let r ← b.step cfg uuid s
    interleave cfg uuid rest a r.1 r.2

namespace demo

/-- With one resource created, two callers make the call `c` with the new UUID `(1, 0)` under
the given schedule. Reports what each caller returned and what the index holds for the
UUID. -/
def raceScenario (c : UuidCall) (schedule : List Bool) :
    Except Fault (Option RID × Option RID × Option RID) := do
  let r ← interleave cfg ⟨1, 0⟩ schedule { call := c } { call := c } created
  .ok (r.1.result, r.2.1.result, r.2.2.byUUID ⟨1, 0⟩)

end demo

/-! ## Prototype chains -/

namespace demo

/-- A chain `g <- p <- c`: `g = (1, 0)` holds `x = (2, 0)` in its set field 1,
`p = CreateFromPrototype(g)` is `(3, 0)` and `c = CreateFromPrototype(p)` is `(4, 0)`. Then
`RemoveFromPrototypeSubObjectSet(1, x)` is committed on `p` when `onP` is set and on `c`
otherwise. Reports `GetSubObjectSetAsArray(1)` read on `c`, on `p` and on `g`. -/
def chainScenario (onP : Bool) (fuel : Nat) :
    Except Fault (List RID × List RID × List RID) := do
  let (g, s1) ← Repository.CreateResource cfg registered 78 UUID.null
  let (x, s2) ← Repository.CreateResource cfg s1 78 UUID.null
  let s3 ← writeCommit 1 s2 g (fun h t => h.AddToSubObjectSet t 1 [x])
  let (p, s4) ← Repository.CreateFromPrototype cfg s3 g UUID.null
  let (c, s5) ← Repository.CreateFromPrototype cfg s4 p UUID.null
  let s6 ← writeCommit 1 s5 (if onP then p else c)
    (fun h t => h.RemoveFromPrototypeSubObjectSet t 1 [x])
  let rc ← Repository.Read s6 c
  let rp ← Repository.Read s6 p
  let rg ← Repository.Read s6 g
  let onC ← rc.GetSubObjectSetAsArray fuel s6 1
  let onP ← rp.GetSubObjectSetAsArray fuel s6 1
  let onG ← rg.GetSubObjectSetAsArray fuel s6 1
  .ok (onC, onP, onG)

/-- The resource `r = CreateResource(T, u)` with the UUID `u = (1, 0)`, then
`c = CreateFromPrototype(r, u)` with the same UUID. Reports `r`, `c`, the prototype link of
`r` afterwards and the state. -/
def selfPrototypeCalls : Except Fault (RID × RID × Option StoragePtr × Repo) := do
  let (r, s1) ← Repository.CreateResource cfg registered 77 ⟨1, 0⟩
  let (c, s2) ← Repository.CreateFromPrototype cfg s1 r ⟨1, 0⟩
  let st ← s2.getStorage r
  .ok (r, c, st.prototype, s2)

/-- The state those two calls leave. -/
def selfPrototyped : Repo := orEmpty (do
  let r ← selfPrototypeCalls
  .ok r.2.2.2)

end demo

/-! ## Reclamation of a superseded snapshot -/

/-- State `s'` is state `s` up to the snapshot at address `p`: same storage slots, pages,
reclamation queue, and every other snapshot. -/
structure SameBut (p : DataPtr) (s s' : Repo) : Prop where
  storages : s'.storages = s.storages
  pages : s'.pages = s.pages
  queue : s'.toCollectItems = s.toCollectItems
  datas : ∀ a, a ≠ p → s'.datas a = s.datas a

/-- Every field present in `fields` has a descriptor in `T`, and a present field of kind
SubObjectSet holds a `SubObjectSetData`. -/
def WellKinded (T : ResourceType) (fields : List (Option FieldValue)) : Prop :=
  ∀ (i : Nat) (v : FieldValue), fields[i]? = some (some v) →
    ∃ f, T.fieldsByIndex[i]? = some (some f) ∧
      (f.fieldType = ResourceFieldType.SubObjectSet → ∃ sd, v = FieldValue.set sd)

namespace demo

/-- The type `Node` as registered. -/
def nodeType : ResourceType :=
  match registered.resourceTypes 78 with
  | some T => T
  | none => { name := "", typeId := 0 }

/-- The owner `(1, 0)` of type `Node` holds `(2, 0)` in its set field 1 and `(3, 0)` in its
SubObject field 2, committed in the snapshot at address 0; a write handle on the owner is
open, with its snapshot at address 1. -/
def superseding : Repo := orEmpty (do
  let (o, s1) ← Repository.CreateResource cfg registered 78 UUID.null
  let (c, s2) ← Repository.CreateResource cfg s1 78 UUID.null
  let (x, s3) ← Repository.CreateResource cfg s2 78 UUID.null
  let s4 ← writeCommit 1 s3 o (fun h t => do
    let t1 ← h.AddToSubObjectSet t 1 [c]
    h.SetSubObject t1 2 x)
  let r ← Repository.Write s4 o
  .ok r.2)

end demo

namespace demo

/-- On the populated `(1, 0)` (Health = 7, snapshot at address 0) two write handles were
opened, `h1` (snapshot at address 1) set Health to 8, `h2` (snapshot at address 2) set it
to 9, and `h1` has committed. -/
def lost : Repo := orEmpty (do
  let r ← conflictScenario 1 populated ⟨1, 0⟩ 0 8 9
  .ok r.1)

end demo

namespace demo

/-- The populated `(1, 0)` (Health = 7) and its clone `(2, 0)`, created by
`CreateFromPrototype((1, 0))`; the clone's snapshot, with no field present, is at address 1. -/
def cloned : Repo := orEmpty (do
  let r ← Repository.CreateFromPrototype cfg populated ⟨1, 0⟩ UUID.null
  .ok r.2)

end demo

/-! ## Abandoned write handles -/

namespace demo

/-- The owner `o = (1, 0)` of type `Node` has committed a snapshot that holds `c = (2, 0)`:
in its SubObject field 2 when `link` is set, in its set field 1 otherwise. Then
`h = Write(o)` is opened, `x = (3, 0)` is added to the set field 1 through `h`, and `h` is
destroyed without `Commit()`. Reports `IsAlive` of `o`, `c` and `x`, the local members of
field 1 in the current snapshot of `o`, the version of `o` and the length of the
reclamation queue. -/
def abandonScenario (link : Bool) (fuel : Nat) :
    Except Fault (List Bool × HashSet × Nat × Nat) := do
  let (o, s1) ← Repository.CreateResource cfg registered 78 UUID.null
  let (c, s2) ← Repository.CreateResource cfg s1 78 UUID.null
  let (x, s3) ← Repository.CreateResource cfg s2 78 UUID.null
  let s4 ← writeCommit 1 s3 o (fun h t =>
    if link then h.SetSubObject t 2 c else h.AddToSubObjectSet t 1 [c])
  let (h, s5) ← Repository.Write s4 o
  let s6 ← h.AddToSubObjectSet s5 1 [x]
  let s7 ← h.destroy fuel s6
  let flags ← aliveFlags s7 [o, c, x]
  let r ← Repository.Read s7 o
  let members ← localMembers s7 r 1
  let version ← Repository.GetVersion s7 o
  .ok (flags, members, version, s7.toCollectItems.length)

end demo

namespace demo

/-- Two owners of type `Node`: `a = (1, 0)` holds `c = (3, 0)` in its set field 1 and
`b = (2, 0)` holds `y = (4, 0)` in its set field 1, both committed (snapshots at addresses 0
and 1); a write handle on `b` is open, with its snapshot at address 2. -/
def twoOwners : Repo := orEmpty (do
  let (a, s1) ← Repository.CreateResource cfg registered 78 UUID.null
  let (b, s2) ← Repository.CreateResource cfg s1 78 UUID.null
  let (c, s3) ← Repository.CreateResource cfg s2 78 UUID.null
  let (y, s4) ← Repository.CreateResource cfg s3 78 UUID.null
  let s5 ← writeCommit 1 s4 a (fun h t => h.AddToSubObjectSet t 1 [c])
  let s6 ← writeCommit 1 s5 b (fun h t => h.AddToSubObjectSet t 1 [y])
  let r ← Repository.Write s6 b
  .ok r.2)

end demo

/-! ## Prototype chains that end -/

/-- The slots reached from `p` by following `prototype`, `p` first, at most `n` of them. -/
def prototypes : Nat → Repo → StoragePtr → List StoragePtr
  | 0, _, _ => []
  | n + 1, s, p =>
    p :: match s.getStorage p with
      | .ok st =>
        match st.prototype with
        | some q => prototypes n s q
        | none => []
      | .error _ => []

/-- The prototype chain of `p` ends after exactly `n` slots; each of them is readable and has
a live current snapshot that belongs to it and has an entry for field `i`. -/
def prototypeChain : Nat → Repo → Nat → StoragePtr → Prop
  | 0, _, _, _ => False
  | n + 1, s, i, p =>
    ∃ st a d, s.getStorage p = .ok st ∧ st.data = some a ∧ s.datas a = some d ∧
      d.storage = p ∧ i < d.fields.length ∧
      match st.prototype with
      | some q => prototypeChain n s i q
      | none => n = 0

/-- The value of field `i` that is locally present in the current snapshot of `p`, if any. -/
def localValue (s : Repo) (i : Nat) (p : StoragePtr) : Option FieldValue :=
  match s.getStorage p with
  | .ok st =>
    match st.data with
    | some a =>
      match s.datas a with
      | some d =>
        match d.fields[i]? with
        | some (some v) => some v
        | _ => none
      | none => none
    | none => none
  | .error _ => none

/-! ## Pending reclamation items -/

/-- The item is a snapshot-only request, as `Commit` enqueues it, for a live snapshot whose
present fields have descriptors in the type of its resource. -/
def PendingSnapshot (s : Repo) (item : ToDestroyResourceData) : Prop :=
  item.destroySubObjects = false ∧ item.destroyResource = false ∧
    ∃ a d st T, item.data = some a ∧ s.datas a = some d ∧
      s.getStorage d.storage = .ok st ∧ st.resourceType = some T ∧ WellKinded T d.fields

namespace demo

/-- The owner `(1, 0)` of type `Node` holds `(2, 0)` in its set field 1 and `(3, 0)` in its
SubObject field 2 (snapshot at address 0); a second commit set Health to 5 (snapshot at
address 1), so that the item for the snapshot at address 0 is pending; a write handle on the
owner is open, with its snapshot at address 2. -/
def requeued : Repo := orEmpty (do
  let (o, s1) ← Repository.CreateResource cfg registered 78 UUID.null
  let (c, s2) ← Repository.CreateResource cfg s1 78 UUID.null
  let (x, s3) ← Repository.CreateResource cfg s2 78 UUID.null
  let s4 ← writeCommit 1 s3 o (fun h t => do
    let t1 ← h.AddToSubObjectSet t 1 [c]
    h.SetSubObject t1 2 x)
  let s5 ← writeSetCommit 1 s4 o 0 5
  let r ← Repository.Write s5 o
  .ok r.2)

/-- The owner `o = (1, 0)` holds the populated `c = (2, 0)` and `x = (3, 0)` in its set
field 1, committed in the snapshot `S`. With `DestroyResource(c)` pending,
`h = Write(o); h.SetValue(0, 5); h.Commit()` supersedes `S`, and `GarbageCollect()` runs.
Reports the flags `(destroySubObjects, destroyResource)` of the item the commit enqueued,
and `IsAlive` of `o`, `c`, `x` before and after the collection. -/
def pendingDestroyScenario (fuel : Nat) :
    Except Fault ((Bool × Bool) × List Bool × List Bool) := do
  let (o, s1) ← Repository.CreateResource cfg registered 78 UUID.null
  let (c, s2) ← Repository.CreateResource cfg s1 78 UUID.null
  let (x, s3) ← Repository.CreateResource cfg s2 78 UUID.null
  let s4 ← writeSetCommit 1 s3 c 0 5
  let s5 ← writeCommit 1 s4 o (fun h t => h.AddToSubObjectSet t 1 [c, x])
  let s6 ← Repository.DestroyResource s5 c
  let s7 ← writeSetCommit 1 s6 o 0 5
  let flags := match s7.toCollectItems.getLast? with
    | some item => (item.destroySubObjects, item.destroyResource)
    | none => (true, true)
  let before ← aliveFlags s7 [o, c, x]
  let s8 ← Repository.GarbageCollect fuel s7
  let after ← aliveFlags s8 [o, c, x]
  .ok (flags, before, after)

end demo

/-! ## Basic facts -/

@[simp] theorem bind_ok {α β : Type} (a : α) (f : α → Except Fault β) :
    (Except.ok a >>= f) = f a := rfl

@[simp] theorem bind_error {α β : Type} (e : Fault) (f : α → Except Fault β) :
    ((Except.error e : Except Fault α) >>= f) = Except.error e := rfl

@[simp] theorem upd_same {α β : Type} [DecidableEq α] (f : α → β) (k : α) (v : β) :
    upd f k v k = v := by simp [upd]

theorem upd_other {α β : Type} [DecidableEq α] (f : α → β) (k x : α) (v : β) (h : x ≠ k) :
    upd f k v x = f x := by simp [upd, h]

theorem getStorage_setStorage_other (s : Repo) (p q : StoragePtr) (st : ResourceStorage)
    (h : q ≠ p) : (s.setStorage p st).getStorage q = s.getStorage q := by
  simp [Repo.getStorage, Repo.setStorage, upd_other _ _ _ _ h]

theorem pages_of_getStorage {s : Repo} {p : StoragePtr} {st : ResourceStorage}
    (h : s.getStorage p = .ok st) : s.pages p.page = true := by
  unfold Repo.getStorage at h
  split at h
  · assumption
  · cases h

theorem storages_of_getStorage {s : Repo} {p : StoragePtr} {st : ResourceStorage}
    (h : s.getStorage p = .ok st) : s.storages p = some st := by
  unfold Repo.getStorage at h
  split at h
  · split at h
    · cases h; assumption
    · cases h
  · cases h

theorem getStorage_eq_ok {s : Repo} {p : StoragePtr} {st : ResourceStorage}
    (hp : s.pages p.page = true) (hs : s.storages p = some st) : s.getStorage p = .ok st := by
  simp [Repo.getStorage, hp, hs]

theorem ownerChain_unique : ∀ (n m : Nat) (s : Repo) (p : StoragePtr),
    ownerChain n s p → ownerChain m s p → n = m
  | 0, _, _, _, h, _ => by cases h
  | _ + 1, 0, _, _, _, h => by cases h
  | n + 1, m + 1, s, p, h1, h2 => by
    obtain ⟨st, hst, h1⟩ := h1
    obtain ⟨st2, hst2, h2⟩ := h2
    rw [hst] at hst2
    cases hst2
    cases hp : st.parent with
    | none => rw [hp] at h1 h2; simp at h1 h2; omega
    | some q =>
      rw [hp] at h1 h2
      have := ownerChain_unique n m s q h1 h2
      omega

theorem ownerChain_of_mem : ∀ (n : Nat) (s : Repo) (p x : StoragePtr),
    ownerChain n s p → x ∈ owners n s p → ∃ m, m ≤ n ∧ ownerChain m s x
  | 0, _, _, _, h, _ => by cases h
  | n + 1, s, p, x, h, hx => by
    obtain ⟨st, hst, h1⟩ := h
    simp only [owners, hst, List.mem_cons] at hx
    rcases hx with rfl | hx
    · exact ⟨n + 1, le_refl _, st, hst, h1⟩
    · cases hp : st.parent with
      | none => rw [hp] at hx; simp at hx
      | some q =>
        rw [hp] at hx h1
        obtain ⟨m, hm, hc⟩ := ownerChain_of_mem n s q x h1 hx
        exact ⟨m, by omega, hc⟩

theorem not_mem_owners_parent {n : Nat} {s : Repo} {p q : StoragePtr} {st : ResourceStorage}
    (hst : s.getStorage p = .ok st) (hp : st.parent = some q) (h : ownerChain n s q) :
    p ∉ owners n s q := by
  intro hmem
  obtain ⟨m, hm, hc⟩ := ownerChain_of_mem n s q p h hmem
  have h2 : ownerChain (n + 1) s p := ⟨st, hst, by rw [hp]; exact h⟩
  have := ownerChain_unique _ _ _ _ hc h2
  omega

theorem ownerChain_congr : ∀ (n : Nat) (s s' : Repo) (p : StoragePtr), SameOwners s s' →
    ownerChain n s p → ownerChain n s' p
  | 0, _, _, _, _, h => by cases h
  | n + 1, s, s', p, hs, h => by
    obtain ⟨st, hst, h1⟩ := h
    obtain ⟨st', hst', hpar⟩ := hs p st hst
    refine ⟨st', hst', ?_⟩
    rw [hpar]
    cases hp : st.parent with
    | none => rw [hp] at h1; exact h1
    | some q => rw [hp] at h1; exact ownerChain_congr n s s' q hs h1

theorem owners_congr : ∀ (n : Nat) (s s' : Repo) (p : StoragePtr), SameOwners s s' →
    ownerChain n s p → owners n s' p = owners n s p
  | 0, _, _, _, _, h => by cases h
  | n + 1, s, s', p, hs, h => by
    obtain ⟨st, hst, h1⟩ := h
    obtain ⟨st', hst', hpar⟩ := hs p st hst
    simp only [owners, hst, hst', hpar]
    cases hp : st.parent with
    | none => rfl
    | some q => rw [hp] at h1; simp only; rw [owners_congr n s s' q hs h1]

theorem sameOwners_setStorage {s : Repo} {p : StoragePtr} {st new : ResourceStorage}
    (hst : s.getStorage p = .ok st) (hpar : new.parent = st.parent) :
    SameOwners s (s.setStorage p new) := by
  intro q sq hq
  by_cases h : q = p
  · subst h
    rw [hst] at hq; cases hq
    refine ⟨new, ?_, hpar⟩
    have hpg : (s.setStorage q new).pages q.page = true := pages_of_getStorage (s := s) hst
    exact getStorage_eq_ok hpg (by simp [Repo.setStorage])
  · exact ⟨sq, by rw [getStorage_setStorage_other _ _ _ _ h]; exact hq, rfl⟩

theorem bumpAll_cons {s : Repo} {p : StoragePtr} {st : ResourceStorage} {l : List StoragePtr}
    (hst : s.storages p = some st) (hp : p ∉ l) :
    bumpAll (s.setStorage p (bump st)) l = bumpAll s (p :: l) := by
  cases s
  simp only [bumpAll, Repo.setStorage, Repo.mk.injEq, true_and, and_true]
  funext q
  by_cases hq : q = p
  · subst hq
    simp_all
  · simp [hq, upd_other _ _ _ _ hq]

theorem UpdateVersion_eq : ∀ (n k : Nat) (s : Repo) (p : StoragePtr), ownerChain n s p →
    UpdateVersion (n + k) s p = .ok (bumpAll s (owners n s p))
  | 0, _, _, _, h => by cases h
  | n + 1, k, s, p, h => by
    obtain ⟨st, hst, h1⟩ := h
    have hs := storages_of_getStorage hst
    rw [Nat.succ_add]
    simp only [UpdateVersion, hst, bind_ok, owners]
    have hb : ({ st with version := (st.version + 1) % 2 ^ 32 } : ResourceStorage) = bump st := rfl
    rw [hb]
    have hso : SameOwners s (s.setStorage p (bump st)) := sameOwners_setStorage hst rfl
    cases hp : st.parent with
    | none =>
      simp only
      have := bumpAll_cons (s := s) (l := []) hs (by simp)
      rw [← this]
      cases s
      simp only [bumpAll, Repo.setStorage, List.not_mem_nil, if_false]
    | some q =>
      rw [hp] at h1
      simp only
      have h2 := ownerChain_congr n _ _ q hso h1
      have := UpdateVersion_eq n k _ q h2
      rw [owners_congr n _ _ q hso h1] at this
      rw [bumpAll_cons hs (not_mem_owners_parent hst hp h1)] at this
      exact this

theorem index_eq_ok {α : Type} {l : List α} {i : Nat} {a : α} (h : l[i]? = some a) :
    index l i = .ok a := by
  simp [index, h]

theorem writeCopyFields_ok (T : ResourceType) (copy : List (Option FieldValue)) :
    ∀ (n i : Nat), i + n ≤ copy.length → i + n ≤ T.fieldsByIndex.length → T.Complete →
      ∃ fs, writeCopyFields T copy n i = .ok fs ∧ fs.length = n ∧
        ∀ k c, k < n → copy[i + k]? = some c → fs[k]? = some (copyCell T (i + k) c)
  | 0, i, _, _, _ => ⟨[], rfl, rfl, fun k c hk => by omega⟩
  | n + 1, i, h1, h2, hT => by
    obtain ⟨fs, hfs, hlen, hget⟩ := writeCopyFields_ok T copy n (i + 1) (by omega) (by omega) hT
    obtain ⟨c, hc⟩ : ∃ c, copy[i]? = some c :=
      ⟨copy[i], List.getElem?_eq_getElem (by omega)⟩
    obtain ⟨g, hg⟩ := hT i (by omega)
    refine ⟨copyCell T i c :: fs, ?_, by simp [hlen], ?_⟩
    · simp only [writeCopyFields, index_eq_ok hc, bind_ok, hfs]
      cases c with
      | none => simp [copyCell]
      | some v =>
        simp only [index_eq_ok hg, bind_ok, deref, copyCell, hg]
        cases g.typeHandler <;> simp
    · intro k c' hk hc'
      cases k with
      | zero =>
        simp only [Nat.add_zero] at hc'
        rw [hc] at hc'
        cases hc'
        simp
      | succ k =>
        have := hget k c' (by omega) (by rw [← hc']; congr 1; omega)
        simp only [List.getElem?_cons_succ, this]
        congr 2
        omega

@[simp] theorem getStorage_setData (s : Repo) (a : DataPtr) (x : ResourceData) (p : StoragePtr) :
    (s.setData a x).getStorage p = s.getStorage p := rfl

@[simp] theorem getStorage_allocData (s : Repo) (x : ResourceData) (p : StoragePtr) :
    (s.allocData x).2.getStorage p = s.getStorage p := rfl

@[simp] theorem getStorage_enqueue (s : Repo) (x : ToDestroyResourceData) (p : StoragePtr) :
    (s.enqueue x).getStorage p = s.getStorage p := rfl

@[simp] theorem datas_setStorage (s : Repo) (p : StoragePtr) (st : ResourceStorage) :
    (s.setStorage p st).datas = s.datas := rfl

@[simp] theorem datas_enqueue (s : Repo) (x : ToDestroyResourceData) :
    (s.enqueue x).datas = s.datas := rfl

@[simp] theorem datas_bumpAll (s : Repo) (l : List StoragePtr) : (bumpAll s l).datas = s.datas := rfl

@[simp] theorem datas_setData (s : Repo) (a : DataPtr) (x : ResourceData) :
    (s.setData a x).datas = upd s.datas a (some x) := rfl

@[simp] theorem datas_allocData (s : Repo) (x : ResourceData) :
    (s.allocData x).2.datas = upd s.datas s.nextData (some x) := rfl

@[simp] theorem fst_allocData (s : Repo) (x : ResourceData) : (s.allocData x).1 = s.nextData := rfl

theorem getStorage_bumpAll (s : Repo) (l : List StoragePtr) (p : StoragePtr) :
    (bumpAll s l).getStorage p = (s.getStorage p).map (fun st => if p ∈ l then bump st else st) := by
  unfold Repo.getStorage bumpAll
  by_cases hp : s.pages p.page = true
  · by_cases hl : p ∈ l <;> cases hs : s.storages p <;> simp [hp, hl, hs, Except.map]
  · simp [hp, Except.map]

theorem getStorage_setStorage (s : Repo) (p q : StoragePtr) (st new : ResourceStorage)
    (hst : s.getStorage p = .ok st) :
    (s.setStorage p new).getStorage q = if q = p then .ok new else s.getStorage q := by
  by_cases h : q = p
  · subst h
    have hpg : (s.setStorage q new).pages q.page = true := pages_of_getStorage (s := s) hst
    simp [getStorage_eq_ok hpg (show (s.setStorage q new).storages q = some new by
      simp [Repo.setStorage])]
  · simp [h, getStorage_setStorage_other _ _ _ _ h]

theorem Write_eq {s : Repo} {rid : RID} {st : ResourceStorage} {T : ResourceType}
    {src : List (Option FieldValue)}
    (hst : s.getStorage rid = .ok st) (hT : st.resourceType = some T) (hc : T.Complete)
    (hsrc : IsSource s st T.fieldsByIndex.length src) (hlen : src.length = T.fieldsByIndex.length) :
    ∃ fs, fs.length = T.fieldsByIndex.length ∧
      (∀ k c, src[k]? = some c → fs[k]? = some (copyCell T k c)) ∧
      Repository.Write s rid = .ok (⟨some s.nextData⟩,
        (s.allocData { storage := rid, memory := true, fields := fs, dataOnWrite := st.data,
                       readOnly := false }).2) := by
  unfold IsSource at hsrc
  cases hd : st.data with
  | none =>
    rw [hd] at hsrc
    refine ⟨src, hlen, ?_, ?_⟩
    · intro k c hk
      subst hsrc
      rw [List.getElem?_replicate] at hk
      split at hk
      · cases hk
        rename_i hlt
        simp [copyCell, List.getElem?_replicate, hlt]
      · cases hk
    · simp only [Repository.Write, hst, bind_ok, hT, deref, hd]
      rw [hsrc]
      rfl
  | some dp =>
    rw [hd] at hsrc
    obtain ⟨d, hdd, hfields⟩ := hsrc
    obtain ⟨fs, hfs, hl, hget⟩ := writeCopyFields_ok T src T.fieldsByIndex.length 0
      (by omega) (by omega) hc
    refine ⟨fs, hl, ?_, ?_⟩
    · intro k c hk
      have hk' : k < T.fieldsByIndex.length := by
        rw [← hlen]
        by_contra hcon
        rw [List.getElem?_eq_none (by omega)] at hk
        cases hk
      simpa using hget k c hk' (by simpa using hk)
    · simp only [Repository.Write, hst, bind_ok, hT, deref, hd, Repo.getData, hdd, hfields, hfs]
      rfl

theorem getData_ok {s : Repo} {a : DataPtr} {d : ResourceData} (h : s.datas a = some d) :
    s.getData a = .ok d := by
  simp [Repo.getData, h]

theorem SetValue_eq (s : Repo) (p : DataPtr) (d : ResourceData) {st : ResourceStorage}
    {T : ResourceType} {f : ResourceField} {i : Nat} (v : Value)
    (hd : s.datas p = some d) (hst : s.getStorage d.storage = .ok st)
    (hT : st.resourceType = some T) (hf : T.fieldsByIndex[i]? = some (some f))
    (hkind : f.fieldType = ResourceFieldType.Value) (hh : f.typeHandler ≠ none)
    (hi : i < d.fields.length) (hmem : d.memory = true) :
    ResourceObject.SetValue s ⟨some p⟩ i v =
      .ok (s.setData p { d with fields := d.fields.set i (some (FieldValue.value v)) }) := by
  obtain ⟨c, hc⟩ : ∃ c, d.fields[i]? = some c := ⟨d.fields[i], List.getElem?_eq_getElem hi⟩
  obtain ⟨th, hth⟩ : ∃ th, f.typeHandler = some th := Option.ne_none_iff_exists'.mp hh
  simp [ResourceObject.SetValue, deref, getData_ok hd, fieldOf, hst, hT, index_eq_ok hf, hkind,
    hth, storeField, index_eq_ok hc, hmem]

theorem Commit_eq (s : Repo) (p : DataPtr) (d : ResourceData) {st : ResourceStorage} (n k : Nat)
    (hd : s.datas p = some d) (hst : s.getStorage d.storage = .ok st)
    (hcas : d.dataOnWrite = none ∨ d.dataOnWrite = st.data)
    (hchain : ownerChain n s d.storage) :
    ResourceObject.Commit (n + k) s ⟨some p⟩ =
      match d.dataOnWrite with
      | some old => .ok (⟨none⟩, (committed s p d st (owners n s d.storage)).enqueue
          { data := some old, destroySubObjects := false, destroyResource := false })
      | none => .ok (⟨some p⟩, committed s p d st (owners n s d.storage)) := by
  have hso : SameOwners s ((s.setData p { d with readOnly := true }).setStorage d.storage
      { st with data := some p }) := by
    intro q sq hq
    have := @sameOwners_setStorage (s.setData p { d with readOnly := true }) d.storage st
      { st with data := some p } hst rfl q sq hq
    exact this
  have hc2 := ownerChain_congr n _ _ _ hso hchain
  have hu := UpdateVersion_eq n k _ _ hc2
  rw [owners_congr n _ _ _ hso hchain] at hu
  simp only [ResourceObject.Commit, deref, bind_ok, getData_ok hd, getStorage_setData, hst]
  cases hdw : d.dataOnWrite with
  | none =>
    simp only [hdw] at hu
    simp only [hdw, hu, bind_ok, committed]
  | some old =>
    have : st.data = some old := by
      rcases hcas with h | h
      · rw [hdw] at h; cases h
      · rw [← h, hdw]
    simp only [hdw] at hu
    simp only [hdw, this, if_true, hu, bind_ok, committed]

theorem upd_upd {α β : Type} [DecidableEq α] (f : α → β) (k : α) (a b : β) :
    upd (upd f k a) k b = upd f k b := by
  funext x
  by_cases h : x = k <;> simp [upd, h]

theorem writeCommit_eq {s : Repo} {rid : RID} {st : ResourceStorage} {T : ResourceType}
    {src : List (Option FieldValue)} (op : ResourceObject → Repo → Except Fault Repo)
    (g : List (Option FieldValue) → List (Option FieldValue)) (n k : Nat)
    (hst : s.getStorage rid = .ok st) (hT : st.resourceType = some T) (hc : T.Complete)
    (hsrc : IsSource s st T.fieldsByIndex.length src) (hlen : src.length = T.fieldsByIndex.length)
    (hchain : ownerChain n s rid)
    (hop : ∀ fs : List (Option FieldValue), fs.length = T.fieldsByIndex.length →
      (∀ k c, src[k]? = some c → fs[k]? = some (copyCell T k c)) →
      op ⟨some s.nextData⟩ (s.allocData (freshSnapshot rid st fs)).2 =
        .ok ((s.allocData (freshSnapshot rid st fs)).2.setData s.nextData
          { freshSnapshot rid st fs with fields := g fs })) :
    ∃ fs : List (Option FieldValue), fs.length = T.fieldsByIndex.length ∧
      (∀ k c, src[k]? = some c → fs[k]? = some (copyCell T k c)) ∧
      writeCommit (n + k) s rid op = .ok (afterWrite s rid st (g fs) (owners n s rid)) := by
  obtain ⟨fs, hl, hget, hw⟩ := Write_eq hst hT hc hsrc hlen
  refine ⟨fs, hl, hget, ?_⟩
  have hsv := hop fs hl hget
  obtain ⟨d0, hd0⟩ : ∃ d0 : ResourceData, d0 = freshSnapshot rid st fs := ⟨_, rfl⟩
  have hw' : Repository.Write s rid = .ok (⟨some s.nextData⟩, (s.allocData d0).2) := by
    rw [hw, hd0]; rfl
  rw [← hd0] at hsv
  obtain ⟨d1, hd1⟩ : ∃ d1 : ResourceData, d1 = { d0 with fields := g fs } := ⟨_, rfl⟩
  rw [← hd1] at hsv
  have hso : SameOwners s ((s.allocData d0).2.setData s.nextData d1) := fun q sq hq => ⟨sq, hq, rfl⟩
  have hd1s : d1.storage = rid := by simp [hd1, hd0, freshSnapshot]
  have hcm : ResourceObject.Commit (n + k) ((s.allocData d0).2.setData s.nextData d1)
      ⟨some s.nextData⟩ = _ :=
    Commit_eq _ _ d1 n k (by simp) (by simpa [hd1s] using hst)
      (Or.inr (by simp [hd1, hd0, freshSnapshot]))
      (by rw [hd1s]; exact ownerChain_congr n _ _ _ hso hchain)
  rw [hd1s, owners_congr n _ _ _ hso hchain] at hcm
  simp only [writeCommit, hw', bind_ok, hsv, hcm]
  subst hd1 hd0
  cases hd : st.data <;>
    simp only [bind_ok, afterWrite, committed, Repo.enqueue, bumpAll, Repo.setData, Repo.setStorage,
      Repo.allocData, upd_upd, List.append_nil, hd, freshSnapshot]

theorem writeSetCommit_eq {s : Repo} {rid : RID} {st : ResourceStorage} {T : ResourceType}
    {f : ResourceField} {src : List (Option FieldValue)} {i : Nat} (v : Value) (n k : Nat)
    (hst : s.getStorage rid = .ok st) (hT : st.resourceType = some T) (hc : T.Complete)
    (hf : T.fieldsByIndex[i]? = some (some f))
    (hkind : f.fieldType = ResourceFieldType.Value) (hh : f.typeHandler ≠ none)
    (hsrc : IsSource s st T.fieldsByIndex.length src) (hlen : src.length = T.fieldsByIndex.length)
    (hchain : ownerChain n s rid) :
    ∃ fs : List (Option FieldValue), fs.length = T.fieldsByIndex.length ∧
      (∀ k c, src[k]? = some c → fs[k]? = some (copyCell T k c)) ∧
      writeSetCommit (n + k) s rid i v =
        .ok (afterWrite s rid st (fs.set i (some (FieldValue.value v))) (owners n s rid)) := by
  refine writeCommit_eq (fun h s1 => h.SetValue s1 i v)
    (fun fs => fs.set i (some (FieldValue.value v))) n k hst hT hc hsrc hlen hchain ?_
  intro fs hl _
  have hi : i < fs.length := by
    rw [hl]
    by_contra hcon
    rw [List.getElem?_eq_none (by omega)] at hf
    cases hf
  exact SetValue_eq _ _ (freshSnapshot rid st fs) v (by simp) (by simpa [freshSnapshot] using hst)
    hT hf hkind hh (by simpa [freshSnapshot] using hi) rfl

theorem getStorage_afterWrite {s : Repo} {rid : RID} {st : ResourceStorage}
    (fields : List (Option FieldValue)) (l : List StoragePtr) (q : StoragePtr)
    (hst : s.getStorage rid = .ok st) :
    (afterWrite s rid st fields l).getStorage q =
      (if q = rid then .ok { st with data := some s.nextData } else s.getStorage q).map
        (fun x => if q ∈ l then bump x else x) := by
  have hpg := pages_of_getStorage hst
  unfold afterWrite bumpAll Repo.getStorage
  by_cases hq : q = rid
  · subst hq
    by_cases hl : q ∈ l <;> simp [hpg, hl, Except.map]
  · by_cases hp : s.pages q.page = true
    · by_cases hl : q ∈ l <;> cases hs : s.storages q <;>
        simp [hp, hl, hs, hq, upd_other _ _ _ _ hq, Except.map]
    · simp [hp, hq, Except.map]

@[simp] theorem datas_afterWrite (s : Repo) (rid : RID) (st : ResourceStorage)
    (fields : List (Option FieldValue)) (l : List StoragePtr) :
    (afterWrite s rid st fields l).datas = upd s.datas s.nextData (some
      { storage := rid, memory := true, fields := fields, dataOnWrite := st.data,
        readOnly := true }) := rfl

theorem readValue_afterWrite {s : Repo} {rid : RID} {st : ResourceStorage}
    {fields : List (Option FieldValue)} (l : List StoragePtr) {i : Nat} {x : FieldValue} (n : Nat)
    (hst : s.getStorage rid = .ok st) (hx : fields[i]? = some (some x)) :
    readValue (n + 1) (afterWrite s rid st fields l) rid i = .ok (some x) := by
  simp only [readValue, Repository.Read, getStorage_afterWrite fields l rid hst, if_true,
    Except.map, bind_ok]
  have : ∀ b : Bool, (if b then bump { st with data := some s.nextData }
      else { st with data := some s.nextData }).data = some s.nextData := by
    intro b; cases b <;> rfl
  split <;>
    simp [ResourceObject.GetValue, deref, Repo.getData, index_eq_ok hx, bump]

/-! ## Reading through the prototype chain -/

theorem GetValue_succ_ok (n : Nat) (s : Repo) (h : ResourceObject) (i : Nat)
    (y : Option FieldValue) :
    ResourceObject.GetValue (n + 1) s h i = .ok y ↔
      ∃ a d c, h.m_data = some a ∧ s.datas a = some d ∧ d.fields[i]? = some c ∧
        match c with
        | some v => y = some v
        | none => ∃ st, s.getStorage d.storage = .ok st ∧
          match st.prototype with
          | none => y = none
          | some q => ∃ pq, s.getStorage q = .ok pq ∧
              ResourceObject.GetValue n s ⟨pq.data⟩ i = .ok y := by
  simp only [ResourceObject.GetValue]
  cases hm : h.m_data with
  | none => simp [deref]
  | some a =>
    cases hd : s.datas a with
    | none => simp [deref, Repo.getData, hd]
    | some d =>
      cases hc : d.fields[i]? with
      | none => simp [deref, Repo.getData, hd, index, hc]
      | some c =>
        cases c with
        | some v =>
          simp only [deref, bind_ok, Repo.getData, hd, index, hc]
          constructor
          · intro hy; cases hy; exact ⟨a, d, some v, rfl, hd, hc, rfl⟩
          · rintro ⟨a', d', c', ha, hd', hc', hy⟩
            cases ha; rw [hd] at hd'; cases hd'; rw [hc] at hc'; cases hc'; simp at hy; rw [hy]
        | none =>
          simp only [deref, bind_ok, Repo.getData, hd, index, hc]
          cases hs : s.getStorage d.storage with
          | error e =>
            simp only [bind_error]
            constructor
            · intro hy; cases hy
            · rintro ⟨a', d', c', ha, hd', hc', hy⟩
              cases ha; rw [hd] at hd'; cases hd'; rw [hc] at hc'; cases hc'
              obtain ⟨st, hst, _⟩ := hy
              rw [hs] at hst; cases hst
          | ok st =>
            simp only [bind_ok]
            constructor
            · intro hy
              refine ⟨a, d, none, rfl, hd, hc, st, hs, ?_⟩
              cases hp : st.prototype with
              | none => rw [hp] at hy; cases hy; rfl
              | some q =>
                rw [hp] at hy
                simp only at hy ⊢
                cases hq : s.getStorage q with
                | error e => rw [hq] at hy; cases hy
                | ok pq => rw [hq] at hy; exact ⟨pq, rfl, hy⟩
            · rintro ⟨a', d', c', ha, hd', hc', hy⟩
              cases ha; rw [hd] at hd'; cases hd'; rw [hc] at hc'; cases hc'
              obtain ⟨st', hst, hy⟩ := hy
              rw [hs] at hst; cases hst
              cases hp : st.prototype with
              | none => rw [hp] at hy; simp at hy; rw [hy]
              | some q =>
                rw [hp] at hy
                obtain ⟨pq, hq, hy⟩ := hy
                simp [hq, hy]

theorem GetValue_mono : ∀ (n : Nat) (s : Repo) (h : ResourceObject) (i : Nat)
    (y : Option FieldValue), ResourceObject.GetValue n s h i = .ok y →
    ResourceObject.GetValue (n + 1) s h i = .ok y
  | 0, _, _, _, _, hy => by cases hy
  | n + 1, s, h, i, y, hy => by
    rw [GetValue_succ_ok] at hy ⊢
    obtain ⟨a, d, c, ha, hd, hc, hy⟩ := hy
    refine ⟨a, d, c, ha, hd, hc, ?_⟩
    cases c with
    | some v => exact hy
    | none =>
      obtain ⟨st, hst, hy⟩ := hy
      refine ⟨st, hst, ?_⟩
      cases hp : st.prototype with
      | none => rw [hp] at hy; exact hy
      | some q =>
        rw [hp] at hy
        obtain ⟨pq, hq, hy⟩ := hy
        exact ⟨pq, hq, GetValue_mono n s _ i y hy⟩

theorem GetValue_mono_le {n m : Nat} {s : Repo} {h : ResourceObject} {i : Nat}
    {y : Option FieldValue} (hy : ResourceObject.GetValue n s h i = .ok y) (hnm : n ≤ m) :
    ResourceObject.GetValue m s h i = .ok y := by
  induction hnm with
  | refl => exact hy
  | step _ ih => exact GetValue_mono _ _ _ _ _ ih

theorem GetValue_keeps {s s' : Repo} {E : StoragePtr → Prop} (hk : Keeps s s' E) (i : Nat) :
    ∀ (n : Nat) (h : ResourceObject) (y : Option FieldValue),
    ResourceObject.GetValue n s h i = .ok y →
    (∀ q st, E q → s.getStorage q = .ok st → ∀ m, m < n → ∀ z,
      ResourceObject.GetValue m s ⟨st.data⟩ i ≠ .ok z) →
    ResourceObject.GetValue n s' h i = .ok y
  | 0, _, _, hy, _ => by cases hy
  | n + 1, h, y, hy, hE => by
    rw [GetValue_succ_ok] at hy ⊢
    obtain ⟨a, d, c, ha, hd, hc, hy⟩ := hy
    refine ⟨a, d, c, ha, hk.datas a d hd, hc, ?_⟩
    cases c with
    | some v => exact hy
    | none =>
      obtain ⟨st, hst, hy⟩ := hy
      obtain ⟨st', hst', hproto, _⟩ := hk.storages _ _ hst
      refine ⟨st', hst', ?_⟩
      rw [hproto]
      cases hp : st.prototype with
      | none => rw [hp] at hy; exact hy
      | some q =>
        rw [hp] at hy
        obtain ⟨pq, hq, hy⟩ := hy
        obtain ⟨pq', hq', _, hdata⟩ := hk.storages _ _ hq
        refine ⟨pq', hq', ?_⟩
        by_cases hEq : E q
        · exact absurd hy (hE q pq hEq hq n (Nat.lt_succ_self n) y)
        · rw [hdata hEq]
          exact GetValue_keeps hk i n _ y hy
            (fun q st h1 h2 m hm z => hE q st h1 h2 m (Nat.lt_succ_of_lt hm) z)

theorem keeps_afterWrite {s : Repo} {rid : RID} {st : ResourceStorage}
    (fields : List (Option FieldValue)) (l : List StoragePtr)
    (hst : s.getStorage rid = .ok st) (hfresh : s.HeapFresh) :
    Keeps s (afterWrite s rid st fields l) (fun q => q = rid) := by
  constructor
  · intro a d ha
    have hne : a ≠ s.nextData := by
      intro h
      rw [h, hfresh _ (le_refl _)] at ha
      cases ha
    simp [upd_other _ _ _ _ hne, ha]
  · intro q sq hq
    rw [getStorage_afterWrite fields l q hst]
    by_cases h : q = rid
    · subst h
      rw [hst] at hq
      cases hq
      simp only [if_true, Except.map]
      split
      · exact ⟨_, rfl, rfl, fun hn => absurd trivial hn⟩
      · exact ⟨_, rfl, rfl, fun hn => absurd trivial hn⟩
    · simp only [h, if_false, hq, Except.map]
      split
      · exact ⟨_, rfl, rfl, fun _ => rfl⟩
      · exact ⟨_, rfl, rfl, fun _ => rfl⟩

/-- A handle on the current snapshot of `rid` keeps its answers in any state that keeps
everything but the current snapshot of `rid`. -/
theorem GetValue_of_keeps {s s' : Repo} {rid : RID} {st : ResourceStorage}
    (hk : Keeps s s' (fun q => q = rid)) (hst : s.getStorage rid = .ok st) (i : Nat)
    (x : Option FieldValue) :
    ∀ m, ResourceObject.GetValue m s ⟨st.data⟩ i = .ok x →
      ResourceObject.GetValue m s' ⟨st.data⟩ i = .ok x := by
  intro m
  induction m using Nat.strong_induction_on with
  | _ m ih =>
    intro hx
    by_cases hex : ∃ k, k < m ∧ ∃ z, ResourceObject.GetValue k s ⟨st.data⟩ i = .ok z
    · obtain ⟨k, hk1, z, hz⟩ := hex
      have hzx : z = x := by
        have := GetValue_mono_le hz (Nat.le_of_lt hk1)
        rw [hx] at this
        cases this
        rfl
      subst hzx
      exact GetValue_mono_le (ih k hk1 hz) (Nat.le_of_lt hk1)
    · refine GetValue_keeps hk i m _ x hx ?_
      intro q sq hq hsq k hk1 z hz
      subst hq
      rw [hst] at hsq
      cases hsq
      exact hex ⟨k, hk1, z, hz⟩

/-! ## Prototypes -/

theorem upd_true_of_true (f : Nat → Bool) (k : Nat) (h : f k = true) : upd f k true = f := by
  funext x
  by_cases hx : x = k
  · subst hx; simp [h]
  · simp [upd_other _ _ _ _ hx]

theorem CreateFromPrototype_eq {cfg : Config} {s : Repo} {p : RID} {sp : ResourceStorage}
    {T : ResourceType} (hsp : s.getStorage p = .ok sp) (hT : sp.resourceType = some T)
    (hpage : PAGE cfg s.counter < cfg.pageSize) :
    Repository.CreateFromPrototype cfg s p UUID.null = .ok (nextRID cfg s, afterClone cfg s p T) := by
  have hpg := pages_of_getStorage hsp
  have hs := storages_of_getStorage hsp
  have hnull : UUID.null.toBool = false := rfl
  by_cases hal : s.pages (PAGE cfg s.counter) = true
  · simp [Repository.CreateFromPrototype, GetIDByUUID, GetID, GetOrAllocate, hnull, hpage, hal,
      Repo.getStorage, hpg, hs, hT, Repo.allocData, Repo.setStorage, afterClone, nextRID,
      upd_true_of_true _ _ hal]
  · have hne : p.page ≠ PAGE cfg s.counter := by
      intro h
      rw [h] at hpg
      exact hal hpg
    simp [Repository.CreateFromPrototype, GetIDByUUID, GetID, GetOrAllocate, hnull, hpage, hal,
      Repo.getStorage, hpg, hs, hT, Repo.allocData, Repo.setStorage, afterClone, nextRID,
      upd_other _ _ _ _ hne]

theorem getStorage_afterClone_self (cfg : Config) (s : Repo) (p : RID) (T : ResourceType) :
    (afterClone cfg s p T).getStorage (nextRID cfg s) = .ok
      { rid := nextRID cfg s, uuid := UUID.null, resourceType := some T,
        data := some s.nextData, prototype := some p } := by
  simp [afterClone, Repo.getStorage]

theorem getStorage_afterClone_of_ok {cfg : Config} {s : Repo} (p : RID) (T : ResourceType)
    {q : StoragePtr} {sq : ResourceStorage} (hfresh : s.SlotFresh cfg)
    (hq : s.getStorage q = .ok sq) : (afterClone cfg s p T).getStorage q = .ok sq := by
  have hpg := pages_of_getStorage hq
  have hs := storages_of_getStorage hq
  have hne : q ≠ nextRID cfg s := by
    intro h
    rw [h, hfresh] at hs
    cases hs
  unfold Repo.getStorage afterClone
  by_cases hpage : q.page = (nextRID cfg s).page
  · simp [hpage, upd_other _ _ _ _ hne, hs]
  · simp [upd_other _ _ _ _ hpage, upd_other _ _ _ _ hne, hpg, hs]

theorem keeps_afterClone {cfg : Config} {s : Repo} (p : RID) (T : ResourceType)
    (hslot : s.SlotFresh cfg) (hfresh : s.HeapFresh) :
    Keeps s (afterClone cfg s p T) (fun _ => False) := by
  constructor
  · intro a d ha
    have hne : a ≠ s.nextData := by
      intro h
      rw [h, hfresh _ (le_refl _)] at ha
      cases ha
    simp [afterClone, upd_other _ _ _ _ hne, ha]
  · intro q sq hq
    exact ⟨sq, getStorage_afterClone_of_ok p T hslot hq, rfl, fun _ => rfl⟩

theorem GetValue_keeps_all {s s' : Repo} (hk : Keeps s s' (fun _ => False)) {n : Nat}
    {h : ResourceObject} {i : Nat} {y : Option FieldValue}
    (hy : ResourceObject.GetValue n s h i = .ok y) : ResourceObject.GetValue n s' h i = .ok y :=
  GetValue_keeps hk i n h y hy (fun _ _ hE => absurd hE id)

theorem readValue_keeps_all {s s' : Repo} (hk : Keeps s s' (fun _ => False)) {n : Nat}
    {rid : RID} {i : Nat} {y : Option FieldValue}
    (hy : readValue n s rid i = .ok y) : readValue n s' rid i = .ok y := by
  unfold readValue Repository.Read at hy ⊢
  cases hs : s.getStorage rid with
  | error e => rw [hs] at hy; cases hy
  | ok st =>
    rw [hs] at hy
    obtain ⟨st', hst', _, hdata⟩ := hk.storages _ _ hs
    simp only [hst', bind_ok, hdata (fun h => h)]
    exact GetValue_keeps_all hk hy

/-- Reading a locally absent field of a resource with a prototype reads the prototype. -/
theorem readValue_through_prototype {s : Repo} {c p : RID} {sc : ResourceStorage}
    {a : DataPtr} {d : ResourceData} {i n : Nat} {y : Option FieldValue}
    (hsc : s.getStorage c = .ok sc) (hdata : sc.data = some a) (hd : s.datas a = some d)
    (hds : d.storage = c) (hi : d.fields[i]? = some none) (hproto : sc.prototype = some p)
    (hy : readValue n s p i = .ok y) : readValue (n + 1) s c i = .ok y := by
  unfold readValue Repository.Read at hy ⊢
  cases hp : s.getStorage p with
  | error e => rw [hp] at hy; cases hy
  | ok sp =>
    rw [hp] at hy
    simp only [bind_ok] at hy
    simp only [hsc, bind_ok, hdata]
    rw [GetValue_succ_ok]
    refine ⟨a, d, none, rfl, hd, hi, sc, by rw [hds]; exact hsc, ?_⟩
    rw [hproto]
    exact ⟨sp, hp, hy⟩

theorem Keeps.trans_fresh {s s1 s2 : Repo} {E : StoragePtr → Prop}
    (h1 : Keeps s s1 (fun _ => False)) (h2 : Keeps s1 s2 E)
    (hE : ∀ q st, s.getStorage q = .ok st → ¬ E q) : Keeps s s2 (fun _ => False) := by
  constructor
  · intro a d ha
    exact h2.datas a d (h1.datas a d ha)
  · intro q sq hq
    obtain ⟨st1, hst1, hp1, hd1⟩ := h1.storages q sq hq
    obtain ⟨st2, hst2, hp2, hd2⟩ := h2.storages q st1 hst1
    exact ⟨st2, hst2, hp2.trans hp1, fun _ => (hd2 (hE q sq hq)).trans (hd1 (fun h => h))⟩

theorem heapFresh_afterClone {cfg : Config} {s : Repo} (p : RID) (T : ResourceType)
    (hfresh : s.HeapFresh) : (afterClone cfg s p T).HeapFresh := by
  intro a ha
  have h1 : s.nextData + 1 ≤ a := ha
  have hne : a ≠ s.nextData := Nat.ne_of_gt h1
  simp only [afterClone, upd_other _ _ _ _ hne]
  exact hfresh a (Nat.le_of_succ_le h1)

theorem getStorage_afterWrite_self {s : Repo} {rid : RID} {st : ResourceStorage}
    (fields : List (Option FieldValue)) (l : List StoragePtr)
    (hst : s.getStorage rid = .ok st) :
    ∃ st', (afterWrite s rid st fields l).getStorage rid = .ok st' ∧
      st'.data = some s.nextData ∧ st'.prototype = st.prototype ∧
      (st'.version = if rid ∈ l then (st.version + 1) % 2 ^ 32 else st.version) ∧
      st'.resourceType = st.resourceType ∧ st'.parent = st.parent := by
  rw [getStorage_afterWrite fields l rid hst]
  simp only [if_true, Except.map]
  by_cases h : rid ∈ l
  · exact ⟨_, rfl, by simp [h, bump], by simp [h, bump], by simp [h, bump], by simp [h, bump],
      by simp [h, bump]⟩
  · exact ⟨_, rfl, by simp [h], by simp [h], by simp [h], by simp [h], by simp [h]⟩

theorem getStorage_afterWrite_other {s : Repo} {rid q : RID} {st sq : ResourceStorage}
    (fields : List (Option FieldValue)) (l : List StoragePtr)
    (hst : s.getStorage rid = .ok st) (hq : s.getStorage q = .ok sq) (hne : q ≠ rid) :
    ∃ sq', (afterWrite s rid st fields l).getStorage q = .ok sq' ∧
      sq'.data = sq.data ∧ sq'.prototype = sq.prototype := by
  rw [getStorage_afterWrite fields l q hst]
  simp only [hne, if_false, hq, Except.map]
  by_cases h : q ∈ l
  · exact ⟨_, rfl, by simp [h, bump], by simp [h, bump]⟩
  · exact ⟨_, rfl, by simp [h], by simp [h]⟩

/-! ## Creation and registration -/

theorem CreateResource_eq {cfg : Config} {s : Repo} (typeId : TypeID)
    (hpage : PAGE cfg s.counter < cfg.pageSize) :
    Repository.CreateResource cfg s typeId UUID.null =
      .ok (nextRID cfg s, afterCreate cfg s typeId) := by
  have hnull : UUID.null.toBool = false := rfl
  by_cases hal : s.pages (PAGE cfg s.counter) = true
  · simp [Repository.CreateResource, GetIDByUUID, GetID, GetOrAllocate, hnull, hpage, hal,
      Repo.setStorage, afterCreate, nextRID, upd_true_of_true _ _ hal]
  · simp [Repository.CreateResource, GetIDByUUID, GetID, GetOrAllocate, hnull, hpage, hal,
      Repo.setStorage, afterCreate, nextRID]

theorem getStorage_afterCreate_self (cfg : Config) (s : Repo) (typeId : TypeID) :
    (afterCreate cfg s typeId).getStorage (nextRID cfg s) = .ok
      { rid := nextRID cfg s, uuid := UUID.null, resourceType := s.resourceTypes typeId,
        data := none } := by
  simp [afterCreate, Repo.getStorage]

theorem CreateResourceType_health {cfg : Config} {s : Repo} {typeId valueId : TypeID}
    {h : TypeHandler} (hreg : s.registry valueId = some h) :
    Repository.CreateResourceType cfg s (healthSchema typeId valueId) = .ok
      { s with
        resourceTypesByName := mapInsert s.resourceTypesByName "T" (healthType typeId h)
        resourceTypes := mapInsert s.resourceTypes typeId (healthType typeId h) } := by
  simp [Repository.CreateResourceType, healthSchema, List.foldlM, TypeBuilder.step,
    TypeBuilder.emplace, List.lookup, hreg, TypeBuilder.place, TypeBuilder.finish, healthType,
    healthField, List.modify]

/-- C1 (round trip). On a resource of a registered type whose owner chain is finite,
`h = Write(rid); h.SetValue(i, v); h.Commit()` runs to completion for a Value field `i`,
and afterwards `Read(rid).GetValue(i)` yields `v`. -/
theorem round_trip (s : Repo) (rid : RID) (i : Nat) (v : Value) (n : Nat)
    (st : ResourceStorage) (T : ResourceType) (f : ResourceField) (src : List (Option FieldValue))
    (hst : s.getStorage rid = .ok st) (hT : st.resourceType = some T) (hc : T.Complete)
    (hf : T.fieldsByIndex[i]? = some (some f))
    (hkind : f.fieldType = ResourceFieldType.Value) (hh : f.typeHandler ≠ none)
    (hsrc : IsSource s st T.fieldsByIndex.length src) (hlen : src.length = T.fieldsByIndex.length)
    (hchain : ownerChain n s rid) :
    ∃ s', writeSetCommit n s rid i v = .ok s' ∧
      readValue 1 s' rid i = .ok (some (FieldValue.value v)) := by
  obtain ⟨fs, hl, _, hw⟩ := writeSetCommit_eq v n 0 hst hT hc hf hkind hh hsrc hlen hchain
  refine ⟨_, hw, ?_⟩
  have hi : i < fs.length := by
    rw [hl]
    by_contra hcon
    rw [List.getElem?_eq_none (by omega)] at hf
    cases hf
  exact readValue_afterWrite _ 0 hst (by simp [List.getElem?_set, hi])

/-- C2 (concrete scenario, amended). After registering `T` with one Value field "Health" at
index 0, `rid = CreateResource(T)`, `h = Write(rid)`, `h.SetValue(0, 100)`, `h.Commit()`:
`Read(rid).GetValue(0)` is 100 and `GetVersion(rid)` is 2, the initial version 1 incremented
once. -/
theorem health_scenario (cfg : Config) (s : Repo) (typeId valueId : TypeID) (h : TypeHandler)
    (hreg : s.registry valueId = some h) (hnew : s.resourceTypes typeId = none)
    (hpage : PAGE cfg s.counter < cfg.pageSize) :
    healthScenario cfg s typeId valueId = .ok (some (FieldValue.value 100), 2) := by
  obtain ⟨s1, hs1⟩ : ∃ s1 : Repo, s1 =
      { s with
        resourceTypesByName := mapInsert s.resourceTypesByName "T" (healthType typeId h)
        resourceTypes := mapInsert s.resourceTypes typeId (healthType typeId h) } := ⟨_, rfl⟩
  have hty : s1.resourceTypes typeId = some (healthType typeId h) := by
    simp [hs1, mapInsert, hnew]
  have hpage1 : PAGE cfg s1.counter < cfg.pageSize := by rw [hs1]; exact hpage
  have hst := getStorage_afterCreate_self cfg s1 typeId
  rw [hty] at hst
  have hc : (healthType typeId h).Complete := by
    intro j hj
    have : j = 0 := by simpa [healthType] using hj
    subst this
    exact ⟨healthField h, rfl⟩
  obtain ⟨fs, hl, _, hw⟩ := writeSetCommit_eq (f := healthField h) (i := 0) 100 1 0 hst rfl hc rfl
    rfl (by simp [healthField]) (show IsSource _ _ _ [none] from rfl) rfl ⟨_, hst, rfl⟩
  have hi : 0 < fs.length := by rw [hl]; simp [healthType]
  have hread := readValue_afterWrite (owners 1 (afterCreate cfg s1 typeId) (nextRID cfg s1)) 0 hst
    (show (fs.set 0 (some (FieldValue.value 100)))[0]? = some (some (FieldValue.value 100)) by
      simp [List.getElem?_set, hi])
  obtain ⟨st', hst', _, _, hver, _, _⟩ := getStorage_afterWrite_self
    (fs.set 0 (some (FieldValue.value 100)))
    (owners 1 (afterCreate cfg s1 typeId) (nextRID cfg s1)) hst
  have hmem : nextRID cfg s1 ∈ owners 1 (afterCreate cfg s1 typeId) (nextRID cfg s1) := by
    simp [owners]
  rw [if_pos hmem] at hver
  simp only [healthScenario, CreateResourceType_health hreg, bind_ok, ← hs1,
    CreateResource_eq typeId hpage1, hw, hread, Repository.GetVersion, hst', hver]
  rfl

/-- C3 (snapshot isolation). A handle `r` obtained from `Read(rid)` that answered
`GetValue(i)` with `x` still answers `x` after a later `Write(rid)`, `SetValue(j, w)` and
`Commit()` on the same `rid` have completed (no reclamation in between). -/
theorem snapshot_isolation (s : Repo) (rid : RID) (i j : Nat) (w : Value) (n m : Nat)
    (st : ResourceStorage) (T : ResourceType) (f : ResourceField) (src : List (Option FieldValue))
    (r : ResourceObject) (x : Option FieldValue)
    (hst : s.getStorage rid = .ok st) (hT : st.resourceType = some T) (hc : T.Complete)
    (hf : T.fieldsByIndex[j]? = some (some f))
    (hkind : f.fieldType = ResourceFieldType.Value) (hh : f.typeHandler ≠ none)
    (hsrc : IsSource s st T.fieldsByIndex.length src) (hlen : src.length = T.fieldsByIndex.length)
    (hchain : ownerChain n s rid) (hfresh : s.HeapFresh)
    (hr : Repository.Read s rid = .ok r) (hx : r.GetValue m s i = .ok x) :
    ∃ s', writeSetCommit n s rid j w = .ok s' ∧ r.GetValue m s' i = .ok x := by
  obtain ⟨fs, _, _, hw⟩ := writeSetCommit_eq w n 0 hst hT hc hf hkind hh hsrc hlen hchain
  refine ⟨_, hw, ?_⟩
  simp only [Repository.Read, hst, bind_ok] at hr
  cases hr
  exact GetValue_of_keeps (keeps_afterWrite _ _ hst hfresh) hst i x m hx

/-- C4 (version monotonicity, amended). A successful `Commit()` of a write handle on a
resource with a finite owner chain replaces the version of the resource and of every
ancestor on that chain by the old version plus one modulo 2^32; the new version is
strictly greater whenever the old one was below 4294967295. -/
theorem commit_increments_version (s : Repo) (p : DataPtr) (d : ResourceData)
    (st : ResourceStorage) (n : Nat) (a : StoragePtr) (va : Nat)
    (hd : s.datas p = some d) (hst : s.getStorage d.storage = .ok st)
    (hcas : d.dataOnWrite = none ∨ d.dataOnWrite = st.data)
    (hchain : ownerChain n s d.storage) (ha : a ∈ owners n s d.storage)
    (hva : Repository.GetVersion s a = .ok va) :
    ∃ h' s', ResourceObject.Commit n s ⟨some p⟩ = .ok (h', s') ∧
      Repository.GetVersion s' a = .ok ((va + 1) % 2 ^ 32) ∧
      (va < U32_MAX → va < (va + 1) % 2 ^ 32) := by
  have hcm := Commit_eq s p d n 0 hd hst hcas hchain
  have hver : Repository.GetVersion (committed s p d st (owners n s d.storage)) a =
      .ok ((va + 1) % 2 ^ 32) := by
    unfold Repository.GetVersion at hva ⊢
    unfold committed
    rw [getStorage_bumpAll, getStorage_setStorage _ _ _ st _ (by simpa using hst)]
    by_cases haeq : a = d.storage
    · subst haeq
      rw [hst] at hva
      simp only [bind_ok] at hva
      cases hva
      simp [ha, Except.map, bump]
    · simp only [haeq, if_false, getStorage_setData]
      cases hsa : s.getStorage a with
      | error e => rw [hsa] at hva; cases hva
      | ok sa =>
        rw [hsa] at hva
        simp only [bind_ok] at hva
        cases hva
        simp [ha, Except.map, bump]
  have hlt : va < U32_MAX → va < (va + 1) % 2 ^ 32 := by
    intro h
    unfold U32_MAX at h
    omega
  cases hdw : d.dataOnWrite with
  | none =>
    rw [hdw] at hcm
    exact ⟨_, _, hcm, hver, hlt⟩
  | some old =>
    rw [hdw] at hcm
    exact ⟨_, _, hcm, hver, hlt⟩

/-- C5 (prototype fallback, amended). Whenever `Read(p).GetValue(j)` yields a result `y`
(the prototype is populated), a clone made by `CreateFromPrototype(p)` with no local
overrides yields the same `y` for field `j`, and so does `p` afterwards. -/
theorem prototype_fallback (cfg : Config) (s : Repo) (p : RID) (j m : Nat)
    (sp : ResourceStorage) (T : ResourceType) (y : Option FieldValue)
    (hsp : s.getStorage p = .ok sp) (hT : sp.resourceType = some T)
    (hj : j < T.fieldsByIndex.length) (hpage : PAGE cfg s.counter < cfg.pageSize)
    (hslot : s.SlotFresh cfg) (hfresh : s.HeapFresh) (hy : readValue m s p j = .ok y) :
    ∃ clone s', Repository.CreateFromPrototype cfg s p UUID.null = .ok (clone, s') ∧
      readValue (m + 1) s' clone j = .ok y ∧ readValue m s' p j = .ok y := by
  refine ⟨_, _, CreateFromPrototype_eq hsp hT hpage, ?_, ?_⟩
  · have hd : (afterClone cfg s p T).datas s.nextData = some
        { storage := nextRID cfg s, memory := false,
          fields := List.replicate T.fieldsByIndex.length none } := by
      simp [afterClone]
    refine readValue_through_prototype (getStorage_afterClone_self cfg s p T) rfl hd rfl ?_ rfl
      (readValue_keeps_all (keeps_afterClone p T hslot hfresh) hy)
    simp [List.getElem?_replicate, hj]
  · exact readValue_keeps_all (keeps_afterClone p T hslot hfresh) hy

/-- C6 (override isolation). For `clone = CreateFromPrototype(p)` followed by
`Write(clone).SetValue(i, v2).Commit()`: the clone's field `i` reads `v2`, every field of `p`
reads what it read before, and every other field `j` of the clone still reads `p`'s value. -/
theorem override_isolation (cfg : Config) (s : Repo) (p : RID) (i : Nat) (v2 : Value)
    (sp : ResourceStorage) (T : ResourceType) (f : ResourceField)
    (hsp : s.getStorage p = .ok sp) (hT : sp.resourceType = some T) (hc : T.Complete)
    (hf : T.fieldsByIndex[i]? = some (some f))
    (hkind : f.fieldType = ResourceFieldType.Value) (hh : f.typeHandler ≠ none)
    (hpage : PAGE cfg s.counter < cfg.pageSize) (hslot : s.SlotFresh cfg) (hfresh : s.HeapFresh) :
    ∃ clone s', cloneOverride cfg 1 s p i v2 = .ok (clone, s') ∧
      readValue 1 s' clone i = .ok (some (FieldValue.value v2)) ∧
      ∀ j m y, j < T.fieldsByIndex.length → readValue m s p j = .ok y →
        readValue m s' p j = .ok y ∧ (j ≠ i → readValue (m + 1) s' clone j = .ok y) := by
  have hcl := CreateFromPrototype_eq hsp hT hpage
  have hst1 := getStorage_afterClone_self cfg s p T
  have hsrc : IsSource (afterClone cfg s p T)
      { rid := nextRID cfg s, uuid := UUID.null, resourceType := some T,
        data := some s.nextData, prototype := some p }
      T.fieldsByIndex.length (List.replicate T.fieldsByIndex.length none) :=
    ⟨{ storage := nextRID cfg s, memory := false,
       fields := List.replicate T.fieldsByIndex.length none }, by simp [afterClone], rfl⟩
  obtain ⟨fs, hl, hget, hw⟩ := writeSetCommit_eq v2 1 0 hst1 rfl hc hf hkind hh hsrc (by simp)
    ⟨_, hst1, rfl⟩
  have hi : i < fs.length := by
    rw [hl]
    by_contra hcon
    rw [List.getElem?_eq_none (by omega)] at hf
    cases hf
  refine ⟨_, _, by simp only [cloneOverride, hcl, bind_ok]; rw [hw]; rfl, ?_, ?_⟩
  · exact readValue_afterWrite _ 0 hst1 (by simp [List.getElem?_set, hi])
  · intro j m y hj hy
    have hk1 : Keeps s (afterClone cfg s p T) (fun _ => False) :=
      keeps_afterClone p T hslot hfresh
    have hk2 := keeps_afterWrite (fs.set i (some (FieldValue.value v2)))
      (owners (0 + 1) (afterClone cfg s p T) (nextRID cfg s)) hst1 (heapFresh_afterClone p T hfresh)
    have hk := Keeps.trans_fresh hk1 hk2 (by
      intro q sq hq hE
      have hs := storages_of_getStorage hq
      rw [hE, hslot] at hs
      cases hs)
    have hp := readValue_keeps_all hk hy
    refine ⟨hp, fun hji => ?_⟩
    obtain ⟨st', hst', hdata, hproto, _, _, _⟩ := getStorage_afterWrite_self
      (fs.set i (some (FieldValue.value v2)))
      (owners (0 + 1) (afterClone cfg s p T) (nextRID cfg s)) hst1
    have hfj : fs[j]? = some none := by
      have := hget j none (by simp [List.getElem?_replicate, hj])
      simpa [copyCell] using this
    refine readValue_through_prototype
      (d := { storage := nextRID cfg s, memory := true,
              fields := fs.set i (some (FieldValue.value v2)),
              dataOnWrite := some s.nextData, readOnly := true })
      hst' hdata (by simp) rfl ?_ hproto hp
    simp only [List.getElem?_set]
    rw [if_neg (fun h => hji h.symm)]
    exact hfj

/-! ## Facts about the concrete states -/

theorem demo.healthType_complete : (healthType 77 ⟨10, 4⟩).Complete := by
  intro j hj
  have : j = 0 := by simpa [healthType] using hj
  subst this
  exact ⟨healthField ⟨10, 4⟩, rfl⟩

theorem demo.populated_heapFresh : demo.populated.HeapFresh := by
  intro a ha
  have h1 : demo.populated.nextData = 1 := rfl
  rw [h1] at ha
  have hne : a ≠ 0 := Nat.ne_of_gt ha
  show (if a = 0 then _ else if a = 0 then _ else if a = 0 then _ else none) = none
  rw [if_neg hne, if_neg hne, if_neg hne]

/-- C1 at a concrete input: overwriting Health = 7 by 100 on the populated resource `(1, 0)`. -/
theorem round_trip_witness :
    ∃ s', writeSetCommit 1 demo.populated ⟨1, 0⟩ 0 100 = .ok s' ∧
      readValue 1 s' ⟨1, 0⟩ 0 = .ok (some (FieldValue.value 100)) :=
  round_trip demo.populated ⟨1, 0⟩ 0 100 1
    { rid := ⟨1, 0⟩, uuid := UUID.null, resourceType := some (healthType 77 ⟨10, 4⟩),
      data := some 0, version := 2 }
    (healthType 77 ⟨10, 4⟩) (healthField ⟨10, 4⟩) [some (FieldValue.value 7)]
    rfl rfl demo.healthType_complete rfl rfl (by simp [healthField]) ⟨_, rfl, rfl⟩ rfl
    ⟨_, rfl, rfl⟩

/-- C2 at a concrete input: the scenario run right after `RepositoryInit`. -/
theorem health_scenario_witness :
    healthScenario demo.cfg demo.init 77 10 = .ok (some (FieldValue.value 100), 2) :=
  health_scenario demo.cfg demo.init 77 10 ⟨10, 4⟩ rfl rfl (by decide)

/-- C2 as stated fails: in the scenario run right after `RepositoryInit` the reported
version is not 1. -/
theorem health_scenario_version_not_one :
    ∃ v version, healthScenario demo.cfg demo.init 77 10 = .ok (v, version) ∧ version ≠ 1 :=
  ⟨some (FieldValue.value 100), 2, rfl, by decide⟩

/-- C3 at a concrete input: a handle read before Health is overwritten by 9 still reads 7. -/
theorem snapshot_isolation_witness :
    ∃ s', writeSetCommit 1 demo.populated ⟨1, 0⟩ 0 9 = .ok s' ∧
      ResourceObject.GetValue 1 s' ⟨some 0⟩ 0 = .ok (some (FieldValue.value 7)) :=
  snapshot_isolation demo.populated ⟨1, 0⟩ 0 0 9 1 1
    { rid := ⟨1, 0⟩, uuid := UUID.null, resourceType := some (healthType 77 ⟨10, 4⟩),
      data := some 0, version := 2 }
    (healthType 77 ⟨10, 4⟩) (healthField ⟨10, 4⟩) [some (FieldValue.value 7)]
    ⟨some 0⟩ (some (FieldValue.value 7))
    rfl rfl demo.healthType_complete rfl rfl (by simp [healthField]) ⟨_, rfl, rfl⟩ rfl
    ⟨_, rfl, rfl⟩ demo.populated_heapFresh rfl rfl

/-- C4 at a concrete input: committing on `(1, 0)` at version 2 gives version 3. -/
theorem commit_increments_version_witness :
    ∃ h' s', ResourceObject.Commit 1 demo.populated ⟨some 0⟩ = .ok (h', s') ∧
      Repository.GetVersion s' ⟨1, 0⟩ = .ok ((2 + 1) % 2 ^ 32) ∧
      (2 < U32_MAX → 2 < (2 + 1) % 2 ^ 32) :=
  commit_increments_version demo.populated 0
    { storage := ⟨1, 0⟩, memory := true, fields := [some (FieldValue.value 7)],
      dataOnWrite := none, readOnly := true }
    { rid := ⟨1, 0⟩, uuid := UUID.null, resourceType := some (healthType 77 ⟨10, 4⟩),
      data := some 0, version := 2 }
    1 ⟨1, 0⟩ 2 rfl rfl (Or.inl rfl) ⟨_, rfl, rfl⟩ (by simp [owners]) rfl

/-- C4 as stated fails: a successful commit at version 4294967295 leaves version 0. -/
theorem version_wraps : demo.wrapScenario = .ok (4294967295, 0) := rfl

/-- C5 as stated fails: with nothing committed to `p`, `GetValue` on the clone and on `p`
both dereference a null snapshot instead of yielding equal values. -/
theorem empty_prototype_faults :
    demo.emptyPrototypeScenario 3 = .ok (.error Fault.nullDeref, .error Fault.nullDeref) := rfl

/-- C5 (amended) at a concrete input: a clone of the populated `(1, 0)` reads Health = 7. -/
theorem prototype_fallback_witness :
    ∃ clone s', Repository.CreateFromPrototype demo.cfg demo.populated ⟨1, 0⟩ UUID.null =
        .ok (clone, s') ∧
      readValue (1 + 1) s' clone 0 = .ok (some (FieldValue.value 7)) ∧
      readValue 1 s' ⟨1, 0⟩ 0 = .ok (some (FieldValue.value 7)) :=
  prototype_fallback demo.cfg demo.populated ⟨1, 0⟩ 0 1
    { rid := ⟨1, 0⟩, uuid := UUID.null, resourceType := some (healthType 77 ⟨10, 4⟩),
      data := some 0, version := 2 }
    (healthType 77 ⟨10, 4⟩) (some (FieldValue.value 7))
    rfl rfl (by decide) (by decide) rfl demo.populated_heapFresh rfl

/-- C6 at a concrete input: a clone of the populated `(1, 0)` overriding Health by 9. -/
theorem override_isolation_witness :
    ∃ clone s', cloneOverride demo.cfg 1 demo.populated ⟨1, 0⟩ 0 9 = .ok (clone, s') ∧
      readValue 1 s' clone 0 = .ok (some (FieldValue.value 9)) ∧
      ∀ j m y, j < (healthType 77 ⟨10, 4⟩).fieldsByIndex.length →
        readValue m demo.populated ⟨1, 0⟩ j = .ok y →
        readValue m s' ⟨1, 0⟩ j = .ok y ∧ (j ≠ 0 → readValue (m + 1) s' clone j = .ok y) :=
  override_isolation demo.cfg demo.populated ⟨1, 0⟩ 0 9
    { rid := ⟨1, 0⟩, uuid := UUID.null, resourceType := some (healthType 77 ⟨10, 4⟩),
      data := some 0, version := 2 }
    (healthType 77 ⟨10, 4⟩) (healthField ⟨10, 4⟩)
    rfl rfl demo.healthType_complete rfl rfl (by simp [healthField]) (by decide) rfl
    demo.populated_heapFresh

/-! ## Enumeration of sub-object sets -/

theorem pushAll_nil (e : Enumeration) : pushAll e [] = .ok e := rfl

theorem pushAll_cons (e : Enumeration) (r : RID) (ids : List RID) :
    pushAll e (r :: ids) = e.push r >>= fun e1 => pushAll e1 ids := rfl

theorem pushAll_append (e : Enumeration) (a b : List RID) :
    pushAll e (a ++ b) = pushAll e a >>= fun e1 => pushAll e1 b := by
  induction a generalizing e with
  | nil => rfl
  | cons r a ih =>
    simp only [List.cons_append, pushAll_cons]
    cases e.push r with
    | error x => rfl
    | ok e1 => simp only [bind_ok, ih]

theorem pushAll_count (c : Nat) (ids : List RID) :
    pushAll ⟨c, none⟩ ids = .ok ⟨c + ids.length, none⟩ := by
  induction ids generalizing c with
  | nil => rfl
  | cons r ids ih =>
    simp only [pushAll_cons, Enumeration.push, bind_ok, ih, List.length_cons]
    congr 2
    omega

theorem pushAll_span (pre mid post ids : List RID) (h : mid.length = ids.length) :
    pushAll ⟨pre.length, some (pre ++ mid ++ post)⟩ ids =
      .ok ⟨pre.length + ids.length, some (pre ++ ids ++ post)⟩ := by
  induction ids generalizing pre mid with
  | nil =>
    have : mid = [] := List.length_eq_zero.mp h
    subst this
    simp only [pushAll_nil, List.append_nil, List.length_nil, Nat.add_zero]
  | cons r ids ih =>
    cases mid with
    | nil => cases h
    | cons m mid =>
      have hlt : pre.length < (pre ++ m :: mid ++ post).length := by simp
      have hset : (pre ++ m :: mid ++ post).set pre.length r = (pre ++ [r]) ++ mid ++ post := by
        simp [List.set_append]
      simp only [pushAll_cons, Enumeration.push, hlt, if_true, bind_ok, hset]
      have := ih (pre ++ [r]) mid (by simpa using h)
      simp only [List.length_append, List.length_singleton] at this
      rw [this]
      simp only [List.length_cons, List.append_assoc, List.singleton_append]
      congr 2
      omega

theorem pushAll_span_zero (out ids : List RID) (h : ids.length ≤ out.length) :
    pushAll ⟨0, some out⟩ ids = .ok ⟨ids.length, some (ids ++ out.drop ids.length)⟩ := by
  have := pushAll_span [] (out.take ids.length) (out.drop ids.length) ids
    (by simp [List.length_take, h])
  simpa using this

theorem enumStep_loop (al : RID → Except Fault Bool) (l : List RID)
    (hal : ∀ r ∈ l, ∃ b, al r = .ok b) (e : Enumeration) :
    l.foldlM (enumStep al) e = pushAll e (allowedOf al l) := by
  induction l generalizing e with
  | nil => rfl
  | cons r l ih =>
    obtain ⟨b, hb⟩ := hal r (List.mem_cons_self r l)
    have ih' := fun e => ih (fun x hx => hal x (List.mem_cons_of_mem r hx)) e
    cases b with
    | true =>
      have hf : allowedOf al (r :: l) = r :: allowedOf al l := by simp [allowedOf, hb]
      rw [hf, pushAll_cons, List.foldlM_cons]
      simp only [enumStep, hb, bind_ok, if_true]
      cases e.push r with
      | error x => rfl
      | ok e1 => simp only [bind_ok, ih']
    | false =>
      have hf : allowedOf al (r :: l) = allowedOf al l := by simp [allowedOf, hb]
      rw [hf, List.foldlM_cons]
      simp only [enumStep, hb, bind_ok, Bool.false_eq_true, if_false, ih']

theorem enumStep_loop_ok (al : RID → Except Fault Bool) (l : List RID) (c : Nat)
    (e1 : Enumeration) (h : l.foldlM (enumStep al) ⟨c, none⟩ = .ok e1) :
    ∀ r ∈ l, ∃ b, al r = .ok b := by
  induction l generalizing c with
  | nil => intro r hr; cases hr
  | cons x l ih =>
    rw [List.foldlM_cons] at h
    cases hx : al x with
    | error err => simp [enumStep, hx] at h
    | ok b =>
      intro r hr
      rcases List.mem_cons.mp hr with rfl | hr
      · exact ⟨b, hx⟩
      · cases b with
        | true =>
          simp only [enumStep, hx, bind_ok, if_true, Enumeration.push] at h
          exact ih _ h r hr
        | false =>
          simp only [enumStep, hx, bind_ok, Bool.false_eq_true, if_false] at h
          exact ih _ h r hr

theorem allowedOf_sublist (al : RID → Except Fault Bool) (l : List RID) :
    (allowedOf al l).Sublist l := List.filter_sublist l

theorem RGS_succ {s : Repo} {a : DataPtr} {d : ResourceData} {o : Option SubObjectSetData}
    {st : ResourceStorage} (fuel : Nat) (owner : Option DataPtr) (i : Nat) (e : Enumeration)
    (hd : s.datas a = some d) (ho : setAt d i = .ok o) (hst : s.getStorage d.storage = .ok st) :
    ResourceObject.ResourceGetSubObjectSet (fuel + 1) s (some a) owner i e =
      (match st.prototype with
        | some q => s.getStorage q >>= fun proto =>
            ResourceObject.ResourceGetSubObjectSet fuel s proto.data (some a) i e
        | none => .ok e) >>= fun e1 =>
      (localOf o).foldlM
        (enumStep (ResourceObject.ResourceSubObjectAllowed fuel s i (some a) owner)) e1 := by
  simp only [ResourceObject.ResourceGetSubObjectSet, deref, bind_ok, getData_ok hd, ho, hst]
  cases st.prototype with
  | none =>
    simp only [bind_ok]
    cases o <;> rfl
  | some q =>
    simp only
    cases s.getStorage q with
    | error x => rfl
    | ok pq =>
      simp only [bind_ok]
      cases ResourceObject.ResourceGetSubObjectSet fuel s pq.data (some a) i e with
      | error x => rfl
      | ok e1 => cases o <;> rfl

theorem RGS_reads {s : Repo} {fuel : Nat} {data owner : Option DataPtr} {i : Nat}
    {e e1 : Enumeration}
    (h : ResourceObject.ResourceGetSubObjectSet (fuel + 1) s data owner i e = .ok e1) :
    ∃ a d o st, data = some a ∧ s.datas a = some d ∧ setAt d i = .ok o ∧
      s.getStorage d.storage = .ok st := by
  cases data with
  | none => simp [ResourceObject.ResourceGetSubObjectSet, deref] at h
  | some a =>
    cases hd : s.datas a with
    | none => simp [ResourceObject.ResourceGetSubObjectSet, deref, Repo.getData, hd] at h
    | some d =>
      cases ho : setAt d i with
      | error x =>
        simp [ResourceObject.ResourceGetSubObjectSet, deref, Repo.getData, hd, ho] at h
      | ok o =>
        cases hst : s.getStorage d.storage with
        | error x =>
          simp [ResourceObject.ResourceGetSubObjectSet, deref, Repo.getData, hd, ho, hst] at h
        | ok st => exact ⟨a, d, o, st, rfl, hd, ho, hst⟩

/-- When the counting run succeeds, every run writes the same identifiers in the same order. -/
theorem RGS_ids (s : Repo) (i : Nat) : ∀ (fuel : Nat) (data owner : Option DataPtr) (c : Nat)
    (e1 : Enumeration),
    ResourceObject.ResourceGetSubObjectSet fuel s data owner i ⟨c, none⟩ = .ok e1 →
    ∃ ids, ∀ e, ResourceObject.ResourceGetSubObjectSet fuel s data owner i e = pushAll e ids
  | 0, _, _, _, _, h => by cases h
  | fuel + 1, data, owner, c, e1, h => by
    obtain ⟨a, d, o, st, rfl, hd, ho, hst⟩ := RGS_reads h
    rw [RGS_succ fuel owner i _ hd ho hst] at h
    have key : ∃ P, (∀ e, (match st.prototype with
        | some q => s.getStorage q >>= fun proto =>
            ResourceObject.ResourceGetSubObjectSet fuel s proto.data (some a) i e
        | none => .ok e) = pushAll e P) := by
      cases hp : st.prototype with
      | none => exact ⟨[], fun e => rfl⟩
      | some q =>
        rw [hp] at h
        cases hq : s.getStorage q with
        | error x => simp [hq] at h
        | ok pq =>
          simp only [hq, bind_ok] at h
          cases hr : ResourceObject.ResourceGetSubObjectSet fuel s pq.data (some a) i ⟨c, none⟩ with
          | error x => simp [hr] at h
          | ok e2 =>
            obtain ⟨P, hP⟩ := RGS_ids s i fuel pq.data (some a) c e2 hr
            exact ⟨P, fun e => by simp only [hq, bind_ok, hP]⟩
    obtain ⟨P, hP⟩ := key
    rw [hP, pushAll_count, bind_ok] at h
    have hall := enumStep_loop_ok _ _ _ _ h
    refine ⟨P ++ allowedOf (ResourceObject.ResourceSubObjectAllowed fuel s i (some a) owner)
      (localOf o), fun e => ?_⟩
    rw [RGS_succ fuel owner i _ hd ho hst, hP, pushAll_append]
    cases pushAll e P with
    | error x => rfl
    | ok e2 => simp only [bind_ok, enumStep_loop _ _ hall]

/-! ## Enumeration over one prototype level -/

theorem allowedOf_eq_filter (al : RID → Except Fault Bool) (A : RID → Bool) (l : List RID)
    (h : ∀ r, al r = .ok (A r)) : allowedOf al l = l.filter A := by
  unfold allowedOf
  congr 1
  funext r
  rw [h r]
  cases A r <;> rfl

theorem allowed_under_owner {s : Repo} {i : Nat} {ac ap : DataPtr} {dc dp : ResourceData}
    {oc : Option SubObjectSetData} {sp : ResourceStorage} (k : Nat) (r : RID)
    (hdc : s.datas ac = some dc) (hoc : setAt dc i = .ok oc) (hdp : s.datas ap = some dp)
    (hsp : s.getStorage dp.storage = .ok sp) (hnp : sp.prototype = none) :
    ResourceObject.ResourceSubObjectAllowed (k + 1) s i (some ap) (some ac) r =
      .ok (!(removedOf oc).Has r) := by
  simp only [ResourceObject.ResourceSubObjectAllowed, getData_ok hdc, bind_ok, hoc, deref,
    getData_ok hdp, hsp, hnp]
  cases oc with
  | none => rfl
  | some sd =>
    simp only [bind_ok, removedOf]
    cases sd.prototypeRemoved.Has r <;> rfl

theorem allowed_without_owner {s : Repo} {i : Nat} {ap : DataPtr} {dp : ResourceData}
    {sp : ResourceStorage} (k : Nat) (r : RID) (hdp : s.datas ap = some dp)
    (hsp : s.getStorage dp.storage = .ok sp) (hnp : sp.prototype = none) :
    ResourceObject.ResourceSubObjectAllowed (k + 1) s i (some ap) none r = .ok true := by
  simp [ResourceObject.ResourceSubObjectAllowed, getData_ok hdp, deref, hsp, hnp]

theorem allowed_local {s : Repo} {i : Nat} {ac ap : DataPtr} {oc op : Option SubObjectSetData}
    (h : IsClone s i ac ap oc op) (k : Nat) (r : RID) :
    ResourceObject.ResourceSubObjectAllowed (k + 2) s i (some ac) none r =
      .ok (!(removedOf oc).Has r) := by
  obtain ⟨dc, dp, sc, sp, sp', p, hdc, hdp, hoc, _, hsc, hproto, hp, hdata, hsp', hnp⟩ := h
  have := allowed_under_owner k r hdc hoc hdp hsp' hnp
  simp only [ResourceObject.ResourceSubObjectAllowed, bind_ok, deref, getData_ok hdc, hsc, hproto,
    hp, hdata] at this ⊢
  simpa using this

/-- Enumeration on a resource without prototype: its local members, all of them. -/
theorem enumeration_without_prototype {s : Repo} {i : Nat} {ap : DataPtr} {dp : ResourceData}
    {op : Option SubObjectSetData} {sp : ResourceStorage} (k : Nat) (e : Enumeration)
    (hdp : s.datas ap = some dp) (hop : setAt dp i = .ok op)
    (hsp : s.getStorage dp.storage = .ok sp) (hnp : sp.prototype = none) :
    ResourceObject.ResourceGetSubObjectSet (k + 2) s (some ap) none i e =
      pushAll e (localOf op) := by
  rw [RGS_succ (k + 1) none i e hdp hop hsp, hnp]
  simp only [bind_ok]
  rw [enumStep_loop _ _ (fun r _ => ⟨true, allowed_without_owner k r hdp hsp hnp⟩),
    allowedOf_eq_filter _ (fun _ => true) _ (fun r => allowed_without_owner k r hdp hsp hnp)]
  simp

/-- Enumeration on a clone of a prototype-free resource: the prototype's members, then
the clone's own, both without the identifiers in the clone's prototype-removed set. -/
theorem enumeration_of_clone {s : Repo} {i : Nat} {ac ap : DataPtr}
    {oc op : Option SubObjectSetData} (h : IsClone s i ac ap oc op) (k : Nat) (e : Enumeration) :
    ResourceObject.ResourceGetSubObjectSet (k + 3) s (some ac) none i e =
      pushAll e (visible oc (localOf op) ++ visible oc (localOf oc)) := by
  have hloc := allowed_local h k
  obtain ⟨dc, dp, sc, sp, sp', p, hdc, hdp, hoc, hop, hsc, hproto, hp, hdata, hsp', hnp⟩ := h
  have hown := fun r => allowed_under_owner k r hdc hoc hdp hsp' hnp
  rw [RGS_succ (k + 2) none i e hdc hoc hsc, hproto]
  simp only [hp, bind_ok, hdata]
  rw [RGS_succ (k + 1) (some ac) i e hdp hop hsp', hnp]
  simp only [bind_ok]
  rw [enumStep_loop _ _ (fun r _ => ⟨_, allowed_under_owner (k + 0) r hdc hoc hdp hsp' hnp⟩),
    allowedOf_eq_filter _ _ _ (fun r => allowed_under_owner (k + 0) r hdc hoc hdp hsp' hnp),
    pushAll_append]
  simp only [visible]
  cases pushAll e (List.filter (fun r => !(removedOf oc).Has r) (localOf op)) with
  | error x => rfl
  | ok e1 =>
    simp only [bind_ok]
    rw [enumStep_loop _ _ (fun r _ => ⟨_, hloc r⟩), allowedOf_eq_filter _ _ _ hloc]

theorem count_of_clone {s : Repo} {i : Nat} {ac ap : DataPtr}
    {oc op : Option SubObjectSetData} (h : IsClone s i ac ap oc op) (k : Nat) :
    ResourceObject.GetSubObjectSetCount (k + 3) s ⟨some ac⟩ i =
      .ok ((visible oc (localOf op)).length + (visible oc (localOf oc)).length) := by
  simp [ResourceObject.GetSubObjectSetCount, enumeration_of_clone h k, pushAll_count]

theorem array_of_clone {s : Repo} {i : Nat} {ac ap : DataPtr}
    {oc op : Option SubObjectSetData} (h : IsClone s i ac ap oc op) (k : Nat) (out : List RID)
    (hout : (visible oc (localOf op)).length + (visible oc (localOf oc)).length ≤ out.length) :
    ResourceObject.GetSubObjectSet (k + 3) s ⟨some ac⟩ i out =
      .ok (visible oc (localOf op) ++ visible oc (localOf oc) ++
        out.drop ((visible oc (localOf op)).length + (visible oc (localOf oc)).length)) := by
  simp only [ResourceObject.GetSubObjectSet, enumeration_of_clone h k]
  rw [pushAll_span_zero out _ (by simpa using hout)]
  simp

/-! ## Prototype-relative removal -/

theorem fieldOf_eq {s : Repo} {d : ResourceData} {st : ResourceStorage} {T : ResourceType}
    {fd : ResourceField} {i : Nat} (hst : s.getStorage d.storage = .ok st)
    (hT : st.resourceType = some T) (hf : T.fieldsByIndex[i]? = some (some fd)) :
    fieldOf s d i = .ok fd := by
  simp [fieldOf, hst, hT, deref, index_eq_ok hf]

theorem storeField_of_ensureSet {d : ResourceData} {i : Nat} {sd : SubObjectSetData}
    (v : FieldValue) (h : ensureSet d i = .ok sd) :
    storeField d i v = .ok { d with fields := d.fields.set i (some v) } := by
  unfold ensureSet at h
  unfold storeField
  cases hc : index d.fields i with
  | error x => rw [hc] at h; cases h
  | ok cell =>
    rw [hc] at h
    simp only [bind_ok] at h ⊢
    cases cell with
    | some w => simp
    | none =>
      simp only at h
      cases hm : d.memory with
      | true => simp
      | false => rw [hm] at h; cases h

theorem RemoveFromPrototype_eq (s : Repo) (p : DataPtr) (d : ResourceData)
    {fd : ResourceField} {i : Nat} {sd : SubObjectSetData} (x : RID)
    (hd : s.datas p = some d) (hf : fieldOf s d i = .ok fd)
    (hkind : fd.fieldType = ResourceFieldType.SubObjectSet) (hsd : ensureSet d i = .ok sd) :
    ResourceObject.RemoveFromPrototypeSubObjectSet s ⟨some p⟩ i [x] =
      .ok (s.setData p { d with fields := d.fields.set i (some (FieldValue.set
        { sd with prototypeRemoved := sd.prototypeRemoved.Insert x })) }) := by
  simp [ResourceObject.RemoveFromPrototypeSubObjectSet, deref, getData_ok hd, hf, hkind, hsd,
    storeField_of_ensureSet _ hsd, List.set_set]

theorem CancelRemoveFromPrototype_eq (s : Repo) (p : DataPtr) (d : ResourceData)
    {fd : ResourceField} {i : Nat} {sd : SubObjectSetData} (x : RID)
    (hd : s.datas p = some d) (hf : fieldOf s d i = .ok fd)
    (hkind : fd.fieldType = ResourceFieldType.SubObjectSet) (hsd : ensureSet d i = .ok sd) :
    ResourceObject.CancelRemoveFromPrototypeSubObjectSet s ⟨some p⟩ i [x] =
      .ok (s.setData p { d with fields := d.fields.set i (some (FieldValue.set
        { sd with prototypeRemoved := sd.prototypeRemoved.Erase x })) }) := by
  simp [ResourceObject.CancelRemoveFromPrototypeSubObjectSet, deref, getData_ok hd, hf, hkind, hsd,
    storeField_of_ensureSet _ hsd, List.set_set]

theorem setAt_set_self {d : ResourceData} {i : Nat} (sd : SubObjectSetData)
    (hi : i < d.fields.length) :
    setAt { d with fields := d.fields.set i (some (FieldValue.set sd)) } i = .ok (some sd) := by
  simp [setAt, index, List.getElem?_set, hi, asSet]

theorem visible_none (l : List RID) : visible none l = l := by
  simp [visible, removedOf, HashSet.Has]

theorem visible_nil (oc : Option SubObjectSetData) : visible oc [] = [] := rfl

theorem visible_empty_removed (subs : HashSet) (l : List RID) :
    visible (some { subObjects := subs, prototypeRemoved := [] }) l = l := by
  simp [visible, removedOf, HashSet.Has]

theorem length_visible_single {subs : HashSet} {l : List RID} {x : RID}
    (hnd : l.Nodup) (hx : x ∈ l) :
    (visible (some { subObjects := subs, prototypeRemoved := [x] }) l).length = l.length - 1 := by
  have h1 : visible (some { subObjects := subs, prototypeRemoved := [x] }) l = l.erase x := by
    rw [hnd.erase_eq_filter]
    simp only [visible, removedOf, HashSet.Has, List.mem_singleton]
    congr 1
  rw [h1, List.length_erase_of_mem hx]

theorem RemoveFromPrototype_fresh {s : Repo} {rid : RID} {st : ResourceStorage}
    {T : ResourceType} {fd : ResourceField} {i : Nat} {sd : SubObjectSetData}
    {fs : List (Option FieldValue)} (x : RID)
    (hst : s.getStorage rid = .ok st) (hT : st.resourceType = some T)
    (hf : T.fieldsByIndex[i]? = some (some fd))
    (hkind : fd.fieldType = ResourceFieldType.SubObjectSet)
    (hsd : ensureSet (freshSnapshot rid st fs) i = .ok sd) :
    ResourceObject.RemoveFromPrototypeSubObjectSet (s.allocData (freshSnapshot rid st fs)).2
        ⟨some s.nextData⟩ i [x] =
      .ok ((s.allocData (freshSnapshot rid st fs)).2.setData s.nextData
        { freshSnapshot rid st fs with fields := fs.set i (some (FieldValue.set
          { sd with prototypeRemoved := sd.prototypeRemoved.Insert x })) }) :=
  RemoveFromPrototype_eq (s.allocData (freshSnapshot rid st fs)).2 s.nextData
    (freshSnapshot rid st fs) x (by simp)
    (fieldOf_eq (by simpa [freshSnapshot] using hst) hT hf) hkind hsd

theorem CancelRemoveFromPrototype_fresh {s : Repo} {rid : RID} {st : ResourceStorage}
    {T : ResourceType} {fd : ResourceField} {i : Nat} {sd : SubObjectSetData}
    {fs : List (Option FieldValue)} (x : RID)
    (hst : s.getStorage rid = .ok st) (hT : st.resourceType = some T)
    (hf : T.fieldsByIndex[i]? = some (some fd))
    (hkind : fd.fieldType = ResourceFieldType.SubObjectSet)
    (hsd : ensureSet (freshSnapshot rid st fs) i = .ok sd) :
    ResourceObject.CancelRemoveFromPrototypeSubObjectSet (s.allocData (freshSnapshot rid st fs)).2
        ⟨some s.nextData⟩ i [x] =
      .ok ((s.allocData (freshSnapshot rid st fs)).2.setData s.nextData
        { freshSnapshot rid st fs with fields := fs.set i (some (FieldValue.set
          { sd with prototypeRemoved := sd.prototypeRemoved.Erase x })) }) :=
  CancelRemoveFromPrototype_eq (s.allocData (freshSnapshot rid st fs)).2 s.nextData
    (freshSnapshot rid st fs) x (by simp)
    (fieldOf_eq (by simpa [freshSnapshot] using hst) hT hf) hkind hsd

/-! ## Enumeration below an arbitrary prototype chain -/

theorem Allowed_succ {s : Repo} {a : DataPtr} {d : ResourceData} {st : ResourceStorage}
    (k i : Nat) (r : RID) (hd : s.datas a = some d) (hst : s.getStorage d.storage = .ok st) :
    ResourceObject.ResourceSubObjectAllowed (k + 1) s i (some a) none r =
      match st.prototype with
      | some q => s.getStorage q >>= fun proto =>
          ResourceObject.ResourceSubObjectAllowed k s i proto.data (some a) r
      | none => .ok true := by
  simp only [ResourceObject.ResourceSubObjectAllowed, bind_ok, Bool.false_eq_true, if_false, deref,
    getData_ok hd, hst]

theorem Allowed_with_owner {s : Repo} {ac : DataPtr} {dc : ResourceData}
    {oc : Option SubObjectSetData} (k i : Nat) (data : Option DataPtr) (r : RID)
    (hdc : s.datas ac = some dc) (hoc : setAt dc i = .ok oc) :
    ResourceObject.ResourceSubObjectAllowed (k + 1) s i data (some ac) r =
      if (removedOf oc).Has r then .ok false
      else ResourceObject.ResourceSubObjectAllowed (k + 1) s i data none r := by
  simp only [ResourceObject.ResourceSubObjectAllowed, getData_ok hdc, bind_ok, hoc]
  cases oc with
  | none => simp [removedOf, HashSet.Has]
  | some sd =>
    simp only [bind_ok, removedOf]
    by_cases hr : sd.prototypeRemoved.Has r = true <;> simp [hr]

theorem Allowed_reads {s : Repo} {k i : Nat} {data : Option DataPtr} {o : DataPtr} {r : RID}
    {b : Bool}
    (h : ResourceObject.ResourceSubObjectAllowed (k + 1) s i data (some o) r = .ok b) :
    ∃ od x, s.datas o = some od ∧ setAt od i = .ok x := by
  cases hod : s.datas o with
  | none => simp [ResourceObject.ResourceSubObjectAllowed, Repo.getData, hod] at h
  | some od =>
    cases hx : setAt od i with
    | error e => simp [ResourceObject.ResourceSubObjectAllowed, Repo.getData, hod, hx] at h
    | ok x => exact ⟨od, x, rfl, hx⟩

theorem Keeps.refl (s : Repo) : Keeps s s (fun _ => False) :=
  ⟨fun _ _ h => h, fun _ st h => ⟨st, h, rfl, fun _ => rfl⟩⟩

theorem Allowed_keeps_owner {s s' : Repo} (hk : Keeps s s' (fun _ => False)) (i k j : Nat)
    (ih : ∀ (data : Option DataPtr) (r : RID) (b : Bool),
      ResourceObject.ResourceSubObjectAllowed k s i data none r = .ok b →
      ResourceObject.ResourceSubObjectAllowed (k + j) s' i data none r = .ok b)
    (data : Option DataPtr) (o : DataPtr) (r : RID) (b : Bool)
    (h : ResourceObject.ResourceSubObjectAllowed k s i data (some o) r = .ok b) :
    ResourceObject.ResourceSubObjectAllowed (k + j) s' i data (some o) r = .ok b := by
  cases k with
  | zero => cases h
  | succ k =>
    obtain ⟨od, x, hod, hx⟩ := Allowed_reads h
    rw [Allowed_with_owner k i data r hod hx] at h
    have hkj : k + 1 + j = (k + j) + 1 := by omega
    rw [hkj, Allowed_with_owner (k + j) i data r (hk.datas _ _ hod) hx]
    split
    · rename_i hr; rw [if_pos hr] at h; exact h
    · rename_i hr
      rw [if_neg hr] at h
      rw [← hkj]
      exact ih data r b h

theorem Allowed_keeps_none {s s' : Repo} (hk : Keeps s s' (fun _ => False)) (i j : Nat) :
    ∀ (k : Nat) (data : Option DataPtr) (r : RID) (b : Bool),
    ResourceObject.ResourceSubObjectAllowed k s i data none r = .ok b →
    ResourceObject.ResourceSubObjectAllowed (k + j) s' i data none r = .ok b
  | 0, _, _, _, h => by cases h
  | k + 1, data, r, b, h => by
    cases data with
    | none => simp [ResourceObject.ResourceSubObjectAllowed, deref] at h
    | some a =>
      cases hd : s.datas a with
      | none => simp [ResourceObject.ResourceSubObjectAllowed, deref, Repo.getData, hd] at h
      | some d =>
        cases hst : s.getStorage d.storage with
        | error e =>
          simp [ResourceObject.ResourceSubObjectAllowed, deref, Repo.getData, hd, hst] at h
        | ok st =>
          obtain ⟨st', hst', hproto, _⟩ := hk.storages _ _ hst
          have hkj : k + 1 + j = (k + j) + 1 := by omega
          rw [Allowed_succ k i r hd hst] at h
          rw [hkj, Allowed_succ (k + j) i r (hk.datas _ _ hd) hst', hproto]
          cases hp : st.prototype with
          | none => rw [hp] at h; exact h
          | some q =>
            rw [hp] at h
            simp only at h ⊢
            cases hq : s.getStorage q with
            | error e => rw [hq] at h; cases h
            | ok pq =>
              obtain ⟨pq', hpq', _, hdata⟩ := hk.storages _ _ hq
              rw [hq] at h
              simp only [bind_ok] at h
              simp only [hpq', bind_ok, hdata (fun x => x)]
              exact Allowed_keeps_owner hk i k j (Allowed_keeps_none hk i j k) pq.data a r b h

theorem Allowed_keeps_all {s s' : Repo} (hk : Keeps s s' (fun _ => False)) (i k j : Nat)
    (data owner : Option DataPtr) (r : RID) (b : Bool)
    (h : ResourceObject.ResourceSubObjectAllowed k s i data owner r = .ok b) :
    ResourceObject.ResourceSubObjectAllowed (k + j) s' i data owner r = .ok b := by
  cases owner with
  | none => exact Allowed_keeps_none hk i j k data r b h
  | some o => exact Allowed_keeps_owner hk i k j (Allowed_keeps_none hk i j k) data o r b h

theorem enumStep_loop_congr (al al' : RID → Except Fault Bool)
    (h : ∀ r b, al r = .ok b → al' r = .ok b) :
    ∀ (l : List RID) (e res : Enumeration), l.foldlM (enumStep al) e = .ok res →
      l.foldlM (enumStep al') e = .ok res
  | [], _, _, hl => hl
  | x :: l, e, res, hl => by
    rw [List.foldlM_cons] at hl ⊢
    cases hx : al x with
    | error err => simp [enumStep, hx] at hl
    | ok b =>
      simp only [enumStep, hx, h x b hx, bind_ok] at hl ⊢
      cases hstep : (if b = true then e.push x else Except.ok e) with
      | error err => rw [hstep] at hl; cases hl
      | ok e1 =>
        rw [hstep] at hl
        exact enumStep_loop_congr al al' h l e1 res hl

theorem RGS_keeps_all {s s' : Repo} (hk : Keeps s s' (fun _ => False)) (i j : Nat) :
    ∀ (n : Nat) (data owner : Option DataPtr) (e res : Enumeration),
    ResourceObject.ResourceGetSubObjectSet n s data owner i e = .ok res →
    ResourceObject.ResourceGetSubObjectSet (n + j) s' data owner i e = .ok res
  | 0, _, _, _, _, h => by cases h
  | n + 1, data, owner, e, res, h => by
    obtain ⟨a, d, o, st, rfl, hd, ho, hst⟩ := RGS_reads h
    obtain ⟨st', hst', hproto, _⟩ := hk.storages _ _ hst
    have hnj : n + 1 + j = (n + j) + 1 := by omega
    rw [RGS_succ n owner i e hd ho hst] at h
    rw [hnj, RGS_succ (n + j) owner i e (hk.datas _ _ hd) ho hst', hproto]
    have hloop := enumStep_loop_congr
      (ResourceObject.ResourceSubObjectAllowed n s i (some a) owner)
      (ResourceObject.ResourceSubObjectAllowed (n + j) s' i (some a) owner)
      (fun r b => Allowed_keeps_all hk i n j (some a) owner r b) (localOf o)
    cases hp : st.prototype with
    | none =>
      rw [hp] at h
      simp only [bind_ok] at h ⊢
      exact hloop e res h
    | some q =>
      rw [hp] at h
      simp only at h ⊢
      cases hq : s.getStorage q with
      | error err => rw [hq] at h; cases h
      | ok pq =>
        obtain ⟨pq', hpq', _, hdata⟩ := hk.storages _ _ hq
        rw [hq] at h
        simp only [bind_ok] at h
        simp only [hpq', bind_ok, hdata (fun x => x)]
        cases hr : ResourceObject.ResourceGetSubObjectSet n s pq.data (some a) i e with
        | error err => rw [hr] at h; cases h
        | ok e1 =>
          rw [hr] at h
          simp only [bind_ok] at h
          rw [RGS_keeps_all hk i j n pq.data (some a) e e1 hr]
          exact hloop e1 res h

theorem readCount_keeps_all {s s' : Repo} (hk : Keeps s s' (fun _ => False)) {n : Nat}
    {rid : RID} {i N : Nat} (j : Nat) (h : readCount n s rid i = .ok N) :
    readCount (n + j) s' rid i = .ok N := by
  simp only [readCount, Repository.Read] at h ⊢
  cases hst : s.getStorage rid with
  | error e => simp [hst] at h
  | ok st =>
    obtain ⟨st', hst', _, hdata⟩ := hk.storages _ _ hst
    rw [hst] at h
    simp only [bind_ok, ResourceObject.GetSubObjectSetCount] at h
    simp only [hst', bind_ok, hdata (fun x => x), ResourceObject.GetSubObjectSetCount]
    cases hr : ResourceObject.ResourceGetSubObjectSet n s st.data none i ⟨0, none⟩ with
    | error e => simp [hr] at h
    | ok res =>
      rw [RGS_keeps_all hk i j n st.data none _ res hr]
      rw [hr] at h
      exact h

/-- The identifiers the enumeration of a prototype writes do not depend on the clone that
asks, except for the identifiers the clone removed. -/
theorem enumeration_of_cloneOf {s : Repo} {i : Nat} {ac ap : DataPtr}
    {oc : Option SubObjectSetData} {lp : List RID} {k c : Nat} {res : Enumeration}
    (h : IsCloneOf s i ac ap oc lp) (hloc : localOf oc = [])
    (hp : ResourceObject.ResourceGetSubObjectSet (k + 2) s (some ap) none i ⟨c, none⟩ = .ok res) :
    ∃ P : List RID,
      (∀ e, ResourceObject.ResourceGetSubObjectSet (k + 2) s (some ap) none i e =
        pushAll e (P ++ allowedOf
          (ResourceObject.ResourceSubObjectAllowed (k + 1) s i (some ap) none) lp)) ∧
      (∀ e, ResourceObject.ResourceGetSubObjectSet (k + 3) s (some ac) none i e =
        pushAll e (P ++ (allowedOf
          (ResourceObject.ResourceSubObjectAllowed (k + 1) s i (some ap) none) lp).filter
            (fun r => !(removedOf oc).Has r))) := by
  obtain ⟨dc, dp, sc, sp, p, op, hdc, hdp, hoc, hop, hlp, hsc, hproto, hsp, hdata⟩ := h
  obtain ⟨a', d', o', stp, ha', hd', ho', hstp⟩ := RGS_reads hp
  cases ha'
  rw [hdp] at hd'
  cases hd'
  rw [hop] at ho'
  cases ho'
  subst hlp
  -- the part contributed by the chain above the prototype
  have key : ∃ P, ∀ (owner : Option DataPtr) (e : Enumeration),
      ResourceObject.ResourceGetSubObjectSet (k + 2) s (some ap) owner i e =
        pushAll e P >>= fun e1 => (localOf op).foldlM
          (enumStep (ResourceObject.ResourceSubObjectAllowed (k + 1) s i (some ap) owner)) e1 := by
    rw [RGS_succ (k + 1) none i _ hdp hop hstp] at hp
    cases hpp : stp.prototype with
    | none =>
      refine ⟨[], fun owner e => ?_⟩
      rw [RGS_succ (k + 1) owner i e hdp hop hstp, hpp]
      rfl
    | some q =>
      rw [hpp] at hp
      cases hq : s.getStorage q with
      | error x => simp [hq] at hp
      | ok pq =>
        simp only [hq, bind_ok] at hp
        cases hr : ResourceObject.ResourceGetSubObjectSet (k + 1) s pq.data (some ap) i
            ⟨c, none⟩ with
        | error x => simp [hr] at hp
        | ok e2 =>
          obtain ⟨P, hP⟩ := RGS_ids s i (k + 1) pq.data (some ap) c e2 hr
          refine ⟨P, fun owner e => ?_⟩
          rw [RGS_succ (k + 1) owner i e hdp hop hstp, hpp]
          simp only [hq, bind_ok, hP]
  obtain ⟨P, hP⟩ := key
  rw [hP, pushAll_count, bind_ok] at hp
  have hall := enumStep_loop_ok _ _ _ _ hp
  have hall' : ∀ r ∈ localOf op, ∃ b,
      ResourceObject.ResourceSubObjectAllowed (k + 1) s i (some ap) (some ac) r = .ok b := by
    intro r hr
    obtain ⟨b, hb⟩ := hall r hr
    rw [Allowed_with_owner k i (some ap) r hdc hoc, hb]
    split
    · exact ⟨false, rfl⟩
    · exact ⟨b, rfl⟩
  have hfilter : allowedOf
      (ResourceObject.ResourceSubObjectAllowed (k + 1) s i (some ap) (some ac)) (localOf op) =
      (allowedOf (ResourceObject.ResourceSubObjectAllowed (k + 1) s i (some ap) none)
        (localOf op)).filter (fun r => !(removedOf oc).Has r) := by
    unfold allowedOf
    rw [List.filter_filter]
    congr 1
    funext r
    rw [Allowed_with_owner k i (some ap) r hdc hoc]
    by_cases hr : (removedOf oc).Has r = true
    · simp [hr]
    · simp [hr]
  refine ⟨P, fun e => ?_, fun e => ?_⟩
  · rw [hP, pushAll_append]
    cases pushAll e P with
    | error x => rfl
    | ok e2 => simp only [bind_ok, enumStep_loop _ _ hall]
  · rw [RGS_succ (k + 2) none i e hdc hoc hsc, hproto]
    simp only [hsp, bind_ok, hdata]
    rw [hP, hloc, pushAll_append, ← hfilter]
    cases pushAll e P with
    | error x => rfl
    | ok e2 =>
      simp only [bind_ok, enumStep_loop _ _ hall']
      cases pushAll e2 (allowedOf
        (ResourceObject.ResourceSubObjectAllowed (k + 1) s i (some ap) (some ac)) (localOf op))
      <;> rfl

/-! ## Counts below an arbitrary prototype chain -/

theorem nextData_afterWrite (s : Repo) (rid : RID) (st : ResourceStorage)
    (fields : List (Option FieldValue)) (l : List StoragePtr) :
    (afterWrite s rid st fields l).nextData = s.nextData + 1 := rfl

theorem heapFresh_afterWrite {s : Repo} (rid : RID) (st : ResourceStorage)
    (fields : List (Option FieldValue)) (l : List StoragePtr) (hfresh : s.HeapFresh) :
    (afterWrite s rid st fields l).HeapFresh := by
  intro a ha
  have h1 : s.nextData + 1 ≤ a := ha
  have hne : a ≠ s.nextData := Nat.ne_of_gt h1
  rw [datas_afterWrite, upd_other _ _ _ _ hne]
  exact hfresh a (Nat.le_of_succ_le h1)

theorem isCloneOf_afterClone {cfg : Config} {s : Repo} {p : RID} {sp : ResourceStorage}
    {T : ResourceType} {ap : DataPtr} {dp : ResourceData} {op : Option SubObjectSetData} {i : Nat}
    (hsp : s.getStorage p = .ok sp) (hdata : sp.data = some ap)
    (hdp : s.datas ap = some dp) (hop : setAt dp i = .ok op)
    (hi : i < T.fieldsByIndex.length) (hslot : s.SlotFresh cfg) (hfresh : s.HeapFresh) :
    IsCloneOf (afterClone cfg s p T) i s.nextData ap none (localOf op) := by
  have hk : Keeps s (afterClone cfg s p T) (fun _ => False) := keeps_afterClone p T hslot hfresh
  refine ⟨{ storage := nextRID cfg s, memory := false,
            fields := List.replicate T.fieldsByIndex.length none }, dp, _, sp, p, op,
    by simp [afterClone], hk.datas _ _ hdp, ?_, hop, rfl, getStorage_afterClone_self cfg s p T, rfl,
    getStorage_afterClone_of_ok p T hslot hsp, hdata⟩
  simp [setAt, index, List.getElem?_replicate, hi]

theorem isCloneOf_afterWrite {s : Repo} {c p : RID} {st sp : ResourceStorage} {ap : DataPtr}
    {dp : ResourceData} {op : Option SubObjectSetData} {i : Nat}
    (fields : List (Option FieldValue)) (l : List StoragePtr) (sd : SubObjectSetData)
    (hst : s.getStorage c = .ok st) (hproto : st.prototype = some p)
    (hsp : s.getStorage p = .ok sp) (hpc : p ≠ c)
    (hdata : sp.data = some ap) (hdp : s.datas ap = some dp) (hap : ap ≠ s.nextData)
    (hop : setAt dp i = .ok op)
    (hf : fields[i]? = some (some (FieldValue.set sd))) :
    IsCloneOf (afterWrite s c st fields l) i s.nextData ap (some sd) (localOf op) := by
  obtain ⟨st', hst', hd', hp', _, _, _⟩ := getStorage_afterWrite_self fields l hst
  obtain ⟨sp', hsp', hdata', _⟩ := getStorage_afterWrite_other fields l hst hsp hpc
  refine ⟨{ storage := c, memory := true, fields := fields, dataOnWrite := st.data,
            readOnly := true }, dp, st', sp', p, op, by simp, ?_, ?_, hop, rfl, hst',
    hp'.trans hproto, hsp', hdata'.trans hdata⟩
  · simp [upd_other _ _ _ _ hap, hdp]
  · simp [setAt, index, hf, asSet]

/-- The count on a clone without local members, from the count `N` on its prototype: the
identifiers `vis` the prototype enumerates from its own field are filtered by the clone. -/
theorem count_of_cloneOf {s : Repo} {i : Nat} {ac ap : DataPtr}
    {oc : Option SubObjectSetData} {lp : List RID} {m N : Nat}
    (h : IsCloneOf s i ac ap oc lp) (hloc : localOf oc = [])
    (hp : ResourceObject.GetSubObjectSetCount (m + 2) s ⟨some ap⟩ i = .ok N) :
    (allowedOf (ResourceObject.ResourceSubObjectAllowed (m + 1) s i (some ap) none) lp).length
        ≤ N ∧
      ResourceObject.GetSubObjectSetCount (m + 3) s ⟨some ac⟩ i = .ok
        (N - (allowedOf (ResourceObject.ResourceSubObjectAllowed (m + 1) s i (some ap) none)
            lp).length +
          ((allowedOf (ResourceObject.ResourceSubObjectAllowed (m + 1) s i (some ap) none)
            lp).filter (fun r => !(removedOf oc).Has r)).length) := by
  simp only [ResourceObject.GetSubObjectSetCount] at hp ⊢
  cases hr : ResourceObject.ResourceGetSubObjectSet (m + 2) s (some ap) none i ⟨0, none⟩ with
  | error e => simp [hr] at hp
  | ok res =>
    obtain ⟨P, hP, hC⟩ := enumeration_of_cloneOf h hloc hr
    rw [hP, pushAll_count] at hp
    simp only [bind_ok, Except.ok.injEq, List.length_append, Nat.zero_add] at hp
    rw [hC, pushAll_count]
    simp only [bind_ok, List.length_append, Nat.zero_add]
    subst hp
    exact ⟨by omega, by congr 1; omega⟩

theorem length_filter_all {l : List RID} (oc : Option SubObjectSetData)
    (h : removedOf oc = []) : (l.filter (fun r => !(removedOf oc).Has r)).length = l.length := by
  rw [h]
  simp [HashSet.Has]

theorem length_filter_single {l : List RID} {x : RID} (subs : HashSet)
    (hnd : l.Nodup) (hx : x ∈ l) :
    (l.filter (fun r => !(removedOf (some ⟨subs, [x]⟩)).Has r)).length = l.length - 1 :=
  length_visible_single hnd hx

theorem mem_allowedOf {al : RID → Except Fault Bool} {l : List RID} {x : RID}
    (hx : x ∈ l) (h : al x = .ok true) : x ∈ allowedOf al l := by
  simp [allowedOf, hx, h]

theorem count_of_read {s : Repo} {p : RID} {sp : ResourceStorage} {i n N : Nat}
    (hsp : s.getStorage p = .ok sp) (h : readCount n s p i = .ok N) :
    ResourceObject.GetSubObjectSetCount n s ⟨sp.data⟩ i = .ok N := by
  simpa [readCount, Repository.Read, hsp] using h

/-! ## Sub-object-set inheritance -/

theorem ne_of_heapFresh {s : Repo} {a : DataPtr} {d : ResourceData} (k : Nat)
    (hfresh : s.HeapFresh) (ha : s.datas a = some d) : a ≠ s.nextData + k := by
  intro h
  rw [h, hfresh _ (Nat.le_add_right _ _)] at ha
  cases ha

theorem lt_of_getElem?_eq_some {α : Type} {l : List α} {i : Nat} {a : α} (h : l[i]? = some a) :
    i < l.length := by
  by_contra hcon
  rw [List.getElem?_eq_none (by omega)] at h
  cases h

theorem readCount_without_prototype {s : Repo} {p : RID} {sp : ResourceStorage} {i : Nat}
    {ap : DataPtr} {dp : ResourceData} {op : Option SubObjectSetData}
    (hsp : s.getStorage p = .ok sp) (hd : sp.data = some ap) (hnp : sp.prototype = none)
    (hdp : s.datas ap = some dp) (hds : dp.storage = p) (hop : setAt dp i = .ok op) :
    readCount 3 s p i = .ok (localOf op).length := by
  simp only [readCount, Repository.Read, hsp, bind_ok, hd, ResourceObject.GetSubObjectSetCount]
  rw [enumeration_without_prototype 1 _ hdp hop (by rw [hds]; exact hsp) hnp, pushAll_count]
  simp

/-- C7 (sub-object-set inheritance). Let `N` be the count `GetSubObjectSetCount(f)` gives on
`p` (for a `p` without prototype this is the number of sub-objects its committed set field `f`
holds) and let `x` be one of the sub-objects held by that field and enumerated on `p`. With
`clone = CreateFromPrototype(p)`, the count on the clone is `N`; after
`RemoveFromPrototypeSubObjectSet(f, x)` is committed on the clone it is `N - 1` on the clone
and still `N` on `p`; after `CancelRemoveFromPrototypeSubObjectSet(f, x)` is committed on the
clone it is `N` again. -/
theorem set_inheritance (cfg : Config) (m : Nat) (s : Repo) (p : RID) (f : Nat) (x : RID)
    (N : Nat) (sp : ResourceStorage) (T : ResourceType) (fd : ResourceField) (ap : DataPtr)
    (dp : ResourceData) (members removedP : HashSet)
    (hsp : s.getStorage p = .ok sp) (hT : sp.resourceType = some T) (hc : T.Complete)
    (hdata : sp.data = some ap) (hdp : s.datas ap = some dp)
    (hset : dp.fields[f]? = some (some (FieldValue.set ⟨members, removedP⟩)))
    (hfd : T.fieldsByIndex[f]? = some (some fd))
    (hkind : fd.fieldType = ResourceFieldType.SubObjectSet) (hh : fd.typeHandler ≠ none)
    (hnd : members.Nodup) (hx : x ∈ members)
    (hN : readCount m s p f = .ok N)
    (hvis : ResourceObject.ResourceSubObjectAllowed m s f (some ap) none x = .ok true)
    (hpage : PAGE cfg s.counter < cfg.pageSize) (hslot : s.SlotFresh cfg) (hfresh : s.HeapFresh) :
    inheritScenario cfg (m + 3) s p f x = .ok (N, N - 1, N, N) := by
  have hop : setAt dp f = .ok (some ⟨members, removedP⟩) := by simp [setAt, index, hset, asSet]
  have hfl : f < T.fieldsByIndex.length := lt_of_getElem?_eq_some hfd
  have hcl := CreateFromPrototype_eq hsp hT hpage
  have hpc : p ≠ nextRID cfg s := by
    intro h
    have hs := storages_of_getStorage hsp
    rw [h, hslot] at hs
    cases hs
  have hold : ∀ q st, s.getStorage q = .ok st → ¬ q = nextRID cfg s := by
    intro q st hq h
    have hs := storages_of_getStorage hq
    rw [h, hslot] at hs
    cases hs
  -- what every later state keeps of `s`
  have frame : ∀ s', Keeps s s' (fun _ => False) →
      readCount (m + 3) s' p f = .ok N ∧
      ResourceObject.GetSubObjectSetCount (m + 2) s' ⟨some ap⟩ f = .ok N ∧
      x ∈ allowedOf (ResourceObject.ResourceSubObjectAllowed (m + 1) s' f (some ap) none)
        members ∧
      (allowedOf (ResourceObject.ResourceSubObjectAllowed (m + 1) s' f (some ap) none)
        members).Nodup := by
    intro s' hk
    refine ⟨readCount_keeps_all hk 3 hN, ?_, ?_, (allowedOf_sublist _ _).nodup hnd⟩
    · have := readCount_keeps_all hk 2 hN
      obtain ⟨sp', hsp', _, hd'⟩ := hk.storages _ _ hsp
      have h2 := count_of_read hsp' this
      rw [hd' (fun h => h), hdata] at h2
      exact h2
    · exact mem_allowedOf hx (Allowed_keeps_all hk f m 1 (some ap) none x true hvis)
  -- the clone right after its creation
  have hst1 := getStorage_afterClone_self cfg s p T
  have hk1 : Keeps s (afterClone cfg s p T) (fun _ => False) := keeps_afterClone p T hslot hfresh
  have hf1 : (afterClone cfg s p T).HeapFresh := heapFresh_afterClone p T hfresh
  obtain ⟨_, hc1, _, _⟩ := frame _ hk1
  have hic1 := isCloneOf_afterClone hsp hdata hdp hop hfl hslot hfresh
  obtain ⟨hle1, hn0⟩ := @count_of_cloneOf _ _ _ _ _ _ m N hic1 rfl hc1
  rw [length_filter_all none rfl, Nat.sub_add_cancel hle1] at hn0
  have hn0' : readCount (m + 3) (afterClone cfg s p T) (nextRID cfg s) f = .ok N := by
    simp only [readCount, Repository.Read, hst1, bind_ok]
    exact hn0
  have hp1 : (afterClone cfg s p T).getStorage p = .ok sp :=
    getStorage_afterClone_of_ok p T hslot hsp
  have hdp1 := hk1.datas _ _ hdp
  -- the removal, committed
  have hsrc1 : IsSource (afterClone cfg s p T)
      { rid := nextRID cfg s, uuid := UUID.null, resourceType := some T,
        data := some s.nextData, prototype := some p }
      T.fieldsByIndex.length (List.replicate T.fieldsByIndex.length none) :=
    ⟨{ storage := nextRID cfg s, memory := false,
       fields := List.replicate T.fieldsByIndex.length none }, by simp [afterClone], rfl⟩
  obtain ⟨fs, hl, hget, hw⟩ := writeCommit_eq
    (fun h t => h.RemoveFromPrototypeSubObjectSet t f [x])
    (fun fs => fs.set f (some (FieldValue.set ⟨[], [x]⟩))) 1 0 hst1 rfl hc hsrc1 (by simp)
    ⟨_, hst1, rfl⟩ (by
      intro fs hl hget
      have hcell : fs[f]? = some none := by
        have := hget f none (by simp [List.getElem?_replicate, hfl])
        simpa [copyCell] using this
      have hens : ensureSet (freshSnapshot (nextRID cfg s)
          { rid := nextRID cfg s, uuid := UUID.null, resourceType := some T,
            data := some s.nextData, prototype := some p } fs) f = .ok {} := by
        simp [ensureSet, freshSnapshot, index, hcell]
      have := RemoveFromPrototype_fresh x hst1 rfl hfd hkind hens
      simpa [HashSet.Insert] using this)
  have hfi : f < fs.length := by rw [hl]; exact hfl
  have hk2 : Keeps s
      (afterWrite (afterClone cfg s p T) (nextRID cfg s)
        { rid := nextRID cfg s, uuid := UUID.null, resourceType := some T,
          data := some s.nextData, prototype := some p }
        (fs.set f (some (FieldValue.set ⟨[], [x]⟩)))
        (owners 1 (afterClone cfg s p T) (nextRID cfg s))) (fun _ => False) :=
    Keeps.trans_fresh hk1 (keeps_afterWrite _ _ hst1 hf1) hold
  have hf2 := heapFresh_afterWrite (nextRID cfg s)
    { rid := nextRID cfg s, uuid := UUID.null, resourceType := some T,
      data := some s.nextData, prototype := some p }
    (fs.set f (some (FieldValue.set ⟨[], [x]⟩)))
    (owners 1 (afterClone cfg s p T) (nextRID cfg s)) hf1
  obtain ⟨hnp2, hc2, hx2, hnd2⟩ := frame _ hk2
  have hic2 := isCloneOf_afterWrite (fs.set f (some (FieldValue.set ⟨[], [x]⟩)))
    (owners 1 (afterClone cfg s p T) (nextRID cfg s)) ⟨[], [x]⟩ hst1 rfl hp1 hpc hdata hdp1
    (ne_of_heapFresh 1 hfresh hdp) hop (by simp [List.getElem?_set, hfi])
  obtain ⟨st2, hst2, hd2, hproto2, _, hrt2, hpar2⟩ := getStorage_afterWrite_self
    (fs.set f (some (FieldValue.set ⟨[], [x]⟩)))
    (owners 1 (afterClone cfg s p T) (nextRID cfg s)) hst1
  obtain ⟨sp2, hsp2, hdata2, _⟩ := getStorage_afterWrite_other
    (fs.set f (some (FieldValue.set ⟨[], [x]⟩)))
    (owners 1 (afterClone cfg s p T) (nextRID cfg s)) hst1 hp1 hpc
  obtain ⟨hle2, hn1⟩ := @count_of_cloneOf _ _ _ _ _ _ m N hic2 rfl hc2
  simp only [localOf] at hn1 hle2
  rw [length_filter_single [] hnd2 hx2] at hn1
  have hpos2 := List.length_pos_of_mem hx2
  have hn1' : readCount (m + 3)
      (afterWrite (afterClone cfg s p T) (nextRID cfg s)
        { rid := nextRID cfg s, uuid := UUID.null, resourceType := some T,
          data := some s.nextData, prototype := some p }
        (fs.set f (some (FieldValue.set ⟨[], [x]⟩)))
        (owners 1 (afterClone cfg s p T) (nextRID cfg s))) (nextRID cfg s) f = .ok (N - 1) := by
    simp only [readCount, Repository.Read, hst2, bind_ok, hd2]
    refine hn1.trans ?_
    congr 1
    omega
  have hdp2 : (afterWrite (afterClone cfg s p T) (nextRID cfg s)
      { rid := nextRID cfg s, uuid := UUID.null, resourceType := some T,
        data := some s.nextData, prototype := some p }
      (fs.set f (some (FieldValue.set ⟨[], [x]⟩)))
      (owners 1 (afterClone cfg s p T) (nextRID cfg s))).datas ap = some dp := hk2.datas _ _ hdp
  -- the cancellation, committed
  have hsrc2 : IsSource
      (afterWrite (afterClone cfg s p T) (nextRID cfg s)
        { rid := nextRID cfg s, uuid := UUID.null, resourceType := some T,
          data := some s.nextData, prototype := some p }
        (fs.set f (some (FieldValue.set ⟨[], [x]⟩)))
        (owners 1 (afterClone cfg s p T) (nextRID cfg s)))
      st2 T.fieldsByIndex.length (fs.set f (some (FieldValue.set ⟨[], [x]⟩))) := by
    unfold IsSource
    rw [hd2]
    exact ⟨{ storage := nextRID cfg s, memory := true,
             fields := fs.set f (some (FieldValue.set ⟨[], [x]⟩)),
             dataOnWrite := some s.nextData, readOnly := true }, by simp, rfl⟩
  obtain ⟨fs2, hl2, hget2, hw2⟩ := writeCommit_eq
    (fun h t => h.CancelRemoveFromPrototypeSubObjectSet t f [x])
    (fun fs => fs.set f (some (FieldValue.set ⟨[], []⟩))) 1 0 hst2 (hrt2.trans rfl) hc hsrc2
    (by simp [hl]) ⟨_, hst2, by rw [hpar2]⟩ (by
      intro fs2 hl2 hget2
      obtain ⟨th, hth⟩ : ∃ th, fd.typeHandler = some th := Option.ne_none_iff_exists'.mp hh
      have hcell : fs2[f]? = some (some (FieldValue.set ⟨[], [x]⟩)) := by
        have := hget2 f (some (FieldValue.set ⟨[], [x]⟩)) (by simp [List.getElem?_set, hfi])
        simpa [copyCell, hfd, hth] using this
      have hens : ensureSet (freshSnapshot (nextRID cfg s) st2 fs2) f = .ok ⟨[], [x]⟩ := by
        simp [ensureSet, freshSnapshot, index, hcell, asSet]
      have := CancelRemoveFromPrototype_fresh x hst2 (hrt2.trans rfl) hfd hkind hens
      simpa [HashSet.Erase] using this)
  have hfi2 : f < fs2.length := by rw [hl2]; exact hfl
  have hk3 := Keeps.trans_fresh hk2
    (keeps_afterWrite (fs2.set f (some (FieldValue.set ⟨[], []⟩)))
      (owners 1
        (afterWrite (afterClone cfg s p T) (nextRID cfg s)
          { rid := nextRID cfg s, uuid := UUID.null, resourceType := some T,
            data := some s.nextData, prototype := some p }
          (fs.set f (some (FieldValue.set ⟨[], [x]⟩)))
          (owners 1 (afterClone cfg s p T) (nextRID cfg s)))
        (nextRID cfg s)) hst2 hf2) hold
  obtain ⟨_, hc3, _, _⟩ := frame _ hk3
  have hic3 := isCloneOf_afterWrite (fs2.set f (some (FieldValue.set ⟨[], []⟩)))
    (owners 1
      (afterWrite (afterClone cfg s p T) (nextRID cfg s)
        { rid := nextRID cfg s, uuid := UUID.null, resourceType := some T,
          data := some s.nextData, prototype := some p }
        (fs.set f (some (FieldValue.set ⟨[], [x]⟩)))
        (owners 1 (afterClone cfg s p T) (nextRID cfg s)))
      (nextRID cfg s)) ⟨[], []⟩ hst2 (hproto2.trans rfl) hsp2 hpc
    (hdata2.trans hdata) hdp2 (ne_of_heapFresh 2 hfresh hdp) hop
    (by simp [List.getElem?_set, hfi2])
  obtain ⟨st3, hst3, hd3, _, _, _, _⟩ := getStorage_afterWrite_self
    (fs2.set f (some (FieldValue.set ⟨[], []⟩)))
    (owners 1
      (afterWrite (afterClone cfg s p T) (nextRID cfg s)
        { rid := nextRID cfg s, uuid := UUID.null, resourceType := some T,
          data := some s.nextData, prototype := some p }
        (fs.set f (some (FieldValue.set ⟨[], [x]⟩)))
        (owners 1 (afterClone cfg s p T) (nextRID cfg s)))
      (nextRID cfg s)) hst2
  obtain ⟨hle3, hn2⟩ := @count_of_cloneOf _ _ _ _ _ _ m N hic3 rfl hc3
  rw [length_filter_all (some ⟨[], []⟩) rfl, Nat.sub_add_cancel hle3] at hn2
  have hn2' : readCount (m + 3)
      (afterWrite
        (afterWrite (afterClone cfg s p T) (nextRID cfg s)
          { rid := nextRID cfg s, uuid := UUID.null, resourceType := some T,
            data := some s.nextData, prototype := some p }
          (fs.set f (some (FieldValue.set ⟨[], [x]⟩)))
          (owners 1 (afterClone cfg s p T) (nextRID cfg s)))
        (nextRID cfg s) st2 (fs2.set f (some (FieldValue.set ⟨[], []⟩)))
        (owners 1
          (afterWrite (afterClone cfg s p T) (nextRID cfg s)
            { rid := nextRID cfg s, uuid := UUID.null, resourceType := some T,
              data := some s.nextData, prototype := some p }
            (fs.set f (some (FieldValue.set ⟨[], [x]⟩)))
            (owners 1 (afterClone cfg s p T) (nextRID cfg s)))
          (nextRID cfg s))) (nextRID cfg s) f = .ok N := by
    simp only [readCount, Repository.Read, hst3, bind_ok, hd3]
    exact hn2
  simp only [inheritScenario, hcl, bind_ok, hn0', hw, hn1', hnp2, hw2, hn2']

/-- C8 (visible membership, amended). For a clone whose prototype has no prototype of its
own, whenever no locally added member of the clone is also in the clone's prototype-removed
set, the identifiers `GetSubObjectSet(f)` writes on the clone are exactly (the prototype's
local members minus the clone's prototype-removed set) union the clone's local members. -/
theorem visible_membership (s : Repo) (i : Nat) (ac ap : DataPtr)
    (oc op : Option SubObjectSetData) (h : IsClone s i ac ap oc op)
    (hdisj : ∀ r, r ∈ localOf oc → r ∉ removedOf oc) :
    ∃ n out, ResourceObject.GetSubObjectSetCount 3 s ⟨some ac⟩ i = .ok n ∧
      ResourceObject.GetSubObjectSet 3 s ⟨some ac⟩ i (List.replicate n RID.null) = .ok out ∧
      ∀ r, r ∈ out ↔ (r ∈ localOf op ∧ r ∉ removedOf oc) ∨ r ∈ localOf oc := by
  refine ⟨_, _, count_of_clone h 0, array_of_clone h 0 _ (by simp), ?_⟩
  intro r
  simp only [List.drop_replicate, Nat.sub_self, List.replicate_zero, List.append_nil,
    List.mem_append, visible, List.mem_filter, HashSet.Has, Bool.not_eq_true',
    decide_eq_false_iff_not]
  constructor
  · rintro (⟨h1, h2⟩ | ⟨h1, _⟩)
    · exact Or.inl ⟨h1, h2⟩
    · exact Or.inr h1
  · rintro (⟨h1, h2⟩ | h1)
    · exact Or.inl ⟨h1, h2⟩
    · exact Or.inr ⟨h1, hdisj r h1⟩

/-- C9 (enumeration layout). On a resource with a prototype, when `GetSubObjectSetCount(f)`
returns `n`, `GetSubObjectSet(f)` writes exactly the positions `0..n-1` of the output: first
the identifiers `P` that the enumeration of the prototype chain writes, then identifiers `L`
taken from the resource's local members; positions from `n` on are left as they were. -/
theorem enumeration_layout (s : Repo) (fuel : Nat) (a : DataPtr) (d : ResourceData)
    (st pq : ResourceStorage) (q : StoragePtr) (o : Option SubObjectSetData) (i n : Nat)
    (hd : s.datas a = some d) (hst : s.getStorage d.storage = .ok st)
    (hproto : st.prototype = some q) (hpq : s.getStorage q = .ok pq) (ho : setAt d i = .ok o)
    (hn : ResourceObject.GetSubObjectSetCount (fuel + 1) s ⟨some a⟩ i = .ok n) :
    ∃ P L : List RID, P.length + L.length = n ∧ L.Sublist (localOf o) ∧
      ResourceObject.ResourceGetSubObjectSet fuel s pq.data (some a) i ⟨0, none⟩ =
        .ok ⟨P.length, none⟩ ∧
      (∀ span : List RID, P.length ≤ span.length →
        ResourceObject.ResourceGetSubObjectSet fuel s pq.data (some a) i ⟨0, some span⟩ =
          .ok ⟨P.length, some (P ++ span.drop P.length)⟩) ∧
      ∀ out : List RID, n ≤ out.length →
        ResourceObject.GetSubObjectSet (fuel + 1) s ⟨some a⟩ i out =
          .ok (P ++ L ++ out.drop n) := by
  have hrun : ∀ e, ResourceObject.ResourceGetSubObjectSet (fuel + 1) s (some a) none i e =
      ResourceObject.ResourceGetSubObjectSet fuel s pq.data (some a) i e >>= fun e1 =>
        (localOf o).foldlM
          (enumStep (ResourceObject.ResourceSubObjectAllowed fuel s i (some a) none)) e1 := by
    intro e
    rw [RGS_succ fuel none i e hd ho hst, hproto]
    simp only [hpq, bind_ok]
  simp only [ResourceObject.GetSubObjectSetCount, hrun] at hn
  cases hr : ResourceObject.ResourceGetSubObjectSet fuel s pq.data (some a) i ⟨0, none⟩ with
  | error x => simp [hr] at hn
  | ok e2 =>
    obtain ⟨P, hP⟩ := RGS_ids s i fuel pq.data (some a) 0 e2 hr
    simp only [hP, pushAll_count, bind_ok, Nat.zero_add] at hn
    cases hloop : (localOf o).foldlM
        (enumStep (ResourceObject.ResourceSubObjectAllowed fuel s i (some a) none))
        ⟨P.length, none⟩ with
    | error x => simp [hloop] at hn
    | ok e3 =>
      have hall := enumStep_loop_ok _ _ _ _ hloop
      have hL := fun e => enumStep_loop
        (ResourceObject.ResourceSubObjectAllowed fuel s i (some a) none) (localOf o) hall e
      rw [hL, pushAll_count] at hloop
      simp only [hL, pushAll_count, bind_ok] at hn
      cases hn
      refine ⟨P, allowedOf (ResourceObject.ResourceSubObjectAllowed fuel s i (some a) none)
        (localOf o), rfl, allowedOf_sublist _ _, ?_, ?_, ?_⟩
      · rw [← hr, hP, pushAll_count, Nat.zero_add]
      · intro span hspan
        rw [hP, pushAll_span_zero span P hspan]
      · intro out hout
        simp only [ResourceObject.GetSubObjectSet, hrun, hP]
        have := pushAll_span_zero out (P ++ allowedOf
          (ResourceObject.ResourceSubObjectAllowed fuel s i (some a) none) (localOf o))
          (by simpa using hout)
        rw [pushAll_append] at this
        cases hpp : pushAll ⟨0, some out⟩ P with
        | error x => rw [hpp] at this; cases this
        | ok e4 =>
          rw [hpp] at this
          simp only [bind_ok] at this ⊢
          rw [hL, this]
          simp

theorem demo.family_isClone : IsClone demo.family 1 2 0
    (some ⟨[⟨4, 0⟩], [⟨2, 0⟩]⟩) (some ⟨[⟨2, 0⟩, ⟨3, 0⟩], []⟩) :=
  ⟨_, _, _, _, _, _, rfl, rfl, rfl, rfl, rfl, rfl, rfl, rfl, rfl, rfl⟩

theorem demo.family_heapFresh : demo.family.HeapFresh := by
  intro a ha
  have h1 : demo.family.nextData = 3 := rfl
  rw [h1] at ha
  have ha3 : (3 : Nat) ≤ a := ha
  have hne0 : a ≠ 0 := Nat.ne_of_gt (by omega)
  have hne1 : a ≠ 1 := Nat.ne_of_gt (by omega)
  have hne2 : a ≠ 2 := Nat.ne_of_gt (by omega)
  repeat (first
    | rfl
    | (show (if a = 0 then _ else _) = none; rw [if_neg hne0])
    | (show (if a = 1 then _ else _) = none; rw [if_neg hne1])
    | (show (if a = 2 then _ else _) = none; rw [if_neg hne2]))

/-- C8 (amended) at a concrete input: the clone of `demo.family` shows `(3, 0)` inherited
and `(4, 0)` of its own, and not the removed `(2, 0)`. -/
theorem visible_membership_witness :
    ∃ n out, ResourceObject.GetSubObjectSetCount 3 demo.family ⟨some 2⟩ 1 = .ok n ∧
      ResourceObject.GetSubObjectSet 3 demo.family ⟨some 2⟩ 1 (List.replicate n RID.null) =
        .ok out ∧
      ∀ r, r ∈ out ↔
        (r ∈ localOf (some ⟨[⟨2, 0⟩, ⟨3, 0⟩], []⟩) ∧ r ∉ removedOf (some ⟨[⟨4, 0⟩], [⟨2, 0⟩]⟩)) ∨
          r ∈ localOf (some ⟨[⟨4, 0⟩], [⟨2, 0⟩]⟩) :=
  visible_membership demo.family 1 2 0 _ _ demo.family_isClone (by decide)

/-- C8 as stated fails: a clone that adds `x = (2, 0)` locally and also lists `x` in its
prototype-removed set enumerates nothing (count 0, output span untouched), although `x` is
a locally added member. -/
theorem removed_local_member_hidden :
    demo.removedLocalScenario =
      .ok (0, [RID.null], some (FieldValue.set ⟨[⟨2, 0⟩], [⟨2, 0⟩]⟩)) := by
  decide!

/-- C9 at a concrete input: on the clone of `demo.family` the inherited `(3, 0)` is written
before the local `(4, 0)`. -/
theorem enumeration_layout_witness :
    ∃ P L : List RID, P.length + L.length = 2 ∧
      L.Sublist (localOf (some ⟨[⟨4, 0⟩], [⟨2, 0⟩]⟩)) ∧
      ResourceObject.ResourceGetSubObjectSet 2 demo.family (some 0) (some 2) 1 ⟨0, none⟩ =
        .ok ⟨P.length, none⟩ ∧
      (∀ span : List RID, P.length ≤ span.length →
        ResourceObject.ResourceGetSubObjectSet 2 demo.family (some 0) (some 2) 1 ⟨0, some span⟩ =
          .ok ⟨P.length, some (P ++ span.drop P.length)⟩) ∧
      ∀ out : List RID, 2 ≤ out.length →
        ResourceObject.GetSubObjectSet (2 + 1) demo.family ⟨some 2⟩ 1 out =
          .ok (P ++ L ++ out.drop 2) :=
  enumeration_layout demo.family 2 2
    { storage := ⟨5, 0⟩, memory := true,
      fields := [none, some (FieldValue.set ⟨[⟨4, 0⟩], [⟨2, 0⟩]⟩), none],
      dataOnWrite := some 1, readOnly := true }
    _ _ ⟨1, 0⟩ (some ⟨[⟨4, 0⟩], [⟨2, 0⟩]⟩) 1 2 rfl rfl rfl rfl rfl rfl

/-- C7 at a concrete input: in `demo.family` the resource `(5, 0)`, itself a clone, shows two
sub-objects, of which `(4, 0)` is held by its own field; a clone of it shows two, one after
removing `(4, 0)`, and two again after the removal is cancelled. -/
theorem set_inheritance_witness :
    inheritScenario demo.cfg (3 + 3) demo.family ⟨5, 0⟩ 1 ⟨4, 0⟩ = .ok (2, 2 - 1, 2, 2) :=
  set_inheritance demo.cfg 3 demo.family ⟨5, 0⟩ 1 ⟨4, 0⟩ 2 _ _ _ 2 _ [⟨4, 0⟩] [⟨2, 0⟩]
    rfl rfl (by
      intro j hj
      have hj3 : j < 3 := hj
      rcases j with _ | _ | _ | j
      · exact ⟨_, rfl⟩
      · exact ⟨_, rfl⟩
      · exact ⟨_, rfl⟩
      · omega)
    rfl rfl rfl rfl rfl (by decide) (by decide) (by decide) rfl rfl (by decide) rfl
    demo.family_heapFresh

/-- C10 at the failing input: with the grandchild held in a SubObject field of the child,
`DestroyResource(root); GarbageCollect()` stops at the failed assertion of
`RemoveFromSubObjectSet` ("Field is not ResourceFieldType::SubObjectSet"): destroying the
grandchild tries to detach it from the child, which is not marked for destruction. -/
theorem cascade_depth_two_asserts : demo.cascadeLinkScenario 10 = .error Fault.assertion := by
  decide!

/-- With the grandchild held in a set field of the child, the same cascade commits a new
snapshot of the child while the old one is being destroyed; the old snapshot is freed and
also queued, and `GarbageCollect` then reads it after it was freed. -/
theorem cascade_depth_two_dangling :
    demo.cascadeSetScenario 10 = .error Fault.useAfterFree := by
  decide!

/-- With ownership of depth 1 the cascade completes and leaves the root and both children
destroyed. -/
theorem cascade_depth_one : demo.cascadeFlatScenario 10 = .ok [false, false, false] := by
  decide!

/-! ## Copy-forward on Write -/

theorem copyCell_of_copyable {T : ResourceType} {fields : List (Option FieldValue)}
    (h : Copyable T fields) {k : Nat} {c : Option FieldValue} (hk : fields[k]? = some c) :
    copyCell T k c = c := by
  cases c with
  | none => rfl
  | some v =>
    obtain ⟨f, hf, hh⟩ := h k v hk
    obtain ⟨th, hth⟩ : ∃ th, f.typeHandler = some th := Option.ne_none_iff_exists'.mp hh
    simp [copyCell, hf, hth]

theorem fields_eq_of_copy {T : ResourceType} {src fs : List (Option FieldValue)}
    (h : Copyable T src) (hlen : fs.length = src.length)
    (hget : ∀ k c, src[k]? = some c → fs[k]? = some (copyCell T k c)) : fs = src := by
  apply List.ext_getElem?
  intro k
  by_cases hk : k < src.length
  · have hc : src[k]? = some src[k] := List.getElem?_eq_getElem hk
    rw [hget k _ hc, hc, copyCell_of_copyable h hc]
  · rw [List.getElem?_eq_none (by omega), List.getElem?_eq_none (by omega)]

/-- C12 (copy-forward on Write). For a resource `rid` of a type all of whose indices have a
descriptor, `Write(rid)` returns a handle on a freshly allocated snapshot `d` that is not yet
read-only and records the current snapshot pointer of `rid` as the one it will replace. When
`rid` has a current snapshot `S` (whose field table has one entry per field and whose present
fields have a type handler), the field table of `d` equals that of `S`: the same fields are
present and each holds an equal copy, and `S` itself is unchanged. When `rid` has no
snapshot every field of `d` is absent. -/
theorem copy_forward (s : Repo) (rid : RID) (st : ResourceStorage) (T : ResourceType)
    (hst : s.getStorage rid = .ok st) (hT : st.resourceType = some T) (hc : T.Complete)
    (hS : ∀ S, st.data = some S → ∃ dS, s.datas S = some dS ∧
      dS.fields.length = T.fieldsByIndex.length ∧ Copyable T dS.fields)
    (hfresh : s.HeapFresh) :
    ∃ h s' p d, Repository.Write s rid = .ok (h, s') ∧ h.m_data = some p ∧
      s'.datas p = some d ∧ s.datas p = none ∧
      d.storage = rid ∧ d.readOnly = false ∧ d.dataOnWrite = st.data ∧
      d.fields.length = T.fieldsByIndex.length ∧
      (∀ S dS, st.data = some S → s.datas S = some dS →
        d.fields = dS.fields ∧ s'.datas S = some dS) ∧
      (st.data = none → ∀ i, i < T.fieldsByIndex.length → d.fields[i]? = some none) := by
  have hnew : s.datas s.nextData = none := hfresh _ (le_refl _)
  cases hd : st.data with
  | none =>
    have hsrc : IsSource s st T.fieldsByIndex.length (List.replicate T.fieldsByIndex.length none) := by
      simp [IsSource, hd]
    obtain ⟨fs, hl, hget, hw⟩ := Write_eq hst hT hc hsrc (by simp)
    have hfs : fs = List.replicate T.fieldsByIndex.length none :=
      fields_eq_of_copy (fun i v hv => by
        rw [List.getElem?_replicate] at hv
        split at hv <;> cases hv) (by simp [hl]) hget
    refine ⟨_, _, s.nextData,
      { storage := rid, memory := true, fields := fs, dataOnWrite := st.data, readOnly := false },
      hw, rfl, by simp, hnew, rfl, rfl, hd, hl, ?_, ?_⟩
    · intro S dS h
      cases h
    · intro _ i hi
      simp [hfs, List.getElem?_replicate, hi]
  | some S =>
    obtain ⟨dS, hdS, hlen, hcopy⟩ := hS S hd
    have hsrc : IsSource s st T.fieldsByIndex.length dS.fields := by
      simp only [IsSource, hd]
      exact ⟨dS, hdS, rfl⟩
    obtain ⟨fs, hl, hget, hw⟩ := Write_eq hst hT hc hsrc hlen
    have hfs : fs = dS.fields := fields_eq_of_copy hcopy (by rw [hl, hlen]) hget
    have hne : S ≠ s.nextData := by
      intro h
      rw [h, hnew] at hdS
      cases hdS
    refine ⟨_, _, s.nextData,
      { storage := rid, memory := true, fields := fs, dataOnWrite := st.data, readOnly := false },
      hw, rfl, by simp, hnew, rfl, rfl, hd, hl, ?_, ?_⟩
    · intro S' dS' h hS'
      cases h
      rw [hdS] at hS'
      cases hS'
      exact ⟨hfs, by simp [upd_other _ _ _ _ hne, hdS]⟩
    · intro h
      cases h

/-! ## Commit conflict -/

/-- A `Commit` whose compare-exchange fails: the handle's snapshot becomes read-only and
records the pointer the exchange found; nothing else changes. -/
theorem Commit_conflict (fuel : Nat) (s : Repo) (p : DataPtr) (d : ResourceData)
    {st : ResourceStorage} {old : DataPtr}
    (hd : s.datas p = some d) (hst : s.getStorage d.storage = .ok st)
    (hdw : d.dataOnWrite = some old) (hne : st.data ≠ some old) :
    ResourceObject.Commit fuel s ⟨some p⟩ =
      .ok (⟨some p⟩, s.setData p { d with readOnly := true, dataOnWrite := st.data }) := by
  simp only [ResourceObject.Commit, deref, bind_ok, getData_ok hd, getStorage_setData, hst, hdw,
    hne, if_false]
  simp only [Repo.setData, upd_upd]

theorem sameOwners_of_storages {s s' : Repo} (hs : s'.storages = s.storages)
    (hp : s'.pages = s.pages) : SameOwners s s' := by
  intro q sq hq
  refine ⟨sq, ?_, rfl⟩
  unfold Repo.getStorage at hq ⊢
  rw [hs, hp]
  exact hq

/-- C13 (commit conflict). Two write handles `h1`, `h2` are opened on the same populated
`rid` against the same current snapshot and each sets the Value field `i`. After
`h1.Commit()` has succeeded, `h2.Commit()` leaves `h1`'s snapshot current (`Read(rid)` is the
same handle and field `i` reads `v1`), changes no storage slot (so no version is
incremented), enqueues nothing for reclamation, and `h2` keeps its snapshot, which is not the
current one. -/
theorem commit_conflict (s : Repo) (rid : RID) (i : Nat) (v1 v2 : Value) (n : Nat)
    (st : ResourceStorage) (T : ResourceType) (f : ResourceField) (S : DataPtr)
    (dS : ResourceData)
    (hst : s.getStorage rid = .ok st) (hT : st.resourceType = some T) (hc : T.Complete)
    (hf : T.fieldsByIndex[i]? = some (some f))
    (hkind : f.fieldType = ResourceFieldType.Value) (hh : f.typeHandler ≠ none)
    (hS : st.data = some S) (hdS : s.datas S = some dS)
    (hlen : dS.fields.length = T.fieldsByIndex.length)
    (hchain : ownerChain n s rid) (hfresh : s.HeapFresh) :
    ∃ s5 s6 h2 r, conflictScenario n s rid i v1 v2 = .ok (s5, s6, h2) ∧
      Repository.Read s5 rid = .ok r ∧ Repository.Read s6 rid = .ok r ∧
      readValue 1 s6 rid i = .ok (some (FieldValue.value v1)) ∧
      (∀ q, s6.getStorage q = s5.getStorage q) ∧
      (∀ q, Repository.GetVersion s6 q = Repository.GetVersion s5 q) ∧
      s6.toCollectItems = s5.toCollectItems ∧
      h2.m_data ≠ none ∧ h2 ≠ r := by
  have hfl : i < T.fieldsByIndex.length := by
    by_contra hcon
    rw [List.getElem?_eq_none (by omega)] at hf
    cases hf
  have hnew : s.datas s.nextData = none := hfresh _ (le_refl _)
  have hSne : S ≠ s.nextData := by
    intro h
    rw [h, hnew] at hdS
    cases hdS
  have h01 : s.nextData ≠ s.nextData + 1 := Nat.ne_of_lt (Nat.lt_succ_self _)
  -- the two handles
  have hsrc : IsSource s st T.fieldsByIndex.length dS.fields := by
    simp only [IsSource, hS]
    exact ⟨dS, hdS, rfl⟩
  obtain ⟨fs1, hl1, _, hw1⟩ := Write_eq hst hT hc hsrc hlen
  obtain ⟨d10, hd10⟩ : ∃ d10 : ResourceData, d10 = freshSnapshot rid st fs1 := ⟨_, rfl⟩
  have hw1' : Repository.Write s rid = .ok (⟨some s.nextData⟩, (s.allocData d10).2) := by
    rw [hw1, hd10]; rfl
  have hsrc1 : IsSource (s.allocData d10).2 st T.fieldsByIndex.length dS.fields := by
    simp only [IsSource, hS]
    exact ⟨dS, by simp [upd_other _ _ _ _ hSne, hdS], rfl⟩
  have hst1 : (s.allocData d10).2.getStorage rid = .ok st := hst
  obtain ⟨fs2, hl2, _, hw2⟩ := Write_eq hst1 hT hc hsrc1 hlen
  obtain ⟨d20, hd20⟩ : ∃ d20 : ResourceData, d20 = freshSnapshot rid st fs2 := ⟨_, rfl⟩
  have hw2' : Repository.Write (s.allocData d10).2 rid =
      .ok (⟨some (s.nextData + 1)⟩, ((s.allocData d10).2.allocData d20).2) := by
    rw [hw2, hd20]; rfl
  -- the two mutations
  have hsv1 := SetValue_eq ((s.allocData d10).2.allocData d20).2 s.nextData d10 v1
    (show ((s.allocData d10).2.allocData d20).2.datas s.nextData = some d10 by
      simp only [datas_allocData]
      rw [upd_other _ _ _ _ (show s.nextData ≠ (s.allocData d10).2.nextData from h01)]
      simp)
    (show ((s.allocData d10).2.allocData d20).2.getStorage d10.storage = .ok st by
      rw [hd10]; exact hst)
    hT hf hkind hh (by rw [hd10]; simpa [freshSnapshot, hl1] using hfl) (by rw [hd10]; rfl)
  obtain ⟨d1, hd1⟩ : ∃ d1 : ResourceData,
      d1 = { d10 with fields := d10.fields.set i (some (FieldValue.value v1)) } := ⟨_, rfl⟩
  rw [← hd1] at hsv1
  obtain ⟨t3, ht3⟩ : ∃ t3 : Repo,
      t3 = ((s.allocData d10).2.allocData d20).2.setData s.nextData d1 := ⟨_, rfl⟩
  rw [← ht3] at hsv1
  have ht3d2 : t3.datas (s.nextData + 1) = some d20 := by
    rw [ht3]
    simp only [datas_setData, datas_allocData]
    rw [upd_other _ _ _ _ h01.symm]
    exact upd_same _ _ _
  have ht3st : ∀ q, t3.getStorage q = s.getStorage q := by
    intro q; rw [ht3]; rfl
  have hsv2 := SetValue_eq t3 (s.nextData + 1) d20 v2 ht3d2
    (show t3.getStorage d20.storage = .ok st by rw [ht3st, hd20]; exact hst)
    hT hf hkind hh (by rw [hd20]; simpa [freshSnapshot, hl2] using hfl) (by rw [hd20]; rfl)
  obtain ⟨d2, hd2⟩ : ∃ d2 : ResourceData,
      d2 = { d20 with fields := d20.fields.set i (some (FieldValue.value v2)) } := ⟨_, rfl⟩
  rw [← hd2] at hsv2
  obtain ⟨t4, ht4⟩ : ∃ t4 : Repo, t4 = t3.setData (s.nextData + 1) d2 := ⟨_, rfl⟩
  rw [← ht4] at hsv2
  have ht4st : ∀ q, t4.getStorage q = s.getStorage q := by
    intro q; rw [ht4]; exact ht3st q
  have ht4d1 : t4.datas s.nextData = some d1 := by
    rw [ht4, ht3]
    simp only [datas_setData]
    rw [upd_other _ _ _ _ h01]
    exact upd_same _ _ _
  have ht4d2 : t4.datas (s.nextData + 1) = some d2 := by
    rw [ht4]; exact upd_same _ _ _
  have hd1s : d1.storage = rid := by rw [hd1, hd10]; rfl
  have hd2s : d2.storage = rid := by rw [hd2, hd20]; rfl
  have hd1w : d1.dataOnWrite = some S := by rw [hd1, hd10]; exact hS
  have hd2w : d2.dataOnWrite = some S := by rw [hd2, hd20]; exact hS
  -- the first commit succeeds
  have hso : SameOwners s t4 := by
    apply sameOwners_of_storages
    · rw [ht4, ht3]; rfl
    · rw [ht4, ht3]; rfl
  have hcm1 := Commit_eq t4 s.nextData d1 n 0 ht4d1 (by rw [hd1s, ht4st]; exact hst)
    (Or.inr (by rw [hd1w, hS])) (by rw [hd1s]; exact ownerChain_congr n _ _ _ hso hchain)
  rw [hd1w] at hcm1
  simp only [Nat.add_zero] at hcm1
  obtain ⟨t5, ht5⟩ : ∃ t5 : Repo,
      t5 = (committed t4 s.nextData d1 st (owners n t4 d1.storage)).enqueue
        { data := some S, destroySubObjects := false, destroyResource := false } := ⟨_, rfl⟩
  rw [← ht5] at hcm1
  have ht5d1 : t5.datas s.nextData = some { d1 with readOnly := true } := by
    rw [ht5]
    simp [committed]
  have ht5d2 : t5.datas (s.nextData + 1) = some d2 := by
    rw [ht5]
    simp only [datas_enqueue, committed, datas_bumpAll, datas_setStorage, datas_setData]
    rw [upd_other _ _ _ _ h01.symm]
    exact ht4d2
  obtain ⟨st5, hst5, hst5d⟩ : ∃ st5, t5.getStorage rid = .ok st5 ∧ st5.data = some s.nextData := by
    rw [ht5, getStorage_enqueue]
    simp only [committed, getStorage_bumpAll]
    rw [getStorage_setStorage _ _ _ st _ (by rw [getStorage_setData, hd1s, ht4st]; exact hst), hd1s]
    simp only [if_true, Except.map]
    split
    · exact ⟨_, rfl, rfl⟩
    · exact ⟨_, rfl, rfl⟩
  -- the second commit loses
  have hcm2 := Commit_conflict n t5 (s.nextData + 1) d2 ht5d2 (by rw [hd2s]; exact hst5) hd2w
    (by rw [hst5d]; intro h; cases h; exact hSne rfl)
  refine ⟨t5, t5.setData (s.nextData + 1) { d2 with readOnly := true, dataOnWrite := st5.data },
    ⟨some (s.nextData + 1)⟩, ⟨some s.nextData⟩, ?_, ?_, ?_, ?_, fun q => rfl,
    fun q => rfl, rfl, by simp, ?_⟩
  · simp only [conflictScenario, hw1', bind_ok, hw2', hsv1, hsv2, hcm1, hcm2]
  · simp only [Repository.Read, hst5, bind_ok, hst5d]
  · simp only [Repository.Read, getStorage_setData, hst5, bind_ok, hst5d]
  · simp only [readValue, Repository.Read, getStorage_setData, hst5, bind_ok, hst5d,
      ResourceObject.GetValue, deref, Repo.getData, datas_setData]
    rw [upd_other _ _ _ _ h01, ht5d1]
    simp only [bind_ok]
    have hi1 : i < d10.fields.length := by rw [hd10]; simpa [freshSnapshot, hl1] using hfl
    simp [hd1, index, hi1]
  · intro h
    have h2 := congrArg ResourceObject.m_data h
    simp at h2

/-! ## Identifier allocation -/

theorem OFFSET_eq_mod {cfg : Config} {k : Nat} (hP : cfg.pageSize = 2 ^ k) (hk : k ≤ 32)
    (n : Nat) : OFFSET cfg n = n % cfg.pageSize := by
  have hle : (2 : Nat) ^ k ≤ 2 ^ 32 := Nat.pow_le_pow_right (by decide) hk
  have hpos : 0 < (2 : Nat) ^ k := Nat.pos_pow_of_pos k (by decide)
  have h1 : Nat.land n (2 ^ k - 1) = n % 2 ^ k := Nat.and_pow_two_sub_one_eq_mod n k
  unfold OFFSET
  rw [hP, h1]
  exact Nat.mod_eq_of_lt (lt_of_lt_of_le (Nat.mod_lt _ hpos) hle)

theorem PAGE_eq_div {cfg : Config} {k : Nat} (hP : cfg.pageSize = 2 ^ k) (hk : k ≤ 32)
    {n : Nat} (hn : n < cfg.pageSize * cfg.pageSize) : PAGE cfg n = n / cfg.pageSize := by
  have hle : (2 : Nat) ^ k ≤ 2 ^ 32 := Nat.pow_le_pow_right (by decide) hk
  unfold PAGE
  apply Nat.mod_eq_of_lt
  have : n / cfg.pageSize < cfg.pageSize := Nat.div_lt_of_lt_mul hn
  rw [hP] at this ⊢
  omega

theorem nextRID_eq {cfg : Config} {k : Nat} (hP : cfg.pageSize = 2 ^ k) (hk : k ≤ 32)
    {s : Repo} (hn : s.counter < cfg.pageSize * cfg.pageSize) :
    nextRID cfg s = ridOfIndex cfg s.counter := by
  simp only [nextRID, ridOfIndex, OFFSET_eq_mod hP hk, PAGE_eq_div hP hk hn]

theorem ridOfIndex_injective {cfg : Config} {a b : Nat}
    (h : ridOfIndex cfg a = ridOfIndex cfg b) : a = b := by
  simp only [ridOfIndex, RID.mk.injEq] at h
  rw [← Nat.div_add_mod a cfg.pageSize, ← Nat.div_add_mod b cfg.pageSize, h.1, h.2]

theorem pageSize_sq_le {cfg : Config} {k : Nat} (hP : cfg.pageSize = 2 ^ k) (hk : k ≤ 32) :
    cfg.pageSize * cfg.pageSize ≤ 2 ^ 64 := by
  have hle : (2 : Nat) ^ k ≤ 2 ^ 32 := Nat.pow_le_pow_right (by decide) hk
  rw [hP]
  calc (2 : Nat) ^ k * 2 ^ k ≤ 2 ^ 32 * 2 ^ 32 := Nat.mul_le_mul hle hle
    _ = 2 ^ 64 := by norm_num

theorem allocate_eq {cfg : Config} {k : Nat} (hP : cfg.pageSize = 2 ^ k) (hk : k ≤ 32) :
    ∀ (m : Nat) (s : Repo), s.counter + m ≤ cfg.pageSize * cfg.pageSize →
      (allocate cfg m s).1 = (List.range' s.counter m).map (ridOfIndex cfg)
  | 0, _, _ => rfl
  | m + 1, s, h => by
    have hn : s.counter < cfg.pageSize * cfg.pageSize := by omega
    have hrid : (GetID cfg s).1 = ridOfIndex cfg s.counter := nextRID_eq hP hk hn
    simp only [allocate, List.range'_succ, List.map_cons, hrid, List.cons.injEq, true_and]
    cases m with
    | zero => rfl
    | succ m =>
      have hsq := pageSize_sq_le hP hk
      have hc : (GetID cfg s).2.counter = s.counter + 1 := by
        show (s.counter + 1) % 2 ^ 64 = s.counter + 1
        exact Nat.mod_eq_of_lt (by omega)
      have ih := allocate_eq hP hk (m + 1) (GetID cfg s).2 (by rw [hc]; omega)
      rw [ih, hc]

/-- C17 (identifier allocation). With a page size that is a power of two not above 2^32,
the first `m` identifiers handed out (`m` at most the page size squared) are, in order, the
identifiers with page `n div PAGE_SIZE` and offset `n mod PAGE_SIZE` for `n = 0, ..., m - 1`;
they are pairwise different, and the page and the offset of each are below the page size, so
each addresses one slot of the page table. -/
theorem identifier_allocation (cfg : Config) (k m : Nat) (s : Repo)
    (hP : cfg.pageSize = 2 ^ k) (hk : k ≤ 32) (h0 : s.counter = 0)
    (hm : m ≤ cfg.pageSize * cfg.pageSize) :
    (allocate cfg m s).1 = (List.range m).map (ridOfIndex cfg) ∧
      (∀ n, n < m → (allocate cfg m s).1[n]? =
        some ⟨n % cfg.pageSize, n / cfg.pageSize⟩) ∧
      (allocate cfg m s).1.Nodup ∧
      ∀ r ∈ (allocate cfg m s).1, r.page < cfg.pageSize ∧ r.offset < cfg.pageSize := by
  have hpos : 0 < cfg.pageSize := by rw [hP]; exact Nat.pos_pow_of_pos k (by decide)
  have heq : (allocate cfg m s).1 = (List.range m).map (ridOfIndex cfg) := by
    rw [allocate_eq hP hk m s (by rw [h0]; omega), h0, List.range_eq_range']
  refine ⟨heq, ?_, ?_, ?_⟩
  · intro n hn
    rw [heq]
    simp [List.getElem?_map, List.getElem?_range hn, ridOfIndex]
  · rw [heq]
    exact (List.nodup_range m).map (fun a b h => ridOfIndex_injective h)
  · intro r hr
    rw [heq] at hr
    obtain ⟨n, hn, rfl⟩ := List.mem_map.mp hr
    have hn' : n < m := List.mem_range.mp hn
    exact ⟨Nat.div_lt_of_lt_mul (lt_of_lt_of_le hn' hm), Nat.mod_lt _ hpos⟩

/-! ## One identifier per UUID -/

theorem sameIndex_refl (s : Repo) (r : RID) : SameIndex s s r := ⟨rfl, rfl, rfl, fun _ _ => rfl⟩

theorem sameIndex_trans {s s1 s2 : Repo} {r : RID} (h1 : SameIndex s s1 r)
    (h2 : SameIndex s1 s2 r) : SameIndex s s2 r :=
  ⟨h2.byUUID.trans h1.byUUID, h2.counter.trans h1.counter, h2.pages.trans h1.pages,
    fun q hq => (h2.storages q hq).trans (h1.storages q hq)⟩

theorem SameIndex.getStorage {s s' : Repo} {r q : RID} (h : SameIndex s s' r) (hq : q ≠ r) :
    s'.getStorage q = s.getStorage q := by
  unfold Repo.getStorage
  rw [h.pages, h.storages q hq]

theorem GetIDByUUID_mapped {cfg : Config} {s : Repo} {u : UUID} {r : RID}
    (hu : u.toBool = true) (hm : s.byUUID u = some r) : GetIDByUUID cfg s u = (r, s) := by
  simp [GetIDByUUID, hu, hm]

theorem GetOrAllocate_present {cfg : Config} {s : Repo} {r : RID}
    (hp : s.pages r.page = true) (hr : r.page < cfg.pageSize) : GetOrAllocate cfg s r = .ok s := by
  simp [GetOrAllocate, hp, hr]

/-- A call with a UUID that is already mapped returns the mapped identifier. -/
theorem run_mapped {cfg : Config} {s : Repo} {u : UUID} {r : RID} (c : UuidCall)
    (hu : u.toBool = true) (hm : s.byUUID u = some r)
    (hp : s.pages r.page = true) (hr : r.page < cfg.pageSize) (hc : c.PrototypeOk s r) :
    ∃ s', c.run cfg s u = .ok (r, s') ∧ SameIndex s s' r := by
  cases c with
  | getOrCreate t =>
    exact ⟨s, by simp [UuidCall.run, Repository.GetOrCreateByUUID, hm], sameIndex_refl s r⟩
  | create t =>
    refine ⟨s.setStorage r { rid := r, uuid := u, resourceType := s.resourceTypes t, data := none },
      by simp only [UuidCall.run, Repository.CreateResource, GetIDByUUID_mapped hu hm,
        GetOrAllocate_present hp hr, bind_ok], rfl, rfl, rfl, fun q hq => ?_⟩
    simp [Repo.setStorage, upd_other _ _ _ _ hq]
  | fromPrototype p =>
    obtain ⟨_, sp, T, hsp, hT⟩ := hc
    refine ⟨(s.allocData { storage := r, memory := false,
                           fields := List.replicate T.fieldsByIndex.length none }).2.setStorage r
        { rid := r, uuid := u, resourceType := some T, data := some s.nextData,
          prototype := some p },
      by simp only [UuidCall.run, Repository.CreateFromPrototype,
        GetIDByUUID_mapped hu hm, GetOrAllocate_present hp hr, bind_ok, hsp, hT]; rfl,
      rfl, rfl, rfl, fun q hq => ?_⟩
    simp [Repo.setStorage, Repo.allocData, upd_other _ _ _ _ hq]

/-- Every call of a run with a UUID that is already mapped returns the mapped identifier. -/
theorem runCalls_mapped {cfg : Config} {u : UUID} {r : RID} (hu : u.toBool = true)
    (hr : r.page < cfg.pageSize) :
    ∀ (cs : List UuidCall) (s : Repo), s.byUUID u = some r → s.pages r.page = true →
      (∀ c ∈ cs, c.PrototypeOk s r) →
      ∃ s', runCalls cfg u cs s = .ok (List.replicate cs.length r, s') ∧ SameIndex s s' r
  | [], s, _, _, _ => ⟨s, rfl, sameIndex_refl s r⟩
  | c :: cs, s, hm, hp, hc => by
    obtain ⟨s1, h1, hs1⟩ := run_mapped c hu hm hp hr (hc c (List.mem_cons_self _ _))
    have hc1 : ∀ c' ∈ cs, c'.PrototypeOk s1 r := by
      intro c' hc'
      have := hc c' (List.mem_cons_of_mem _ hc')
      cases c' with
      | getOrCreate t => trivial
      | create t => trivial
      | fromPrototype p =>
        obtain ⟨hne, sp, T, hsp, hT⟩ := this
        exact ⟨hne, sp, T, by rw [hs1.getStorage hne]; exact hsp, hT⟩
    obtain ⟨s2, h2, hs2⟩ := runCalls_mapped hu hr cs s1 (by rw [hs1.byUUID]; exact hm)
      (by rw [hs1.pages]; exact hp) hc1
    exact ⟨s2, by simp only [runCalls, h1, bind_ok, h2, List.length_cons, List.replicate_succ],
      sameIndex_trans hs1 hs2⟩

theorem mapInsert_none {α β : Type} [DecidableEq α] {m : α → Option β} {k : α} (v : β)
    (h : m k = none) : mapInsert m k v = upd m k (some v) := by
  simp [mapInsert, h]

/-- The first call with a UUID that is not mapped yet hands out the next identifier and maps
the UUID to it. -/
theorem run_unmapped {cfg : Config} {k : Nat} {s : Repo} {u : UUID} (c : UuidCall)
    (hP : cfg.pageSize = 2 ^ k) (hk : k ≤ 32)
    (hm : s.byUUID u = none) (hroom : s.counter + 1 < cfg.pageSize * cfg.pageSize)
    (hfirst : c.allocates = true ∨ s.pages (nextRID cfg s).page = true)
    (hc : c.PrototypeOk s (nextRID cfg s)) :
    ∃ s', c.run cfg s u = .ok (nextRID cfg s, s') ∧
      s'.byUUID = upd s.byUUID u (some (nextRID cfg s)) ∧ s'.counter = s.counter + 1 ∧
      s'.pages (nextRID cfg s).page = true ∧
      ∀ q sq, q ≠ nextRID cfg s → s.getStorage q = .ok sq → s'.getStorage q = .ok sq := by
  have hsq := pageSize_sq_le hP hk
  have hcnt : (s.counter + 1) % 2 ^ 64 = s.counter + 1 := Nat.mod_eq_of_lt (by omega)
  have hpg : (nextRID cfg s).page < cfg.pageSize := by
    rw [nextRID_eq hP hk (by omega)]
    exact Nat.div_lt_of_lt_mul (by omega)
  have hid : GetIDByUUID cfg s u = (nextRID cfg s,
      { s with counter := s.counter + 1, byUUID := upd s.byUUID u (some (nextRID cfg s)) }) := by
    have : (if u.toBool = true then s.byUUID u else none) = none := by
      split
      · exact hm
      · rfl
    simp only [GetIDByUUID, this, GetID, hcnt]
    rw [mapInsert_none _ hm]
    rfl
  have hkeep : ∀ (t : Repo) (q : RID) (sq : ResourceStorage), q ≠ nextRID cfg s →
      (∀ n, s.pages n = true → t.pages n = true) →
      (∀ x, x ≠ nextRID cfg s → t.storages x = s.storages x) →
      s.getStorage q = .ok sq → t.getStorage q = .ok sq := by
    intro t q sq hq hpages hstor hsq'
    exact getStorage_eq_ok (hpages _ (pages_of_getStorage hsq'))
      (by rw [hstor q hq]; exact storages_of_getStorage hsq')
  have halloc : ∃ t, GetOrAllocate cfg
      { s with counter := s.counter + 1, byUUID := upd s.byUUID u (some (nextRID cfg s)) }
      (nextRID cfg s) = .ok t ∧ t.byUUID = upd s.byUUID u (some (nextRID cfg s)) ∧
      t.counter = s.counter + 1 ∧ t.pages (nextRID cfg s).page = true ∧
      (∀ n, s.pages n = true → t.pages n = true) ∧ t.storages = s.storages ∧
      t.datas = s.datas ∧ t.nextData = s.nextData ∧ t.resourceTypes = s.resourceTypes := by
    by_cases hp : s.pages (nextRID cfg s).page = true
    · exact ⟨{ s with counter := s.counter + 1,
                      byUUID := upd s.byUUID u (some (nextRID cfg s)) },
        by simp [GetOrAllocate, hpg, hp], rfl, rfl, hp, fun _ h => h, rfl, rfl, rfl, rfl⟩
    · refine ⟨{ s with counter := s.counter + 1,
                       byUUID := upd s.byUUID u (some (nextRID cfg s)),
                       pages := upd s.pages (nextRID cfg s).page true,
                       pageCount := s.pageCount + 1 },
        by simp [GetOrAllocate, hpg, hp], rfl, rfl, by simp,
        fun n hn => ?_, rfl, rfl, rfl, rfl⟩
      by_cases hnp : n = (nextRID cfg s).page
      · simp [hnp]
      · simp only [upd_other _ _ _ _ hnp]
        exact hn
  cases c with
  | getOrCreate t =>
    have hp : s.pages (nextRID cfg s).page = true := by
      rcases hfirst with h | h
      · cases h
      · exact h
    refine ⟨({ s with counter := s.counter + 1,
                      byUUID := upd s.byUUID u (some (nextRID cfg s)) } : Repo).setStorage
        (nextRID cfg s)
        { rid := nextRID cfg s, uuid := u, resourceType := s.resourceTypes t, data := none },
      ?_, rfl, rfl, hp, fun q sq hq hsq' => hkeep _ q sq hq (fun _ h => h) (fun x hx => ?_) hsq'⟩
    · simp only [UuidCall.run, Repository.GetOrCreateByUUID, hm, GetID, hcnt]
      rw [mapInsert_none _ hm]
      rw [if_pos (show s.pages (OFFSET cfg s.counter, PAGE cfg s.counter).2 = true from hp)]
      rfl
    · simp [Repo.setStorage, upd_other _ _ _ _ hx]
  | create t =>
    obtain ⟨t1, ht1, hb, hcn, hp, hpages, hstor, _, _, hrt⟩ := halloc
    refine ⟨t1.setStorage (nextRID cfg s)
        { rid := nextRID cfg s, uuid := u, resourceType := t1.resourceTypes t, data := none },
      ?_, hb, hcn, hp, fun q sq hq hsq' => hkeep _ q sq hq hpages (fun x hx => ?_) hsq'⟩
    · simp only [UuidCall.run, Repository.CreateResource, hid, ht1, bind_ok]
    · simp [Repo.setStorage, upd_other _ _ _ _ hx, hstor]
  | fromPrototype p =>
    obtain ⟨t1, ht1, hb, hcn, hp, hpages, hstor, _, _, _⟩ := halloc
    obtain ⟨hne, sp, T, hsp, hT⟩ := hc
    have hsp1 : t1.getStorage p = .ok sp :=
      hkeep t1 p sp hne hpages (fun x _ => by rw [hstor]) hsp
    refine ⟨(t1.allocData { storage := nextRID cfg s, memory := false,
                            fields := List.replicate T.fieldsByIndex.length none }).2.setStorage
        (nextRID cfg s)
        { rid := nextRID cfg s, uuid := u, resourceType := some T, data := some t1.nextData,
          prototype := some p },
      ?_, hb, hcn, hp, fun q sq hq hsq' => hkeep _ q sq hq hpages (fun x hx => ?_) hsq'⟩
    · simp only [UuidCall.run, Repository.CreateFromPrototype, hid, ht1, bind_ok, hsp1, hT]
      rfl
    · simp [Repo.setStorage, Repo.allocData, upd_other _ _ _ _ hx, hstor]

theorem GetByUUID_of_mapped {s : Repo} {u : UUID} {r : RID} (h : s.byUUID u = some r) :
    Repository.GetByUUID s u = r := by
  simp [Repository.GetByUUID, h]

theorem mem_replicate_eq {r x : RID} {n : Nat} (h : x ∈ List.replicate n r) : x = r :=
  (List.mem_replicate.mp h).2

/-- C16 (one RID per UUID, sequential). In a state whose UUID index is in order and which
has room for one more identifier, every call of a sequence of `GetOrCreateByUUID(u)`,
`CreateResource(T, u)` and `CreateFromPrototype(p, u)` calls with the same non-null `u`
returns the same identifier `r`, afterwards `GetByUUID(u)` returns `r`, and still no two
different non-null UUIDs are mapped to the same identifier. The page size is a power of two;
the prototypes are typed resources other than `r`; when `u` is new and the first call is
`GetOrCreateByUUID`, which does not allocate pages, the page of the next identifier
exists. -/
theorem one_rid_per_uuid (cfg : Config) (k : Nat) (s : Repo) (u : UUID) (c : UuidCall)
    (cs : List UuidCall)
    (hP : cfg.pageSize = 2 ^ k) (hk : k ≤ 32) (hu : u.toBool = true)
    (hok : UuidIndexOk cfg s) (hroom : s.counter + 1 < cfg.pageSize * cfg.pageSize)
    (hpage : ∀ r, s.byUUID u = some r → s.pages r.page = true)
    (hfirst : s.byUUID u = none → c.allocates = true ∨ s.pages (nextRID cfg s).page = true)
    (hproto : ∀ c' ∈ c :: cs, c'.PrototypeOk s (uuidTarget cfg s u)) :
    ∃ r rids s', runCalls cfg u (c :: cs) s = .ok (rids, s') ∧
      rids.length = cs.length + 1 ∧ (∀ x ∈ rids, x = r) ∧
      Repository.GetByUUID s' u = r ∧ r = uuidTarget cfg s u ∧ UuidIndexOk cfg s' := by
  cases hm : s.byUUID u with
  | some r =>
    have htgt : uuidTarget cfg s u = r := by simp [uuidTarget, hm]
    rw [htgt] at hproto
    obtain ⟨n, hn, hrn⟩ := hok.handedOut u r hm
    have hr : r.page < cfg.pageSize := by
      rw [hrn]
      exact Nat.div_lt_of_lt_mul (by omega)
    obtain ⟨s', hrun, hsame⟩ := runCalls_mapped hu hr (c :: cs) s hm (hpage r hm) hproto
    refine ⟨r, _, s', hrun, by simp, fun x hx => mem_replicate_eq hx,
      GetByUUID_of_mapped (by rw [hsame.byUUID]; exact hm), htgt.symm, ?_, ?_⟩
    · intro v x hv
      rw [hsame.byUUID] at hv
      rw [hsame.counter]
      exact hok.handedOut v x hv
    · intro v w x hv hw h1 h2
      rw [hsame.byUUID] at h1 h2
      exact hok.injective v w x hv hw h1 h2
  | none =>
    have htgt : uuidTarget cfg s u = nextRID cfg s := by simp [uuidTarget, hm]
    rw [htgt] at hproto
    have hnext : nextRID cfg s = ridOfIndex cfg s.counter := nextRID_eq hP hk (by omega)
    have hr : (nextRID cfg s).page < cfg.pageSize := by
      rw [hnext]
      exact Nat.div_lt_of_lt_mul (by omega)
    obtain ⟨s1, hrun1, hb1, hc1, hp1, hkeep⟩ := run_unmapped c hP hk hm hroom (hfirst hm)
      (hproto c (List.mem_cons_self _ _))
    have hm1 : s1.byUUID u = some (nextRID cfg s) := by rw [hb1]; exact upd_same _ _ _
    have hproto1 : ∀ c' ∈ cs, c'.PrototypeOk s1 (nextRID cfg s) := by
      intro c' hc'
      have := hproto c' (List.mem_cons_of_mem _ hc')
      cases c' with
      | getOrCreate t => trivial
      | create t => trivial
      | fromPrototype p =>
        obtain ⟨hne, sp, T, hsp, hT⟩ := this
        exact ⟨hne, sp, T, hkeep p sp hne hsp, hT⟩
    obtain ⟨s', hrun, hsame⟩ := runCalls_mapped hu hr cs s1 hm1 hp1 hproto1
    refine ⟨nextRID cfg s, nextRID cfg s :: List.replicate cs.length (nextRID cfg s), s', ?_,
      by simp, ?_, GetByUUID_of_mapped (by rw [hsame.byUUID]; exact hm1), htgt.symm, ?_, ?_⟩
    · simp only [runCalls, hrun1, bind_ok, hrun]
    · intro x hx
      rcases List.mem_cons.mp hx with h | h
      · exact h
      · exact mem_replicate_eq h
    · intro v x hv
      rw [hsame.byUUID, hb1] at hv
      rw [hsame.counter, hc1]
      by_cases hvu : v = u
      · subst hvu
        rw [upd_same] at hv
        cases hv
        exact ⟨s.counter, Nat.lt_succ_self _, hnext⟩
      · rw [upd_other _ _ _ _ hvu] at hv
        obtain ⟨n, hn, hx⟩ := hok.handedOut v x hv
        exact ⟨n, Nat.lt_succ_of_lt hn, hx⟩
    · intro v w x hv hw h1 h2
      rw [hsame.byUUID, hb1] at h1 h2
      have hfreshid : ∀ y, y ≠ u → s.byUUID y = some x → x ≠ nextRID cfg s := by
        intro y _ hy hx
        obtain ⟨n, hn, hxn⟩ := hok.handedOut y x hy
        rw [hx, hnext] at hxn
        have := ridOfIndex_injective hxn
        omega
      by_cases hvu : v = u
      · by_cases hwu : w = u
        · rw [hvu, hwu]
        · exfalso
          subst hvu
          rw [upd_same] at h1
          cases h1
          rw [upd_other _ _ _ _ hwu] at h2
          exact hfreshid w hwu h2 rfl
      · by_cases hwu : w = u
        · exfalso
          subst hwu
          rw [upd_same] at h2
          cases h2
          rw [upd_other _ _ _ _ hvu] at h1
          exact hfreshid v hvu h1 rfl
        · rw [upd_other _ _ _ _ hvu] at h1
          rw [upd_other _ _ _ _ hwu] at h2
          exact hok.injective v w x hv hw h1 h2

/-! ## Type registration -/

@[simp] theorem emplace_byIndex (b : TypeBuilder) (c : ResourceFieldCreation) :
    (b.emplace c).2.byIndex = b.byIndex := by
  unfold TypeBuilder.emplace
  split <;> rfl

@[simp] theorem place_byIndex (b : TypeBuilder) (k : Nat) (h : Option TypeHandler) (n : Nat) :
    (b.place k h n).byIndex = b.byIndex := rfl

theorem step_free (cfg : Config) (registry : TypeID → Option TypeHandler) (n : Nat)
    (b : TypeBuilder) (c : ResourceFieldCreation) (hi : c.index < n)
    (hfree : b.byIndex[c.index]? = some none) :
    TypeBuilder.step cfg registry n b c =
      match c.type with
      | ResourceFieldType.Value =>
        match registry c.valueId with
        | none => .error .assertion
        | some h => .ok ((b.claim c).place (b.emplace c).1 (some h) h.size)
      | ResourceFieldType.SubObject =>
        .ok ((b.claim c).place (b.emplace c).1 (registry cfg.typeIdRID) cfg.sizeofRID)
      | ResourceFieldType.SubObjectSet =>
        .ok ((b.claim c).place (b.emplace c).1 (registry cfg.typeIdSubObjectSetData)
          cfg.sizeofSubObjectSetData)
      | ResourceFieldType.Stream =>
        .ok ((b.claim c).place (b.emplace c).1 (registry cfg.typeIdStreamObject)
          cfg.sizeofStreamObject)
      | ResourceFieldType.Undefined => .ok (b.claim c) := by
  unfold TypeBuilder.step
  simp only [hi, not_true_eq_false, if_false, emplace_byIndex, hfree, TypeBuilder.claim]

theorem knownValue_of_ne {registry : TypeID → Option TypeHandler} {c : ResourceFieldCreation}
    (h : c.type ≠ ResourceFieldType.Value) : KnownValue registry c :=
  fun hv => absurd hv h

/-- One iteration either fails an assertion, or it finds the index in range and its entry
empty and fills it. -/
theorem step_cases (cfg : Config) (registry : TypeID → Option TypeHandler) (n : Nat)
    (b : TypeBuilder) (c : ResourceFieldCreation) (hlen : b.byIndex.length = n) :
    TypeBuilder.step cfg registry n b c = .error .assertion ∨
      ∃ b' k, TypeBuilder.step cfg registry n b c = .ok b' ∧ c.index < n ∧
        b.byIndex[c.index]? = some none ∧ KnownValue registry c ∧
        b'.byIndex = b.byIndex.set c.index (some k) := by
  by_cases hi : c.index < n
  · have hget : b.byIndex[c.index]? = some b.byIndex[c.index] :=
      List.getElem?_eq_getElem (by rw [hlen]; exact hi)
    cases hcell : b.byIndex[c.index] with
    | some k =>
      left
      rw [hcell] at hget
      unfold TypeBuilder.step
      simp only [hi, not_true_eq_false, if_false, emplace_byIndex, hget]
    | none =>
      rw [hcell] at hget
      rw [step_free cfg registry n b c hi hget]
      cases hty : c.type with
      | Value =>
        simp only
        cases hreg : registry c.valueId with
        | none => exact Or.inl rfl
        | some h =>
          have hkn : KnownValue registry c := fun _ => by rw [hreg]; exact Option.some_ne_none h
          exact Or.inr ⟨_, (b.emplace c).1, rfl, hi, hget, hkn, rfl⟩
      | SubObject =>
        exact Or.inr ⟨_, (b.emplace c).1, rfl, hi, hget, knownValue_of_ne (by rw [hty]; decide), rfl⟩
      | SubObjectSet =>
        exact Or.inr ⟨_, (b.emplace c).1, rfl, hi, hget, knownValue_of_ne (by rw [hty]; decide), rfl⟩
      | Stream =>
        exact Or.inr ⟨_, (b.emplace c).1, rfl, hi, hget, knownValue_of_ne (by rw [hty]; decide), rfl⟩
      | Undefined =>
        exact Or.inr ⟨_, (b.emplace c).1, rfl, hi, hget, knownValue_of_ne (by rw [hty]; decide), rfl⟩
  · left
    unfold TypeBuilder.step
    simp [hi]

/-- With the index in range, its entry empty and the value type known, an iteration
succeeds. -/
theorem step_ok (cfg : Config) (registry : TypeID → Option TypeHandler) (n : Nat)
    (b : TypeBuilder) (c : ResourceFieldCreation) (hi : c.index < n)
    (hfree : b.byIndex[c.index]? = some none) (hknown : KnownValue registry c) :
    ∃ b' k, TypeBuilder.step cfg registry n b c = .ok b' ∧
      b'.byIndex = b.byIndex.set c.index (some k) := by
  rw [step_free cfg registry n b c hi hfree]
  cases hty : c.type with
  | Value =>
    simp only
    obtain ⟨h, hreg⟩ := Option.ne_none_iff_exists'.mp (hknown hty)
    rw [hreg]
    exact ⟨_, (b.emplace c).1, rfl, rfl⟩
  | SubObject => exact ⟨_, (b.emplace c).1, rfl, rfl⟩
  | SubObjectSet => exact ⟨_, (b.emplace c).1, rfl, rfl⟩
  | Stream => exact ⟨_, (b.emplace c).1, rfl, rfl⟩
  | Undefined => exact ⟨_, (b.emplace c).1, rfl, rfl⟩

theorem getElem?_set_occupied {l : List (Option Nat)} {i j k : Nat} (hi : i < l.length)
    (h : (∃ x, l[j]? = some (some x)) ∨ j = i) : ∃ x, (l.set i (some k))[j]? = some (some x) := by
  by_cases hji : j = i
  · subst hji
    exact ⟨k, by simp [List.getElem?_set, hi]⟩
  · rcases h with ⟨x, hx⟩ | h
    · exact ⟨x, by rw [List.getElem?_set_ne (Ne.symm hji)]; exact hx⟩
    · exact absurd h hji

/-- The loop over the schema fails an assertion as soon as some index is out of range,
already taken, or repeated. -/
theorem loop_fails (cfg : Config) (registry : TypeID → Option TypeHandler) (n : Nat) :
    ∀ (rest : List ResourceFieldCreation) (b : TypeBuilder), b.byIndex.length = n →
      ((∃ c ∈ rest, ¬ c.index < n ∨ ∃ x, b.byIndex[c.index]? = some (some x)) ∨
        ¬ (rest.map (fun c => c.index)).Nodup) →
      rest.foldlM (TypeBuilder.step cfg registry n) b = .error .assertion
  | [], _, _, h => by
    rcases h with ⟨c, hc, _⟩ | h
    · cases hc
    · exact absurd List.nodup_nil h
  | c :: tl, b, hlen, h => by
    rw [List.foldlM_cons]
    rcases step_cases cfg registry n b c hlen with he | ⟨b', k, hs, hi, hfree, _, hset⟩
    · rw [he]; rfl
    · rw [hs, bind_ok]
      have hlen' : b'.byIndex.length = n := by rw [hset, List.length_set]; exact hlen
      have hil : c.index < b.byIndex.length := by rw [hlen]; exact hi
      apply loop_fails cfg registry n tl b' hlen'
      rcases h with ⟨c', hc', hbad⟩ | h
      · rcases List.mem_cons.mp hc' with heq | hmem
        · subst heq
          rcases hbad with hb | ⟨x, hx⟩
          · exact absurd hi hb
          · rw [hfree] at hx
            cases hx
        · left
          refine ⟨c', hmem, ?_⟩
          rcases hbad with hb | hx
          · exact Or.inl hb
          · right
            rw [hset]
            exact getElem?_set_occupied hil (Or.inl hx)
      · rw [List.map_cons, List.nodup_cons, not_and_or, not_not] at h
        rcases h with h | h
        · obtain ⟨c', hc', hidx⟩ := List.mem_map.mp h
          left
          refine ⟨c', hc', Or.inr ?_⟩
          rw [hset]
          exact getElem?_set_occupied hil (Or.inr hidx)
        · exact Or.inr h

/-- The loop over the schema succeeds when the indices are in range, free and pairwise
different and the value types are known. -/
theorem loop_succeeds (cfg : Config) (registry : TypeID → Option TypeHandler) (n : Nat) :
    ∀ (rest : List ResourceFieldCreation) (b : TypeBuilder), b.byIndex.length = n →
      (∀ c ∈ rest, c.index < n ∧ b.byIndex[c.index]? = some none ∧ KnownValue registry c) →
      (rest.map (fun c => c.index)).Nodup →
      ∃ b', rest.foldlM (TypeBuilder.step cfg registry n) b = .ok b'
  | [], b, _, _, _ => ⟨b, rfl⟩
  | c :: tl, b, hlen, h, hnd => by
    obtain ⟨hi, hfree, hkn⟩ := h c (List.mem_cons_self _ _)
    obtain ⟨b', k, hs, hset⟩ := step_ok cfg registry n b c hi hfree hkn
    rw [List.foldlM_cons, hs, bind_ok]
    rw [List.map_cons, List.nodup_cons] at hnd
    apply loop_succeeds cfg registry n tl b' (by rw [hset, List.length_set]; exact hlen) _ hnd.2
    intro c' hc'
    obtain ⟨hi', hfree', hkn'⟩ := h c' (List.mem_cons_of_mem _ hc')
    refine ⟨hi', ?_, hkn'⟩
    have hne : c.index ≠ c'.index := by
      intro heq
      exact hnd.1 (List.mem_map.mpr ⟨c', hc', heq.symm⟩)
    rw [hset, List.getElem?_set_ne hne]
    exact hfree'

/-- C14 (duplicate index rejection). For a schema in which two fields carry the same index
or some index is not below the number of fields, `CreateResourceType` fails with an
assertion, so that no state with the type registered results. For a schema whose indices
are a permutation of `0..n-1` and whose value types are known to the registry it succeeds,
and a type whose id and name were not registered before is then registered under both. -/
theorem duplicate_index_rejection (cfg : Config) (s : Repo) (c : ResourceTypeCreation) :
    ((¬ (c.fields.map (fun f => f.index)).Nodup ∨
        ∃ f ∈ c.fields, ¬ f.index < c.fields.length) →
      Repository.CreateResourceType cfg s c = .error .assertion) ∧
    ((c.fields.map (fun f => f.index)).Perm (List.range c.fields.length) →
      (∀ f ∈ c.fields, KnownValue s.registry f) →
      ∃ s' T, Repository.CreateResourceType cfg s c = .ok s' ∧
        (s.resourceTypes c.typeId = none → s'.resourceTypes c.typeId = some T) ∧
        (s.resourceTypesByName c.name = none → s'.resourceTypesByName c.name = some T)) := by
  constructor
  · intro h
    have hl := loop_fails cfg s.registry c.fields.length c.fields
      { byIndex := List.replicate c.fields.length none } (by simp)
      (by
        rcases h with h | ⟨f, hf, hbad⟩
        · exact Or.inr h
        · exact Or.inl ⟨f, hf, Or.inl hbad⟩)
    simp only [Repository.CreateResourceType, hl]
    rfl
  · intro hperm hkn
    have hnd : (c.fields.map (fun f => f.index)).Nodup :=
      (List.Perm.nodup_iff hperm).mpr (List.nodup_range _)
    have hlt : ∀ f ∈ c.fields, f.index < c.fields.length := by
      intro f hf
      have : f.index ∈ c.fields.map (fun f => f.index) := List.mem_map.mpr ⟨f, hf, rfl⟩
      exact List.mem_range.mp ((List.Perm.mem_iff hperm).mp this)
    obtain ⟨b', hb'⟩ := loop_succeeds cfg s.registry c.fields.length c.fields
      { byIndex := List.replicate c.fields.length none } (by simp)
      (fun f hf => ⟨hlt f hf, by simp [List.getElem?_replicate, hlt f hf], hkn f hf⟩) hnd
    refine ⟨{ s with
        resourceTypesByName := mapInsert s.resourceTypesByName c.name (b'.finish c)
        resourceTypes := mapInsert s.resourceTypes c.typeId (b'.finish c) },
      b'.finish c, by simp only [Repository.CreateResourceType, hb', bind_ok], ?_, ?_⟩
    · intro hnew
      simp [mapInsert, hnew]
    · intro hnew
      simp [mapInsert, hnew]

/-! ## Packed layout -/

theorem sameButOwner_refl (st : ResourceStorage) : SameButOwner st st := rfl

theorem sameButOwner_trans {a b c : ResourceStorage} (h1 : SameButOwner a b)
    (h2 : SameButOwner b c) : SameButOwner a c := by
  unfold SameButOwner at *
  rw [h2, h1]

theorem SameButOwner.resourceType {a b : ResourceStorage} (h : SameButOwner a b) :
    b.resourceType = a.resourceType := by
  unfold SameButOwner at h
  rw [h]

theorem SameButOwner.data {a b : ResourceStorage} (h : SameButOwner a b) : b.data = a.data := by
  unfold SameButOwner at h
  rw [h]

theorem ownersOnly_refl (s : Repo) : OwnersOnly s s := fun _ sq h => ⟨sq, h, rfl⟩

theorem ownersOnly_trans {s s1 s2 : Repo} (h1 : OwnersOnly s s1) (h2 : OwnersOnly s1 s2) :
    OwnersOnly s s2 := by
  intro q sq hq
  obtain ⟨sq1, hq1, hs1⟩ := h1 q sq hq
  obtain ⟨sq2, hq2, hs2⟩ := h2 q sq1 hq1
  exact ⟨sq2, hq2, sameButOwner_trans hs1 hs2⟩

theorem OwnersOnly.setData {s : Repo} (p : DataPtr) (d : ResourceData) :
    OwnersOnly s (s.setData p d) := fun _ sq h => ⟨sq, h, rfl⟩

/-- The assignment of `storage->parent` and `storage->parentIndex` of a readable slot. -/
theorem setOwner_eq {s : Repo} {c : RID} {sc : ResourceStorage} (parent : Option StoragePtr)
    (parentIndex : Nat) (hc : s.getStorage c = .ok sc) :
    setOwner s c parent parentIndex =
      .ok (s.setStorage c { sc with parent := parent, parentIndex := parentIndex }) := by
  simp [setOwner, hc]

theorem ownersOnly_setOwner {s : Repo} {c : RID} {sc : ResourceStorage}
    (parent : Option StoragePtr) (parentIndex : Nat) (hc : s.getStorage c = .ok sc) :
    OwnersOnly s (s.setStorage c { sc with parent := parent, parentIndex := parentIndex }) := by
  intro q sq hq
  rw [getStorage_setStorage s c q sc _ hc]
  by_cases h : q = c
  · subst h
    rw [hc] at hq
    cases hq
    exact ⟨{ sc with parent := parent, parentIndex := parentIndex }, by simp,
      show SameButOwner sc _ from rfl⟩
  · exact ⟨sq, by simp [h, hq], sameButOwner_refl sq⟩

theorem ownerSlot_setOwner {s : Repo} {c : RID} {sc : ResourceStorage}
    (parent : Option StoragePtr) (parentIndex : Nat) (hc : s.getStorage c = .ok sc)
    (p : DataPtr) (d : ResourceData) :
    ownerSlot ((s.setStorage c { sc with parent := parent, parentIndex := parentIndex }).setData
      p d) c = .ok (parent, parentIndex) := by
  simp [ownerSlot, getStorage_setStorage s c c sc _ hc]

theorem fieldOf_ownersOnly {s s' : Repo} {d : ResourceData} {i : Nat} {fd : ResourceField}
    (h : OwnersOnly s s') (hf : fieldOf s d i = .ok fd) : fieldOf s' d i = .ok fd := by
  unfold fieldOf at hf ⊢
  cases hst : s.getStorage d.storage with
  | error e => rw [hst] at hf; cases hf
  | ok st =>
    obtain ⟨st', hst', hsame⟩ := h _ _ hst
    rw [hst] at hf
    rw [hst']
    simp only [bind_ok] at hf ⊢
    rw [hsame.resourceType]
    exact hf

theorem SetSubObject_eq (s : Repo) (p : DataPtr) (d : ResourceData) {fd : ResourceField}
    {i : Nat} {c : RID} {sc : ResourceStorage}
    (hd : s.datas p = some d) (hf : fieldOf s d i = .ok fd)
    (hkind : fd.fieldType = ResourceFieldType.SubObject)
    (hi : i < d.fields.length) (hmem : d.memory = true) (hc : s.getStorage c = .ok sc) :
    ResourceObject.SetSubObject s ⟨some p⟩ i c =
      .ok ((s.setStorage c { sc with parent := some d.storage, parentIndex := i }).setData p
        { d with fields := d.fields.set i (some (FieldValue.rid c)) }) := by
  obtain ⟨cell, hcell⟩ : ∃ cell, d.fields[i]? = some cell :=
    ⟨d.fields[i], List.getElem?_eq_getElem hi⟩
  simp [ResourceObject.SetSubObject, deref, getData_ok hd, hf, hkind, setOwner_eq _ _ hc,
    storeField, index_eq_ok hcell, hmem]

theorem GetSubObject_of_field {s : Repo} {p : DataPtr} {d : ResourceData} {i : Nat} {c : RID}
    (hd : s.datas p = some d) (hcell : d.fields[i]? = some (some (FieldValue.rid c))) :
    ResourceObject.GetSubObject 1 s ⟨some p⟩ i = .ok c := by
  simp [ResourceObject.GetSubObject, ResourceObject.GetValue, deref, getData_ok hd,
    index_eq_ok hcell, asRID]

/-- C18 (SetSubObject). On a write handle `h` on owner `o` whose field `i` is a SubObject
field, after `h.SetSubObject(i, c)` the call `h.GetSubObject(i)` returns `c` and the owner
slot of `c` is `(o, i)`; after a further `h.SetSubObject(i, c2)` the call `h.GetSubObject(i)`
returns `c2`. -/
theorem set_sub_object (s : Repo) (p : DataPtr) (d : ResourceData) (fd : ResourceField)
    (i : Nat) (c c2 : RID) (sc sc2 : ResourceStorage)
    (hd : s.datas p = some d) (hf : fieldOf s d i = .ok fd)
    (hkind : fd.fieldType = ResourceFieldType.SubObject)
    (hi : i < d.fields.length) (hmem : d.memory = true)
    (hc : s.getStorage c = .ok sc) (hc2 : s.getStorage c2 = .ok sc2) :
    ∃ s1 s2, ResourceObject.SetSubObject s ⟨some p⟩ i c = .ok s1 ∧
      ResourceObject.GetSubObject 1 s1 ⟨some p⟩ i = .ok c ∧
      ownerSlot s1 c = .ok (some d.storage, i) ∧
      ResourceObject.SetSubObject s1 ⟨some p⟩ i c2 = .ok s2 ∧
      ResourceObject.GetSubObject 1 s2 ⟨some p⟩ i = .ok c2 ∧
      ownerSlot s2 c2 = .ok (some d.storage, i) := by
  have h1 := SetSubObject_eq s p d hd hf hkind hi hmem hc
  have hoo := ownersOnly_trans (ownersOnly_setOwner (some d.storage) i hc)
    (OwnersOnly.setData p { d with fields := d.fields.set i (some (FieldValue.rid c)) })
  obtain ⟨sc2', hc2', _⟩ := hoo c2 sc2 hc2
  have h2 := SetSubObject_eq _ p { d with fields := d.fields.set i (some (FieldValue.rid c)) }
    (show ((s.setStorage c { sc with parent := some d.storage, parentIndex := i }).setData p
      { d with fields := d.fields.set i (some (FieldValue.rid c)) }).datas p = _ by simp)
    (fieldOf_ownersOnly hoo hf) hkind (by simpa using hi) hmem hc2'
  refine ⟨_, _, h1, ?_, ownerSlot_setOwner _ _ hc _ _, h2, ?_, ?_⟩
  · simp [ResourceObject.GetSubObject, ResourceObject.GetValue, deref, Repo.getData, index,
      List.getElem?_set, hi, asRID]
  · simp [ResourceObject.GetSubObject, ResourceObject.GetValue, deref, Repo.getData, index,
      List.getElem?_set, hi, asRID]
  · exact ownerSlot_setOwner _ _ hc2' _ _

theorem AddToSubObjectSet_eq (s : Repo) (p : DataPtr) (d : ResourceData) {fd : ResourceField}
    {i : Nat} {sd : SubObjectSetData} {c : RID} {sc : ResourceStorage}
    (hd : s.datas p = some d) (hf : fieldOf s d i = .ok fd)
    (hkind : fd.fieldType = ResourceFieldType.SubObjectSet) (hsd : ensureSet d i = .ok sd)
    (hc : s.getStorage c = .ok sc) :
    ResourceObject.AddToSubObjectSet s ⟨some p⟩ i [c] =
      .ok ((s.setStorage c { sc with parent := some d.storage, parentIndex := i }).setData p
        { d with fields := d.fields.set i (some (FieldValue.set
          { sd with subObjects := sd.subObjects.Insert c })) }) := by
  have hc' : ∀ x : ResourceData, (s.setData p x).getStorage c = .ok sc := fun _ => hc
  simp only [ResourceObject.AddToSubObjectSet, deref, bind_ok, getData_ok hd, hf, hkind,
    ne_eq, not_true_eq_false, if_false, hsd, storeField_of_ensureSet _ hsd, List.foldlM_cons,
    List.foldlM_nil, setOwner_eq _ _ (hc' _), pure, Except.pure]
  simp [Repo.getData, Repo.setData, Repo.setStorage, upd_upd, List.set_set]

theorem RemoveFromSubObjectSet_eq (s : Repo) (p : DataPtr) (d : ResourceData)
    {fd : ResourceField} {i : Nat} {sd : SubObjectSetData} {c : RID} {sc : ResourceStorage}
    (hd : s.datas p = some d) (hf : fieldOf s d i = .ok fd)
    (hkind : fd.fieldType = ResourceFieldType.SubObjectSet)
    (hcell : d.fields[i]? = some (some (FieldValue.set sd)))
    (hc : s.getStorage c = .ok sc) :
    ResourceObject.RemoveFromSubObjectSet s ⟨some p⟩ i [c] =
      .ok ((s.setStorage c { sc with parent := none, parentIndex := U32_MAX }).setData p
        { d with fields := d.fields.set i (some (FieldValue.set
          { sd with subObjects := sd.subObjects.Erase c })) }) := by
  simp only [ResourceObject.RemoveFromSubObjectSet, deref, bind_ok, getData_ok hd, hf, hkind,
    ne_eq, not_true_eq_false, if_false, index_eq_ok hcell, asSet, List.foldlM_cons,
    List.foldlM_nil, setOwner_eq _ _ hc, pure, Except.pure]
  simp [Repo.getData, Repo.setStorage, hd]

theorem insert_of_mem {l : HashSet} {c : RID} (h : c ∈ l) : l.Insert c = l := by
  simp [HashSet.Insert, h]

theorem mem_insert (l : HashSet) (c : RID) : c ∈ l.Insert c := by
  unfold HashSet.Insert
  split
  · assumption
  · simp

theorem not_mem_erase (l : HashSet) (c : RID) : c ∉ l.Erase c := by
  simp [HashSet.Erase]

theorem localMembers_of_field {s : Repo} {p : DataPtr} {d : ResourceData} {i : Nat}
    {sd : SubObjectSetData} (hd : s.datas p = some d)
    (hcell : d.fields[i]? = some (some (FieldValue.set sd))) :
    localMembers s ⟨some p⟩ i = .ok sd.subObjects := by
  simp [localMembers, deref, getData_ok hd, setAt, index_eq_ok hcell, asSet, localOf]

theorem lt_of_ensureSet {d : ResourceData} {i : Nat} {sd : SubObjectSetData}
    (h : ensureSet d i = .ok sd) : i < d.fields.length := by
  by_contra hcon
  have : d.fields[i]? = none := List.getElem?_eq_none (by omega)
  simp [ensureSet, index, this] at h

theorem ensureSet_of_field {d : ResourceData} {i : Nat} {sd : SubObjectSetData}
    (hcell : d.fields[i]? = some (some (FieldValue.set sd))) : ensureSet d i = .ok sd := by
  simp [ensureSet, index_eq_ok hcell, asSet]

/-- C19 (set membership and back-pointer). On a write handle `h` on owner `o` whose field
`i` is a SubObjectSet field, after `h.AddToSubObjectSet(i, c)` the identifier `c` is a local
member of field `i` and the owner slot of `c` is `(o, i)`; adding `c` again leaves the local
members (and so their count) as they are; after `h.RemoveFromSubObjectSet(i, c)` the
identifier `c` is no longer a local member, the other local members are unchanged, and `c`
has no owner (parent null, parent index `U32_MAX`). -/
theorem set_membership (s : Repo) (p : DataPtr) (d : ResourceData) (fd : ResourceField)
    (i : Nat) (sd : SubObjectSetData) (c : RID) (sc : ResourceStorage)
    (hd : s.datas p = some d) (hf : fieldOf s d i = .ok fd)
    (hkind : fd.fieldType = ResourceFieldType.SubObjectSet) (hsd : ensureSet d i = .ok sd)
    (hc : s.getStorage c = .ok sc) :
    ∃ s1 s2 s3 m1, ResourceObject.AddToSubObjectSet s ⟨some p⟩ i [c] = .ok s1 ∧
      localMembers s1 ⟨some p⟩ i = .ok m1 ∧ c ∈ m1 ∧
      ownerSlot s1 c = .ok (some d.storage, i) ∧
      ResourceObject.AddToSubObjectSet s1 ⟨some p⟩ i [c] = .ok s2 ∧
      localMembers s2 ⟨some p⟩ i = .ok m1 ∧
      ResourceObject.RemoveFromSubObjectSet s2 ⟨some p⟩ i [c] = .ok s3 ∧
      localMembers s3 ⟨some p⟩ i = .ok (m1.filter (fun x => decide (x ≠ c))) ∧
      c ∉ m1.filter (fun x => decide (x ≠ c)) ∧
      ownerSlot s3 c = .ok (none, U32_MAX) := by
  have hi := lt_of_ensureSet hsd
  -- the first addition
  have h1 := AddToSubObjectSet_eq s p d hd hf hkind hsd hc
  obtain ⟨sd1, hsd1⟩ : ∃ sd1 : SubObjectSetData,
      sd1 = { sd with subObjects := sd.subObjects.Insert c } := ⟨_, rfl⟩
  obtain ⟨d1, hd1⟩ : ∃ d1 : ResourceData,
      d1 = { d with fields := d.fields.set i (some (FieldValue.set sd1)) } := ⟨_, rfl⟩
  obtain ⟨sc1, hsc1⟩ : ∃ sc1 : ResourceStorage,
      sc1 = { sc with parent := some d.storage, parentIndex := i } := ⟨_, rfl⟩
  rw [← hsd1, ← hd1, ← hsc1] at h1
  have hoo1 : OwnersOnly s ((s.setStorage c sc1).setData p d1) := by
    rw [hsc1]
    exact ownersOnly_trans (ownersOnly_setOwner (some d.storage) i hc) (OwnersOnly.setData p d1)
  have hcell1 : d1.fields[i]? = some (some (FieldValue.set sd1)) := by
    rw [hd1]
    simp [List.getElem?_set, hi]
  have hmem1 : c ∈ sd1.subObjects := by
    rw [hsd1]
    exact mem_insert _ _
  have hd1s : d1.storage = d.storage := by rw [hd1]
  have hc1 : ((s.setStorage c sc1).setData p d1).getStorage c = .ok sc1 := by
    rw [getStorage_setData, getStorage_setStorage s c c sc sc1 hc]
    simp
  -- the second addition
  have h2 := AddToSubObjectSet_eq ((s.setStorage c sc1).setData p d1) p d1
    (by simp) (fieldOf_ownersOnly hoo1 (by rw [hd1]; exact hf)) hkind
    (ensureSet_of_field hcell1) hc1
  rw [insert_of_mem hmem1] at h2
  obtain ⟨d2, hd2⟩ : ∃ d2 : ResourceData,
      d2 = { d1 with fields := d1.fields.set i (some (FieldValue.set sd1)) } := ⟨_, rfl⟩
  obtain ⟨sc2, hsc2⟩ : ∃ sc2 : ResourceStorage,
      sc2 = { sc1 with parent := some d1.storage, parentIndex := i } := ⟨_, rfl⟩
  rw [← hd2, ← hsc2] at h2
  obtain ⟨t2, ht2⟩ : ∃ t2 : Repo,
      t2 = (((s.setStorage c sc1).setData p d1).setStorage c sc2).setData p d2 := ⟨_, rfl⟩
  rw [← ht2] at h2
  have hi1 : i < d1.fields.length := by rw [hd1]; simpa using hi
  have hcell2 : d2.fields[i]? = some (some (FieldValue.set sd1)) := by
    rw [hd2]
    simp [List.getElem?_set, hi1]
  have hoo2 : OwnersOnly s t2 := by
    rw [ht2, hsc2]
    exact ownersOnly_trans hoo1 (ownersOnly_trans (ownersOnly_setOwner (some d1.storage) i hc1)
      (OwnersOnly.setData p d2))
  have ht2d : t2.datas p = some d2 := by rw [ht2]; simp
  have hc2 : t2.getStorage c = .ok sc2 := by
    rw [ht2, getStorage_setData, getStorage_setStorage _ c c sc1 sc2 hc1]
    simp
  -- the removal
  have h3 := RemoveFromSubObjectSet_eq t2 p d2 ht2d
    (fieldOf_ownersOnly hoo2 (by rw [hd2, hd1]; exact hf)) hkind hcell2 hc2
  have hi2 : i < d2.fields.length := by rw [hd2]; simpa using hi1
  refine ⟨_, t2, _, sd1.subObjects, h1, localMembers_of_field (by simp) hcell1, hmem1, ?_, h2,
    localMembers_of_field ht2d hcell2, h3, ?_, ?_, ?_⟩
  · rw [hsc1]
    exact ownerSlot_setOwner _ _ hc _ _
  · simp [localMembers, deref, Repo.getData, setAt, index, List.getElem?_set, hi2, asSet,
      localOf, HashSet.Erase]
  · simp
  · exact ownerSlot_setOwner _ _ hc2 _ _

/-! ## Installed snapshots -/

theorem bind_eq_ok {α β : Type} {x : Except Fault α} {f : α → Except Fault β} {b : β}
    (h : (x >>= f) = .ok b) : ∃ a, x = .ok a ∧ f a = .ok b := by
  cases x with
  | error e => cases h
  | ok a => exact ⟨a, rfl, h⟩

theorem deref_eq_ok {α : Type} {o : Option α} {a : α} (h : deref o = .ok a) : o = some a := by
  cases o with
  | none => cases h
  | some x => cases h; rfl

theorem setOwner_datas {s s' : Repo} {rid : RID} {P : Option StoragePtr} {I : Nat}
    (h : setOwner s rid P I = .ok s') : s'.datas = s.datas := by
  unfold setOwner at h
  obtain ⟨st, _, h⟩ := bind_eq_ok h
  cases h
  rfl

theorem foldl_setOwner_datas (P : Option StoragePtr) (I : Nat)
    (g : SubObjectSetData → RID → SubObjectSetData) :
    ∀ (l : List RID) (s0 s1 : Repo) (sd0 sd1 : SubObjectSetData),
      l.foldlM (fun (acc : Repo × SubObjectSetData) rid => do
        let s2 ← setOwner acc.1 rid P I
        .ok (s2, g acc.2 rid)) (s0, sd0) = .ok (s1, sd1) → s1.datas = s0.datas
  | [], s0, s1, sd0, sd1, h => by
    cases h
    rfl
  | x :: l, s0, s1, sd0, sd1, h => by
    rw [List.foldlM_cons] at h
    obtain ⟨acc, hacc, h⟩ := bind_eq_ok h
    obtain ⟨s2, hs2, hacc⟩ := bind_eq_ok hacc
    cases hacc
    rw [foldl_setOwner_datas P I g l _ _ _ _ h, setOwner_datas hs2]

theorem foldl_setOwner_datas' (P : Option StoragePtr) (I : Nat) :
    ∀ (l : List RID) (s0 s1 : Repo),
      l.foldlM (fun (acc : Repo) rid => setOwner acc rid P I) s0 = .ok s1 → s1.datas = s0.datas
  | [], s0, s1, h => by
    cases h
    rfl
  | x :: l, s0, s1, h => by
    rw [List.foldlM_cons] at h
    obtain ⟨s2, hs2, h⟩ := bind_eq_ok h
    rw [foldl_setOwner_datas' P I l _ _ h, setOwner_datas hs2]

/-- A mutation through a handle changes no snapshot but the handle's. -/
theorem HandleOp.run_datas {s s' : Repo} {h : ResourceObject} (op : HandleOp)
    (hrun : op.run s h = .ok s') :
    ∃ p, h.m_data = some p ∧ ∀ a, a ≠ p → s'.datas a = s.datas a := by
  cases op with
  | setValue i v =>
    simp only [HandleOp.run, ResourceObject.SetValue] at hrun
    obtain ⟨p, hp, hrun⟩ := bind_eq_ok hrun
    obtain ⟨d, _, hrun⟩ := bind_eq_ok hrun
    obtain ⟨fd, _, hrun⟩ := bind_eq_ok hrun
    split at hrun
    · cases hrun
    · obtain ⟨_, _, hrun⟩ := bind_eq_ok hrun
      obtain ⟨d1, _, hrun⟩ := bind_eq_ok hrun
      cases hrun
      exact ⟨p, deref_eq_ok hp, fun a ha => by simp [upd_other _ _ _ _ ha]⟩
  | setSubObject i c =>
    simp only [HandleOp.run, ResourceObject.SetSubObject] at hrun
    obtain ⟨p, hp, hrun⟩ := bind_eq_ok hrun
    obtain ⟨d, _, hrun⟩ := bind_eq_ok hrun
    obtain ⟨fd, _, hrun⟩ := bind_eq_ok hrun
    split at hrun
    · cases hrun
    · obtain ⟨s1, hs1, hrun⟩ := bind_eq_ok hrun
      obtain ⟨d1, _, hrun⟩ := bind_eq_ok hrun
      cases hrun
      exact ⟨p, deref_eq_ok hp, fun a ha => by
        simp [upd_other _ _ _ _ ha, setOwner_datas hs1]⟩
  | addToSubObjectSet i cs =>
    simp only [HandleOp.run, ResourceObject.AddToSubObjectSet] at hrun
    obtain ⟨p, hp, hrun⟩ := bind_eq_ok hrun
    obtain ⟨d, _, hrun⟩ := bind_eq_ok hrun
    obtain ⟨fd, _, hrun⟩ := bind_eq_ok hrun
    split at hrun
    · cases hrun
    · obtain ⟨sd, _, hrun⟩ := bind_eq_ok hrun
      obtain ⟨d0, _, hrun⟩ := bind_eq_ok hrun
      obtain ⟨⟨s1, sd1⟩, hfold, hrun⟩ := bind_eq_ok hrun
      obtain ⟨d1, _, hrun⟩ := bind_eq_ok hrun
      cases hrun
      have := foldl_setOwner_datas _ _
        (fun sd rid => { sd with subObjects := sd.subObjects.Insert rid }) cs _ _ _ _ hfold
      exact ⟨p, deref_eq_ok hp, fun a ha => by simp [upd_other _ _ _ _ ha, this]⟩
  | removeFromSubObjectSet i cs =>
    simp only [HandleOp.run, ResourceObject.RemoveFromSubObjectSet] at hrun
    obtain ⟨p, hp, hrun⟩ := bind_eq_ok hrun
    obtain ⟨d, _, hrun⟩ := bind_eq_ok hrun
    obtain ⟨fd, _, hrun⟩ := bind_eq_ok hrun
    split at hrun
    · cases hrun
    · obtain ⟨cell, _, hrun⟩ := bind_eq_ok hrun
      cases cell with
      | none =>
        cases hrun
        exact ⟨p, deref_eq_ok hp, fun a _ => rfl⟩
      | some v =>
        simp only at hrun
        obtain ⟨sd, _, hrun⟩ := bind_eq_ok hrun
        obtain ⟨⟨s1, sd1⟩, hfold, hrun⟩ := bind_eq_ok hrun
        obtain ⟨d1, _, hrun⟩ := bind_eq_ok hrun
        cases hrun
        have := foldl_setOwner_datas _ _
          (fun sd rid => { sd with subObjects := sd.subObjects.Erase rid }) cs _ _ _ _ hfold
        exact ⟨p, deref_eq_ok hp, fun a ha => by simp [upd_other _ _ _ _ ha, this]⟩
  | clearSubObjectSet i =>
    simp only [HandleOp.run, ResourceObject.ClearSubObjectSet] at hrun
    obtain ⟨p, hp, hrun⟩ := bind_eq_ok hrun
    obtain ⟨d, _, hrun⟩ := bind_eq_ok hrun
    obtain ⟨fd, _, hrun⟩ := bind_eq_ok hrun
    split at hrun
    · cases hrun
    · obtain ⟨cell, _, hrun⟩ := bind_eq_ok hrun
      cases cell with
      | none =>
        cases hrun
        exact ⟨p, deref_eq_ok hp, fun a _ => rfl⟩
      | some v =>
        simp only at hrun
        obtain ⟨sd, _, hrun⟩ := bind_eq_ok hrun
        obtain ⟨s1, hfold, hrun⟩ := bind_eq_ok hrun
        obtain ⟨d1, _, hrun⟩ := bind_eq_ok hrun
        have := foldl_setOwner_datas' _ _ _ _ _ hfold
        split at hrun <;> cases hrun <;>
          exact ⟨p, deref_eq_ok hp, fun a ha => by simp [upd_other _ _ _ _ ha, this]⟩
  | removeFromPrototypeSubObjectSet i cs =>
    simp only [HandleOp.run, ResourceObject.RemoveFromPrototypeSubObjectSet] at hrun
    obtain ⟨p, hp, hrun⟩ := bind_eq_ok hrun
    obtain ⟨d, _, hrun⟩ := bind_eq_ok hrun
    obtain ⟨fd, _, hrun⟩ := bind_eq_ok hrun
    split at hrun
    · cases hrun
    · obtain ⟨sd, _, hrun⟩ := bind_eq_ok hrun
      obtain ⟨d0, _, hrun⟩ := bind_eq_ok hrun
      cases hrun
      exact ⟨p, deref_eq_ok hp, fun a ha => by simp [upd_other _ _ _ _ ha]⟩
  | cancelRemoveFromPrototypeSubObjectSet i cs =>
    simp only [HandleOp.run, ResourceObject.CancelRemoveFromPrototypeSubObjectSet] at hrun
    obtain ⟨p, hp, hrun⟩ := bind_eq_ok hrun
    obtain ⟨d, _, hrun⟩ := bind_eq_ok hrun
    obtain ⟨fd, _, hrun⟩ := bind_eq_ok hrun
    split at hrun
    · cases hrun
    · obtain ⟨sd, _, hrun⟩ := bind_eq_ok hrun
      obtain ⟨d0, _, hrun⟩ := bind_eq_ok hrun
      cases hrun
      exact ⟨p, deref_eq_ok hp, fun a ha => by simp [upd_other _ _ _ _ ha]⟩

theorem installedKept_of_datas {s s' : Repo} (h : s'.datas = s.datas) : InstalledKept s s' :=
  fun _ _ a d _ _ hd => ⟨d, by rw [h]; exact hd, rfl⟩

theorem installedKept_of_alloc {s s' : Repo} (hfresh : s.HeapFresh)
    (h : ∀ a, a ≠ s.nextData → s'.datas a = s.datas a) : InstalledKept s s' := by
  intro _ _ a d _ _ hd
  have hne : a ≠ s.nextData := by
    intro heq
    rw [heq, hfresh _ (le_refl _)] at hd
    cases hd
  exact ⟨d, by rw [h a hne]; exact hd, rfl⟩

theorem UpdateVersion_datas : ∀ (fuel : Nat) (s s' : Repo) (q : StoragePtr),
    UpdateVersion fuel s q = .ok s' → s'.datas = s.datas
  | 0, _, _, _, h => by cases h
  | fuel + 1, s, s', q, h => by
    simp only [UpdateVersion] at h
    obtain ⟨st, _, h⟩ := bind_eq_ok h
    cases hp : st.parent with
    | none =>
      rw [hp] at h
      cases h
      rfl
    | some r =>
      rw [hp] at h
      rw [UpdateVersion_datas fuel _ s' r h]
      rfl

theorem GetIDByUUID_datas (cfg : Config) (s : Repo) (u : UUID) :
    (GetIDByUUID cfg s u).2.datas = s.datas ∧ (GetIDByUUID cfg s u).2.nextData = s.nextData := by
  unfold GetIDByUUID
  split <;> exact ⟨rfl, rfl⟩

theorem GetOrAllocate_datas {cfg : Config} {s s' : Repo} {rid : RID}
    (h : GetOrAllocate cfg s rid = .ok s') : s'.datas = s.datas ∧ s'.nextData = s.nextData := by
  unfold GetOrAllocate at h
  split at h
  · split at h <;> cases h <;> exact ⟨rfl, rfl⟩
  · cases h

theorem Commit_fields {fuel : Nat} {s : Repo} {h : ResourceObject} {r : ResourceObject × Repo}
    (hrun : h.Commit fuel s = .ok r) :
    ∀ a d, s.datas a = some d → ∃ d', r.2.datas a = some d' ∧ d'.fields = d.fields := by
  intro a d ha
  simp only [ResourceObject.Commit] at hrun
  obtain ⟨p, _, hrun⟩ := bind_eq_ok hrun
  obtain ⟨dp, hdp, hrun⟩ := bind_eq_ok hrun
  obtain ⟨st, _, hrun⟩ := bind_eq_ok hrun
  have hdp' : s.datas p = some dp := by
    unfold Repo.getData at hdp
    split at hdp
    · cases hdp; assumption
    · cases hdp
  have key : ∀ x : ResourceData, x.fields = dp.fields →
      ∃ d', upd s.datas p (some x) a = some d' ∧ d'.fields = d.fields := by
    intro x hx
    by_cases hap : a = p
    · subst hap
      rw [hdp'] at ha
      cases ha
      exact ⟨x, upd_same _ _ _, hx⟩
    · exact ⟨d, by rw [upd_other _ _ _ _ hap]; exact ha, rfl⟩
  cases hdw : dp.dataOnWrite with
  | none =>
    rw [hdw] at hrun
    simp only at hrun
    obtain ⟨s3, hs3, hrun⟩ := bind_eq_ok hrun
    cases hrun
    rw [UpdateVersion_datas _ _ _ _ hs3]
    exact key _ rfl
  | some old =>
    rw [hdw] at hrun
    simp only at hrun
    split at hrun
    · obtain ⟨s3, hs3, hrun⟩ := bind_eq_ok hrun
      cases hrun
      rw [datas_enqueue, UpdateVersion_datas _ _ _ _ hs3]
      exact key _ rfl
    · cases hrun
      simp only [datas_setData, upd_upd]
      exact key _ rfl

/-- C20 (installed snapshots, amended). A call of the public interface other than
reclamation and `ClearValues` leaves the field table of every installed snapshot as it is,
provided that a mutation through a handle is made on a snapshot that is not installed (a
handle from `Write` before its `Commit`, not a handle from `Read`). -/
theorem installed_snapshots_kept (cfg : Config) (fuel : Nat) (s s' : Repo) (op : PublicOp)
    (hfresh : s.HeapFresh) (hpriv : op.Private s) (hrun : op.run cfg fuel s = .ok s') :
    InstalledKept s s' := by
  cases op with
  | createResourceType c =>
    simp only [PublicOp.run, Repository.CreateResourceType] at hrun
    obtain ⟨b, _, hrun⟩ := bind_eq_ok hrun
    cases hrun
    exact installedKept_of_datas rfl
  | setUUID rid uuid =>
    simp only [PublicOp.run, Repository.SetUUID] at hrun
    obtain ⟨st, _, hrun⟩ := bind_eq_ok hrun
    cases hrun
    exact installedKept_of_datas rfl
  | setPath rid path =>
    cases hrun
    exact installedKept_of_datas rfl
  | removePath path =>
    cases hrun
    exact installedKept_of_datas rfl
  | inactiveResource rid =>
    simp only [PublicOp.run, Repository.InactiveResource] at hrun
    obtain ⟨st, _, hrun⟩ := bind_eq_ok hrun
    cases hrun
    exact installedKept_of_datas rfl
  | createResource typeId uuid =>
    simp only [PublicOp.run, Repository.CreateResource] at hrun
    obtain ⟨r, hr, hrun⟩ := bind_eq_ok hrun
    cases hrun
    obtain ⟨s2, hs2, hr⟩ := bind_eq_ok hr
    cases hr
    exact installedKept_of_datas
      ((GetOrAllocate_datas hs2).1.trans (GetIDByUUID_datas cfg s uuid).1)
  | createFromPrototype prototype uuid =>
    simp only [PublicOp.run, Repository.CreateFromPrototype] at hrun
    obtain ⟨r, hr, hrun⟩ := bind_eq_ok hrun
    cases hrun
    obtain ⟨s2, hs2, hr⟩ := bind_eq_ok hr
    obtain ⟨ps, _, hr⟩ := bind_eq_ok hr
    have hd2 : s2.datas = s.datas := (GetOrAllocate_datas hs2).1.trans (GetIDByUUID_datas cfg s uuid).1
    have hn2 : s2.nextData = s.nextData :=
      (GetOrAllocate_datas hs2).2.trans (GetIDByUUID_datas cfg s uuid).2
    cases hT : ps.resourceType with
    | none => rw [hT] at hr; cases hr
    | some T =>
      rw [hT] at hr
      cases hr
      apply installedKept_of_alloc hfresh
      intro a ha
      simp only [Repo.setStorage, Repo.allocData, hn2, upd_other _ _ _ _ ha, hd2]
  | getOrCreateByUUID uuid typeId =>
    simp only [PublicOp.run, Repository.GetOrCreateByUUID] at hrun
    obtain ⟨r, hr, hrun⟩ := bind_eq_ok hrun
    cases hrun
    split at hr
    · cases hr
      exact installedKept_of_datas rfl
    · split at hr
      · cases hr
        exact installedKept_of_datas rfl
      · cases hr
  | write rid =>
    simp only [PublicOp.run, Repository.Write] at hrun
    obtain ⟨r, hr, hrun⟩ := bind_eq_ok hrun
    cases hrun
    obtain ⟨st, _, hr⟩ := bind_eq_ok hr
    obtain ⟨T, _, hr⟩ := bind_eq_ok hr
    apply installedKept_of_alloc hfresh
    intro a ha
    split at hr
    · obtain ⟨cd, _, hr⟩ := bind_eq_ok hr
      obtain ⟨fs, _, hr⟩ := bind_eq_ok hr
      cases hr
      simp [upd_other _ _ _ _ ha]
    · cases hr
      simp [upd_other _ _ _ _ ha]
  | destroyResource rid =>
    simp only [PublicOp.run, Repository.DestroyResource] at hrun
    obtain ⟨st, _, hrun⟩ := bind_eq_ok hrun
    cases hrun
    exact installedKept_of_datas rfl
  | mutate h op =>
    obtain ⟨p, hp, hd⟩ := HandleOp.run_datas op hrun
    intro q st a d hq ha hda
    have hne : a ≠ p := by
      intro heq
      exact hpriv q st a hq ha (by rw [hp, heq])
    exact ⟨d, by rw [hd a hne]; exact hda, rfl⟩
  | commit h =>
    simp only [PublicOp.run] at hrun
    obtain ⟨r, hr, hrun⟩ := bind_eq_ok hrun
    cases hrun
    intro q st a d _ _ hda
    exact Commit_fields hr a d hda

/-! ## The second group of properties at concrete inputs -/

/-- C11 fails on the code: with nothing ever committed to the child `c`, the reclamation item
queued by `DestroyResource(c)` carries a null snapshot pointer and `GarbageCollect`
dereferences it, instead of detaching `c` from its owner. -/
theorem detach_unpopulated_child_faults :
    demo.detachScenario false 5 = .error Fault.nullDeref := by
  decide!

/-- With a snapshot committed to the child the same run detaches it: the owner keeps its other
member `(3, 0)` and stays alive, and the child is destroyed. -/
theorem detach_populated_child :
    demo.detachScenario true 5 = .ok ([⟨3, 0⟩], true, false) := by
  decide!

theorem demo.rewriting_heapFresh : demo.rewriting.HeapFresh := by
  intro a ha
  have h1 : demo.rewriting.nextData = 2 := rfl
  rw [h1] at ha
  have ha2 : (2 : Nat) ≤ a := ha
  have hne0 : a ≠ 0 := Nat.ne_of_gt (by omega)
  have hne1 : a ≠ 1 := Nat.ne_of_gt (by omega)
  repeat (first
    | rfl
    | (show (if a = 0 then _ else _) = none; rw [if_neg hne0])
    | (show (if a = 1 then _ else _) = none; rw [if_neg hne1]))

theorem demo.health_copyable (x : Value) :
    Copyable (healthType 77 ⟨10, 4⟩) [some (FieldValue.value x)] := by
  intro i v hv
  cases i with
  | zero => exact ⟨healthField ⟨10, 4⟩, rfl, by simp [healthField]⟩
  | succ i => simp at hv

/-- C12 at a concrete input: `Write` on the populated `(1, 0)` copies Health = 7 forward. -/
theorem copy_forward_witness :
    ∃ h s' p d, Repository.Write demo.populated ⟨1, 0⟩ = .ok (h, s') ∧ h.m_data = some p ∧
      s'.datas p = some d ∧ demo.populated.datas p = none ∧
      d.storage = ⟨1, 0⟩ ∧ d.readOnly = false ∧ d.dataOnWrite = some 0 ∧
      d.fields.length = (healthType 77 ⟨10, 4⟩).fieldsByIndex.length ∧
      (∀ S dS, some 0 = some S → demo.populated.datas S = some dS →
        d.fields = dS.fields ∧ s'.datas S = some dS) ∧
      (some 0 = none → ∀ i, i < (healthType 77 ⟨10, 4⟩).fieldsByIndex.length →
        d.fields[i]? = some none) :=
  copy_forward demo.populated ⟨1, 0⟩
    { rid := ⟨1, 0⟩, uuid := UUID.null, resourceType := some (healthType 77 ⟨10, 4⟩),
      data := some 0, version := 2 }
    (healthType 77 ⟨10, 4⟩) rfl rfl demo.healthType_complete
    (fun S hS => by
      cases hS
      exact ⟨{ storage := ⟨1, 0⟩, memory := true, fields := [some (FieldValue.value 7)],
               dataOnWrite := none, readOnly := true }, rfl, rfl, demo.health_copyable 7⟩)
    demo.populated_heapFresh

/-- C13 at a concrete input: two handles on the populated `(1, 0)` set Health to 8 and to 9;
the first commit wins and the second changes nothing. -/
theorem commit_conflict_witness :
    ∃ s5 s6 h2 r, conflictScenario 1 demo.populated ⟨1, 0⟩ 0 8 9 = .ok (s5, s6, h2) ∧
      Repository.Read s5 ⟨1, 0⟩ = .ok r ∧ Repository.Read s6 ⟨1, 0⟩ = .ok r ∧
      readValue 1 s6 ⟨1, 0⟩ 0 = .ok (some (FieldValue.value 8)) ∧
      (∀ q, s6.getStorage q = s5.getStorage q) ∧
      (∀ q, Repository.GetVersion s6 q = Repository.GetVersion s5 q) ∧
      s6.toCollectItems = s5.toCollectItems ∧
      h2.m_data ≠ none ∧ h2 ≠ r :=
  commit_conflict demo.populated ⟨1, 0⟩ 0 8 9 1
    { rid := ⟨1, 0⟩, uuid := UUID.null, resourceType := some (healthType 77 ⟨10, 4⟩),
      data := some 0, version := 2 }
    (healthType 77 ⟨10, 4⟩) (healthField ⟨10, 4⟩) 0
    { storage := ⟨1, 0⟩, memory := true, fields := [some (FieldValue.value 7)],
      dataOnWrite := none, readOnly := true }
    rfl rfl demo.healthType_complete rfl rfl (by simp [healthField]) rfl rfl rfl
    ⟨_, rfl, rfl⟩ demo.populated_heapFresh

/-- C14 at concrete inputs: a schema with index 0 twice is rejected, the schema `Node` with
indices 0, 1, 2 is accepted and registered. -/
theorem duplicate_index_rejection_witness :
    Repository.CreateResourceType demo.cfg demo.init demo.clashSchema = .error .assertion ∧
      ∃ s' T, Repository.CreateResourceType demo.cfg demo.init demo.nodeSchema = .ok s' ∧
        (demo.init.resourceTypes demo.nodeSchema.typeId = none →
          s'.resourceTypes demo.nodeSchema.typeId = some T) ∧
        (demo.init.resourceTypesByName demo.nodeSchema.name = none →
          s'.resourceTypesByName demo.nodeSchema.name = some T) :=
  ⟨(duplicate_index_rejection demo.cfg demo.init demo.clashSchema).1 (Or.inl (by decide)),
    (duplicate_index_rejection demo.cfg demo.init demo.nodeSchema).2
      (by decide)
      (by
        intro f hf
        simp only [demo.nodeSchema, List.mem_cons, List.mem_singleton, List.not_mem_nil,
          or_false] at hf
        rcases hf with h | h | h
        · subst h
          intro _
          exact Option.some_ne_none (⟨10, 4⟩ : TypeHandler)
        · subst h
          exact knownValue_of_ne (by decide)
        · subst h
          exact knownValue_of_ne (by decide))⟩

/-- C17 at a concrete input: the first three identifiers with pages of 4096 slots. -/
theorem identifier_allocation_witness :
    (allocate demo.cfg 3 (Repo.empty demo.registry)).1 =
        (List.range 3).map (ridOfIndex demo.cfg) ∧
      (∀ n, n < 3 → (allocate demo.cfg 3 (Repo.empty demo.registry)).1[n]? =
        some ⟨n % demo.cfg.pageSize, n / demo.cfg.pageSize⟩) ∧
      (allocate demo.cfg 3 (Repo.empty demo.registry)).1.Nodup ∧
      ∀ r ∈ (allocate demo.cfg 3 (Repo.empty demo.registry)).1,
        r.page < demo.cfg.pageSize ∧ r.offset < demo.cfg.pageSize :=
  identifier_allocation demo.cfg 12 3 (Repo.empty demo.registry) (by decide) (by decide) rfl
    (by decide)

theorem demo.created_byUUID (v : UUID) :
    demo.created.byUUID v = if v = UUID.null then some ⟨0, 0⟩ else none := rfl

theorem demo.created_uuidIndexOk : UuidIndexOk demo.cfg demo.created := by
  constructor
  · intro v r h
    rw [demo.created_byUUID] at h
    split at h
    · cases h
      exact ⟨0, by decide, rfl⟩
    · cases h
  · intro v w r hv _ h _
    rw [demo.created_byUUID] at h
    split at h
    · rename_i hnull
      rw [hnull] at hv
      cases hv
    · cases h

/-- C16 at a concrete input: with one resource `(1, 0)` of type `T` created, the calls
`GetOrCreateByUUID`, `CreateResource` and `CreateFromPrototype((1, 0))` with the new UUID
`(1, 0)` all return the identifier `(2, 0)`. -/
theorem one_rid_per_uuid_witness :
    ∃ r rids s', runCalls demo.cfg ⟨1, 0⟩
        [UuidCall.getOrCreate 77, UuidCall.create 77, UuidCall.fromPrototype ⟨1, 0⟩]
        demo.created = .ok (rids, s') ∧
      rids.length = [UuidCall.create 77, UuidCall.fromPrototype ⟨1, 0⟩].length + 1 ∧
      (∀ x ∈ rids, x = r) ∧
      Repository.GetByUUID s' ⟨1, 0⟩ = r ∧ r = uuidTarget demo.cfg demo.created ⟨1, 0⟩ ∧
      UuidIndexOk demo.cfg s' :=
  one_rid_per_uuid demo.cfg 12 demo.created ⟨1, 0⟩ (UuidCall.getOrCreate 77)
    [UuidCall.create 77, UuidCall.fromPrototype ⟨1, 0⟩] (by decide) (by decide) (by decide)
    demo.created_uuidIndexOk (by decide) (fun r h => by cases h) (fun _ => Or.inr rfl)
    (by
      intro c hc
      simp only [List.mem_cons, List.mem_singleton, List.not_mem_nil, or_false] at hc
      rcases hc with h | h | h
      · subst h; trivial
      · subst h; trivial
      · subst h
        exact ⟨by decide, _, _, rfl, rfl⟩)

/-- C18 at a concrete input: on the write handle of `demo.opened`, the SubObject field 2 is
set to `(2, 0)` and then to `(3, 0)`. -/
theorem set_sub_object_witness :
    ∃ s1 s2, ResourceObject.SetSubObject demo.opened ⟨some 0⟩ 2 ⟨2, 0⟩ = .ok s1 ∧
      ResourceObject.GetSubObject 1 s1 ⟨some 0⟩ 2 = .ok ⟨2, 0⟩ ∧
      ownerSlot s1 ⟨2, 0⟩ = .ok (some ⟨1, 0⟩, 2) ∧
      ResourceObject.SetSubObject s1 ⟨some 0⟩ 2 ⟨3, 0⟩ = .ok s2 ∧
      ResourceObject.GetSubObject 1 s2 ⟨some 0⟩ 2 = .ok ⟨3, 0⟩ ∧
      ownerSlot s2 ⟨3, 0⟩ = .ok (some ⟨1, 0⟩, 2) :=
  set_sub_object demo.opened 0
    { storage := ⟨1, 0⟩, memory := true, fields := [none, none, none], dataOnWrite := none,
      readOnly := false }
    { name := "Link", index := 2, fieldType := ResourceFieldType.SubObject,
      typeHandler := some ⟨1, 8⟩, offset := 68 }
    2 ⟨2, 0⟩ ⟨3, 0⟩ _ _ rfl rfl rfl (by decide) rfl rfl rfl

/-- C19 at a concrete input: on the write handle of `demo.opened`, `(2, 0)` is added to the
set field 1, added again and removed. -/
theorem set_membership_witness :
    ∃ s1 s2 s3 m1, ResourceObject.AddToSubObjectSet demo.opened ⟨some 0⟩ 1 [⟨2, 0⟩] = .ok s1 ∧
      localMembers s1 ⟨some 0⟩ 1 = .ok m1 ∧ (⟨2, 0⟩ : RID) ∈ m1 ∧
      ownerSlot s1 ⟨2, 0⟩ = .ok (some ⟨1, 0⟩, 1) ∧
      ResourceObject.AddToSubObjectSet s1 ⟨some 0⟩ 1 [⟨2, 0⟩] = .ok s2 ∧
      localMembers s2 ⟨some 0⟩ 1 = .ok m1 ∧
      ResourceObject.RemoveFromSubObjectSet s2 ⟨some 0⟩ 1 [⟨2, 0⟩] = .ok s3 ∧
      localMembers s3 ⟨some 0⟩ 1 = .ok (m1.filter (fun x => decide (x ≠ (⟨2, 0⟩ : RID)))) ∧
      (⟨2, 0⟩ : RID) ∉ m1.filter (fun x => decide (x ≠ (⟨2, 0⟩ : RID))) ∧
      ownerSlot s3 ⟨2, 0⟩ = .ok (none, U32_MAX) :=
  set_membership demo.opened 0
    { storage := ⟨1, 0⟩, memory := true, fields := [none, none, none], dataOnWrite := none,
      readOnly := false }
    { name := "Children", index := 1, fieldType := ResourceFieldType.SubObjectSet,
      typeHandler := some ⟨2, 64⟩, offset := 4 }
    1 {} ⟨2, 0⟩ _ rfl rfl rfl rfl rfl

theorem demo.rewriting_storages (q : StoragePtr) :
    demo.rewriting.storages q =
      if q = ⟨1, 0⟩ then some
        { rid := ⟨1, 0⟩, uuid := UUID.null, resourceType := some (healthType 77 ⟨10, 4⟩),
          data := some 0, version := 2 }
      else if q = ⟨0, 0⟩ then some
        { rid := ⟨0, 0⟩, uuid := UUID.null, resourceType := none, data := none }
      else none := by
  by_cases h1 : q = ⟨1, 0⟩
  · subst h1
    rfl
  · rw [if_neg h1]
    repeat (first
      | rfl
      | (show (if q = ⟨1, 0⟩ then _ else _) = _; rw [if_neg h1]))

theorem demo.rewriting_notInstalled : NotInstalled demo.rewriting (some 1) := by
  intro q st a hq ha heq
  cases heq
  have hs := storages_of_getStorage hq
  rw [demo.rewriting_storages] at hs
  split at hs
  · cases hs
    cases ha
  · split at hs
    · cases hs
      cases ha
    · cases hs

/-- C20 as stated fails: `SetValue` on the handle returned by `Read` changes Health in the
installed snapshot of `(1, 0)` from 7 to 9 (the same snapshot stays current and the version
stays 2), and `ClearValues` makes the field absent in it. -/
theorem installed_snapshot_mutated :
    demo.mutationScenario =
      .ok (true, some (FieldValue.value 7), some (FieldValue.value 9), none, 2, 2) := rfl

/-- C20 (amended) at a concrete input: `SetValue` on a write handle that has not been
committed leaves the installed snapshot of `(1, 0)` as it is. -/
theorem installed_snapshots_kept_witness : InstalledKept demo.rewriting demo.rewritten :=
  installed_snapshots_kept demo.cfg 1 demo.rewriting demo.rewritten
    (PublicOp.mutate ⟨some 1⟩ (HandleOp.setValue 0 9)) demo.rewriting_heapFresh
    demo.rewriting_notInstalled rfl

theorem GetOrCreateByUUID_unallocated (cfg : Config) (s : Repo) (u : UUID) (t : TypeID)
    (hnew : s.byUUID u = none) (hpage : s.pages (nextRID cfg s).page = false) :
    Repository.GetOrCreateByUUID cfg s u t = .error Fault.nullDeref := by
  have hp : s.pages (OFFSET cfg s.counter, PAGE cfg s.counter).2 = false := hpage
  simp [Repository.GetOrCreateByUUID, hnew, GetID, hp]

/-- C16 at a page boundary: with pages of two slots, after `RepositoryInit()` and one
`CreateResource(0)` the next identifier is `(offset 0, page 1)` and page 1 is not allocated.
`GetOrCreateByUUID(u)` with a new UUID `u` then writes the slot through the null page pointer,
where `CreateResource(0, u)` allocates the page and returns `(offset 0, page 1)`. -/
theorem getOrCreateByUUID_page_boundary :
    demo.boundaryScenario (UuidCall.getOrCreate 0) = .error Fault.nullDeref ∧
      demo.boundaryScenario (UuidCall.create 0) = .ok ⟨0, 1⟩ := by
  constructor <;> rfl

/-! ## Field kind assertions -/

/-- Every mutation through a handle fails its `FY_ASSERT` on a field of another kind. -/
theorem kind_mismatch_asserts (s : Repo) (h : ResourceObject) (op : HandleOp) (p : DataPtr)
    (d : ResourceData) (fd : ResourceField)
    (hp : h.m_data = some p) (hd : s.datas p = some d)
    (hf : fieldOf s d op.fieldIndex = .ok fd) (hkind : fd.fieldType ≠ op.kind) :
    op.run s h = .error Fault.assertion := by
  cases op <;>
    simp only [HandleOp.fieldIndex, HandleOp.kind] at hf hkind <;>
    simp [HandleOp.run, ResourceObject.SetValue, ResourceObject.SetSubObject,
      ResourceObject.AddToSubObjectSet, ResourceObject.RemoveFromSubObjectSet,
      ResourceObject.ClearSubObjectSet, ResourceObject.RemoveFromPrototypeSubObjectSet,
      ResourceObject.CancelRemoveFromPrototypeSubObjectSet, hp, deref, getData_ok hd, hf, hkind]

/-- The count on a locally absent field of a resource without prototype is 0, whatever the
kind of the field: `ResourceGetSubObjectSet` never reads the descriptor. -/
theorem count_without_kind_test (n : Nat) (s : Repo) (p : DataPtr) (d : ResourceData)
    (st : ResourceStorage) (i : Nat)
    (hd : s.datas p = some d) (hi : d.fields[i]? = some none)
    (hst : s.getStorage d.storage = .ok st) (hproto : st.prototype = none) :
    ResourceObject.GetSubObjectSetCount (n + 1) s ⟨some p⟩ i = .ok 0 := by
  simp [ResourceObject.GetSubObjectSetCount, ResourceObject.ResourceGetSubObjectSet, deref,
    getData_ok hd, setAt, index_eq_ok hi, hst, hproto]

/-- C21 fails on the code: on a handle of type `Node` whose fields are absent,
`GetSubObjectSetCount` on the Value field 0 and on the SubObject field 2 returns 0, and
`GetSubObjectSet` on the Value field returns with the span untouched; none of them asserts
the field kind. -/
theorem count_on_value_field_returns :
    demo.mismatchScenario = (.ok 0, .ok 0, .ok [RID.null]) := by
  rfl

/-- C22 as stated fails: on a write handle that has not been committed,
`AddToSubObjectSet(1, (2, 0))` changes the owner slot of `(2, 0)` from none to
`((1, 0), 1)`. -/
theorem uncommitted_add_sets_owner :
    demo.privateScenario = .ok ((none, U32_MAX), (some ⟨1, 0⟩, 1)) := by
  rfl

/-! ## Mutations before the commit -/

theorem setOwner_ownersOnly {s s' : Repo} {rid : RID} {P : Option StoragePtr} {I : Nat}
    (h : setOwner s rid P I = .ok s') : OwnersOnly s s' := by
  unfold setOwner at h
  obtain ⟨st, hst, h⟩ := bind_eq_ok h
  cases h
  exact ownersOnly_setOwner P I hst

theorem foldl_setOwner_ownersOnly (P : Option StoragePtr) (I : Nat)
    (g : SubObjectSetData → RID → SubObjectSetData) :
    ∀ (l : List RID) (s0 s1 : Repo) (sd0 sd1 : SubObjectSetData),
      l.foldlM (fun (acc : Repo × SubObjectSetData) rid => do
        let s2 ← setOwner acc.1 rid P I
        .ok (s2, g acc.2 rid)) (s0, sd0) = .ok (s1, sd1) → OwnersOnly s0 s1
  | [], s0, s1, sd0, sd1, h => by
    cases h
    exact ownersOnly_refl _
  | x :: l, s0, s1, sd0, sd1, h => by
    rw [List.foldlM_cons] at h
    obtain ⟨acc, hacc, h⟩ := bind_eq_ok h
    obtain ⟨s2, hs2, hacc⟩ := bind_eq_ok hacc
    cases hacc
    exact ownersOnly_trans (setOwner_ownersOnly hs2)
      (foldl_setOwner_ownersOnly P I g l _ _ _ _ h)

theorem foldl_setOwner_ownersOnly_plain (P : Option StoragePtr) (I : Nat) :
    ∀ (l : List RID) (s0 s1 : Repo),
      l.foldlM (fun (acc : Repo) rid => setOwner acc rid P I) s0 = .ok s1 → OwnersOnly s0 s1
  | [], s0, s1, h => by
    cases h
    exact ownersOnly_refl _
  | x :: l, s0, s1, h => by
    rw [List.foldlM_cons] at h
    obtain ⟨s2, hs2, h⟩ := bind_eq_ok h
    exact ownersOnly_trans (setOwner_ownersOnly hs2)
      (foldl_setOwner_ownersOnly_plain P I l _ _ h)

/-- A mutation through a handle changes storage slots in their owner slot only. -/
theorem HandleOp.run_ownersOnly {s s' : Repo} {h : ResourceObject} (op : HandleOp)
    (hrun : op.run s h = .ok s') : OwnersOnly s s' := by
  cases op with
  | setValue i v =>
    simp only [HandleOp.run, ResourceObject.SetValue] at hrun
    obtain ⟨p, hp, hrun⟩ := bind_eq_ok hrun
    obtain ⟨d, _, hrun⟩ := bind_eq_ok hrun
    obtain ⟨fd, _, hrun⟩ := bind_eq_ok hrun
    split at hrun
    · cases hrun
    · obtain ⟨_, _, hrun⟩ := bind_eq_ok hrun
      obtain ⟨d1, _, hrun⟩ := bind_eq_ok hrun
      cases hrun
      exact OwnersOnly.setData _ _
  | setSubObject i c =>
    simp only [HandleOp.run, ResourceObject.SetSubObject] at hrun
    obtain ⟨p, hp, hrun⟩ := bind_eq_ok hrun
    obtain ⟨d, _, hrun⟩ := bind_eq_ok hrun
    obtain ⟨fd, _, hrun⟩ := bind_eq_ok hrun
    split at hrun
    · cases hrun
    · obtain ⟨s1, hs1, hrun⟩ := bind_eq_ok hrun
      obtain ⟨d1, _, hrun⟩ := bind_eq_ok hrun
      cases hrun
      exact ownersOnly_trans (setOwner_ownersOnly hs1) (OwnersOnly.setData _ _)
  | addToSubObjectSet i cs =>
    simp only [HandleOp.run, ResourceObject.AddToSubObjectSet] at hrun
    obtain ⟨p, hp, hrun⟩ := bind_eq_ok hrun
    obtain ⟨d, _, hrun⟩ := bind_eq_ok hrun
    obtain ⟨fd, _, hrun⟩ := bind_eq_ok hrun
    split at hrun
    · cases hrun
    · obtain ⟨sd, _, hrun⟩ := bind_eq_ok hrun
      obtain ⟨d0, _, hrun⟩ := bind_eq_ok hrun
      obtain ⟨⟨s1, sd1⟩, hfold, hrun⟩ := bind_eq_ok hrun
      obtain ⟨d1, _, hrun⟩ := bind_eq_ok hrun
      cases hrun
      have := foldl_setOwner_ownersOnly _ _
        (fun sd rid => { sd with subObjects := sd.subObjects.Insert rid }) cs _ _ _ _ hfold
      exact ownersOnly_trans (ownersOnly_trans (OwnersOnly.setData _ _) this)
        (OwnersOnly.setData _ _)
  | removeFromSubObjectSet i cs =>
    simp only [HandleOp.run, ResourceObject.RemoveFromSubObjectSet] at hrun
    obtain ⟨p, hp, hrun⟩ := bind_eq_ok hrun
    obtain ⟨d, _, hrun⟩ := bind_eq_ok hrun
    obtain ⟨fd, _, hrun⟩ := bind_eq_ok hrun
    split at hrun
    · cases hrun
    · obtain ⟨cell, _, hrun⟩ := bind_eq_ok hrun
      cases cell with
      | none =>
        cases hrun
        exact ownersOnly_refl _
      | some v =>
        simp only at hrun
        obtain ⟨sd, _, hrun⟩ := bind_eq_ok hrun
        obtain ⟨⟨s1, sd1⟩, hfold, hrun⟩ := bind_eq_ok hrun
        obtain ⟨d1, _, hrun⟩ := bind_eq_ok hrun
        cases hrun
        have := foldl_setOwner_ownersOnly _ _
          (fun sd rid => { sd with subObjects := sd.subObjects.Erase rid }) cs _ _ _ _ hfold
        exact ownersOnly_trans this (OwnersOnly.setData _ _)
  | clearSubObjectSet i =>
    simp only [HandleOp.run, ResourceObject.ClearSubObjectSet] at hrun
    obtain ⟨p, hp, hrun⟩ := bind_eq_ok hrun
    obtain ⟨d, _, hrun⟩ := bind_eq_ok hrun
    obtain ⟨fd, _, hrun⟩ := bind_eq_ok hrun
    split at hrun
    · cases hrun
    · obtain ⟨cell, _, hrun⟩ := bind_eq_ok hrun
      cases cell with
      | none =>
        cases hrun
        exact ownersOnly_refl _
      | some v =>
        simp only at hrun
        obtain ⟨sd, _, hrun⟩ := bind_eq_ok hrun
        obtain ⟨s1, hfold, hrun⟩ := bind_eq_ok hrun
        obtain ⟨d1, _, hrun⟩ := bind_eq_ok hrun
        have := foldl_setOwner_ownersOnly_plain _ _ _ _ _ hfold
        split at hrun <;> cases hrun <;>
          exact ownersOnly_trans this (OwnersOnly.setData _ _)
  | removeFromPrototypeSubObjectSet i cs =>
    simp only [HandleOp.run, ResourceObject.RemoveFromPrototypeSubObjectSet] at hrun
    obtain ⟨p, hp, hrun⟩ := bind_eq_ok hrun
    obtain ⟨d, _, hrun⟩ := bind_eq_ok hrun
    obtain ⟨fd, _, hrun⟩ := bind_eq_ok hrun
    split at hrun
    · cases hrun
    · obtain ⟨sd, _, hrun⟩ := bind_eq_ok hrun
      obtain ⟨d0, _, hrun⟩ := bind_eq_ok hrun
      cases hrun
      exact OwnersOnly.setData _ _
  | cancelRemoveFromPrototypeSubObjectSet i cs =>
    simp only [HandleOp.run, ResourceObject.CancelRemoveFromPrototypeSubObjectSet] at hrun
    obtain ⟨p, hp, hrun⟩ := bind_eq_ok hrun
    obtain ⟨d, _, hrun⟩ := bind_eq_ok hrun
    obtain ⟨fd, _, hrun⟩ := bind_eq_ok hrun
    split at hrun
    · cases hrun
    · obtain ⟨sd, _, hrun⟩ := bind_eq_ok hrun
      obtain ⟨d0, _, hrun⟩ := bind_eq_ok hrun
      cases hrun
      exact OwnersOnly.setData _ _

/-- A mutation that assigns no owner slot leaves every storage slot as it is. -/
theorem HandleOp.run_storages {s s' : Repo} {h : ResourceObject} (op : HandleOp)
    (hfree : op.ownerFree = true) (hrun : op.run s h = .ok s') :
    ∀ q, s'.getStorage q = s.getStorage q := by
  cases op with
  | setValue i v =>
    simp only [HandleOp.run, ResourceObject.SetValue] at hrun
    obtain ⟨p, hp, hrun⟩ := bind_eq_ok hrun
    obtain ⟨d, _, hrun⟩ := bind_eq_ok hrun
    obtain ⟨fd, _, hrun⟩ := bind_eq_ok hrun
    split at hrun
    · cases hrun
    · obtain ⟨_, _, hrun⟩ := bind_eq_ok hrun
      obtain ⟨d1, _, hrun⟩ := bind_eq_ok hrun
      cases hrun
      intro q
      rfl
  | removeFromPrototypeSubObjectSet i cs =>
    simp only [HandleOp.run, ResourceObject.RemoveFromPrototypeSubObjectSet] at hrun
    obtain ⟨p, hp, hrun⟩ := bind_eq_ok hrun
    obtain ⟨d, _, hrun⟩ := bind_eq_ok hrun
    obtain ⟨fd, _, hrun⟩ := bind_eq_ok hrun
    split at hrun
    · cases hrun
    · obtain ⟨sd, _, hrun⟩ := bind_eq_ok hrun
      obtain ⟨d0, _, hrun⟩ := bind_eq_ok hrun
      cases hrun
      intro q
      rfl
  | cancelRemoveFromPrototypeSubObjectSet i cs =>
    simp only [HandleOp.run, ResourceObject.CancelRemoveFromPrototypeSubObjectSet] at hrun
    obtain ⟨p, hp, hrun⟩ := bind_eq_ok hrun
    obtain ⟨d, _, hrun⟩ := bind_eq_ok hrun
    obtain ⟨fd, _, hrun⟩ := bind_eq_ok hrun
    split at hrun
    · cases hrun
    · obtain ⟨sd, _, hrun⟩ := bind_eq_ok hrun
      obtain ⟨d0, _, hrun⟩ := bind_eq_ok hrun
      cases hrun
      intro q
      rfl
  | setSubObject i c => cases hfree
  | addToSubObjectSet i cs => cases hfree
  | removeFromSubObjectSet i cs => cases hfree
  | clearSubObjectSet i => cases hfree

theorem SameButOwner.version {a b : ResourceStorage} (h : SameButOwner a b) :
    b.version = a.version := by
  unfold SameButOwner at h
  rw [h]

theorem SameButOwner.prototype {a b : ResourceStorage} (h : SameButOwner a b) :
    b.prototype = a.prototype := by
  unfold SameButOwner at h
  rw [h]

/-- C22 (amended). Any sequence of mutations through one handle changes no snapshot other
than the handle's own, and in the storage slots nothing but owner slots: every readable
slot stays readable with the same current snapshot, version and prototype link (and type,
identifier and flags). Mutations that are `SetValue` or prototype-removal calls leave the
storage slots untouched altogether. -/
theorem uncommitted_writes_private (s s' : Repo) (h : ResourceObject) (ops : List HandleOp)
    (hrun : runOps h ops s = .ok s') :
    (∀ q st, s.getStorage q = .ok st → ∃ st', s'.getStorage q = .ok st' ∧
      st'.data = st.data ∧ st'.version = st.version ∧ st'.prototype = st.prototype ∧
      SameButOwner st st') ∧
    (∀ a, h.m_data ≠ some a → s'.datas a = s.datas a) ∧
    ((∀ op ∈ ops, op.ownerFree = true) → ∀ q, s'.getStorage q = s.getStorage q) := by
  induction ops generalizing s with
  | nil =>
    cases hrun
    exact ⟨fun q st hq => ⟨st, hq, rfl, rfl, rfl, sameButOwner_refl st⟩, fun _ _ => rfl,
      fun _ _ => rfl⟩
  | cons op ops ih =>
    simp only [runOps] at hrun
    obtain ⟨s1, h1, hrest⟩ := bind_eq_ok hrun
    obtain ⟨ihS, ihD, ihF⟩ := ih s1 hrest
    refine ⟨?_, ?_, ?_⟩
    · intro q st hq
      obtain ⟨st1, hq1, hsame1⟩ := HandleOp.run_ownersOnly op h1 q st hq
      obtain ⟨st', hq', hd, hv, hp, hsame⟩ := ihS q st1 hq1
      exact ⟨st', hq', by rw [hd, hsame1.data], by rw [hv, hsame1.version],
        by rw [hp, hsame1.prototype], sameButOwner_trans hsame1 hsame⟩
    · intro a ha
      obtain ⟨p, hp, hd⟩ := HandleOp.run_datas op h1
      rw [ihD a ha]
      exact hd a (fun hap => ha (by rw [hp, hap]))
    · intro hall q
      rw [ihF (fun o ho => hall o (List.mem_cons_of_mem _ ho)) q]
      exact HandleOp.run_storages op (hall op (List.mem_cons_self _ _)) h1 q

/-- C22 (amended) at a concrete input: `AddToSubObjectSet(1, (2, 0))` and `SetValue(0, 5)` on
the write handle of `demo.opened`. -/
theorem uncommitted_writes_private_witness :
    ∃ s', runOps ⟨some 0⟩ [HandleOp.addToSubObjectSet 1 [⟨2, 0⟩], HandleOp.setValue 0 5]
        demo.opened = .ok s' ∧
      (∀ q st, demo.opened.getStorage q = .ok st → ∃ st', s'.getStorage q = .ok st' ∧
        st'.data = st.data ∧ st'.version = st.version ∧ st'.prototype = st.prototype ∧
        SameButOwner st st') ∧
      (∀ a, (⟨some 0⟩ : ResourceObject).m_data ≠ some a → s'.datas a = demo.opened.datas a) ∧
      ((∀ op ∈ [HandleOp.addToSubObjectSet 1 [⟨2, 0⟩], HandleOp.setValue 0 5],
          op.ownerFree = true) → ∀ q, s'.getStorage q = demo.opened.getStorage q) :=
  ⟨_, rfl, uncommitted_writes_private demo.opened _ ⟨some 0⟩
    [HandleOp.addToSubObjectSet 1 [⟨2, 0⟩], HandleOp.setValue 0 5] rfl⟩

/-! ## Two callers of the UUID index -/

/-- A caller running alone through its steps is the call itself. -/
theorem solo_eq_run (cfg : Config) (uuid : UUID) (s : Repo) (c : UuidCall) :
    solo cfg uuid s c = (c.run cfg s uuid).map (fun r => (some r.1, r.2)) := by
  cases c with
  | getOrCreate t =>
    simp only [solo, UuidThread.step, UuidCall.run, Repository.GetOrCreateByUUID]
    cases hu : s.byUUID uuid with
    | some r => simp [UuidThread.step, UuidThread.result, Except.map]
    | none =>
      simp only [bind_ok, UuidThread.step, GetID]
      split <;> simp_all [UuidThread.step, UuidThread.result, Except.map, GetID]
  | create t =>
    simp only [solo, UuidThread.step, UuidCall.run, Repository.CreateResource, GetIDByUUID]
    cases hu : (if uuid.toBool then s.byUUID uuid else none) with
    | some r =>
      simp only [bind_ok, UuidThread.step]
      cases hal : GetOrAllocate cfg s r with
      | error e => simp [Except.map]
      | ok s2 => simp [UuidThread.step, UuidThread.result, Except.map]
    | none =>
      simp only [bind_ok, UuidThread.step, GetID]
      cases hal : GetOrAllocate cfg
          { s with counter := (s.counter + 1) % 2 ^ 64,
                   byUUID := mapInsert s.byUUID uuid
                     ⟨OFFSET cfg s.counter, PAGE cfg s.counter⟩ }
          ⟨OFFSET cfg s.counter, PAGE cfg s.counter⟩ with
      | error e => simp [Except.map, hal]
      | ok s2 => simp [UuidThread.step, UuidThread.result, Except.map, hal]
  | fromPrototype p =>
    simp only [solo, UuidThread.step, UuidCall.run, Repository.CreateFromPrototype, GetIDByUUID]
    cases hu : (if uuid.toBool then s.byUUID uuid else none) with
    | some r =>
      simp only [bind_ok, UuidThread.step]
      cases hal : GetOrAllocate cfg s r with
      | error e => simp [Except.map]
      | ok s2 =>
        simp only [bind_ok]
        cases hp : s2.getStorage p with
        | error e => simp [Except.map]
        | ok sp =>
          simp only [bind_ok]
          cases hT : sp.resourceType with
          | none => simp [Except.map]
          | some T => simp [UuidThread.step, UuidThread.result, Except.map]
    | none =>
      simp only [bind_ok, UuidThread.step, GetID]
      cases hal : GetOrAllocate cfg
          { s with counter := (s.counter + 1) % 2 ^ 64,
                   byUUID := mapInsert s.byUUID uuid
                     ⟨OFFSET cfg s.counter, PAGE cfg s.counter⟩ }
          ⟨OFFSET cfg s.counter, PAGE cfg s.counter⟩ with
      | error e => simp [Except.map, hal]
      | ok s2 =>
        simp only [hal, bind_ok]
        cases hp : s2.getStorage p with
        | error e => simp [Except.map]
        | ok sp =>
          simp only [bind_ok]
          cases hT : sp.resourceType with
          | none => simp [Except.map]
          | some T => simp [UuidThread.step, UuidThread.result, Except.map]

/-- C23 fails on the code: two callers of `GetOrCreateByUUID(u)` (and likewise of
`CreateResource(T, u)`) that both complete the lookup before either inserts get the
identifiers `(2, 0)` and `(3, 0)`; the index keeps `(2, 0)`. When one caller returns before
the other starts, both get `(2, 0)`. -/
theorem concurrent_callers_two_rids :
    demo.raceScenario (UuidCall.getOrCreate 77)
        [false, true, false, true, false, true, false, true] =
      .ok (some ⟨2, 0⟩, some ⟨3, 0⟩, some ⟨2, 0⟩) ∧
    demo.raceScenario (UuidCall.create 77)
        [false, true, false, true, false, true, false, true] =
      .ok (some ⟨2, 0⟩, some ⟨3, 0⟩, some ⟨2, 0⟩) ∧
    demo.raceScenario (UuidCall.getOrCreate 77)
        [false, false, false, false, true, true, true, true] =
      .ok (some ⟨2, 0⟩, some ⟨2, 0⟩, some ⟨2, 0⟩) := by
  refine ⟨?_, ?_, ?_⟩ <;> rfl

/-! ## Prototype chains -/

/-- C24 fails on the code: in the chain `g <- p <- c` a `RemoveFromPrototypeSubObjectSet(1, x)`
committed on `c` for the member `x` of `g` is not honoured, `GetSubObjectSet(1)` on `c` still
yields `x` (as on `p` and on `g`); the same removal committed on `p` hides `x` on `p` and on
`c`. -/
theorem removal_two_levels_down_ignored :
    demo.chainScenario false 4 = .ok ([⟨2, 0⟩], [⟨2, 0⟩], [⟨2, 0⟩]) ∧
      demo.chainScenario true 4 = .ok ([], [], [⟨2, 0⟩]) := by
  constructor <;> rfl

theorem demo.selfPrototyped_step (n : Nat) :
    readValue (n + 1) demo.selfPrototyped ⟨1, 0⟩ 0 = readValue n demo.selfPrototyped ⟨1, 0⟩ 0 :=
  rfl

/-- C25 as stated fails: `r = CreateResource(T, u)` followed by `CreateFromPrototype(r, u)`
with the same UUID returns `r` again and makes `r` its own prototype; `Read(r).GetValue(0)`
then recurses without end, whatever the fuel. -/
theorem self_prototype_diverges :
    demo.selfPrototypeCalls.map (fun x => (x.1, x.2.1, x.2.2.1)) =
        .ok (⟨1, 0⟩, ⟨1, 0⟩, some ⟨1, 0⟩) ∧
      ∀ fuel, readValue fuel demo.selfPrototyped ⟨1, 0⟩ 0 = .error Fault.diverged := by
  refine ⟨rfl, ?_⟩
  intro fuel
  induction fuel with
  | zero => rfl
  | succ n ih => rw [demo.selfPrototyped_step, ih]

/-! ## Reclamation of a superseded snapshot -/

theorem sameBut_getStorage {p : DataPtr} {s s' : Repo} (h : SameBut p s s') (q : StoragePtr) :
    s'.getStorage q = s.getStorage q := by
  unfold Repo.getStorage
  rw [h.storages, h.pages]

theorem sameBut_refl (p : DataPtr) (s : Repo) : SameBut p s s :=
  ⟨rfl, rfl, rfl, fun _ _ => rfl⟩

theorem sameBut_setData {p : DataPtr} {s s' : Repo} (h : SameBut p s s') (x : ResourceData) :
    SameBut p s (s'.setData p x) :=
  ⟨h.storages, h.pages, h.queue, fun a ha => by
    simp [Repo.setData, upd_other _ _ _ _ ha, h.datas a ha]⟩

theorem sameBut_freeData {p : DataPtr} {s s' : Repo} (h : SameBut p s s') :
    SameBut p s (s'.freeData p) :=
  ⟨h.storages, h.pages, h.queue, fun a ha => by
    simp [Repo.freeData, upd_other _ _ _ _ ha, h.datas a ha]⟩

/-- A loop whose steps succeed and keep an invariant succeeds and keeps it. -/
theorem foldlM_inv {σ ι : Type} {F : σ → ι → Except Fault σ} {P : σ → Prop} (l : List ι)
    (hstep : ∀ acc i, i ∈ l → P acc → ∃ acc', F acc i = .ok acc' ∧ P acc') (s : σ)
    (hs : P s) : ∃ s', l.foldlM F s = .ok s' ∧ P s' := by
  induction l generalizing s with
  | nil => exact ⟨s, rfl, hs⟩
  | cons i l ih =>
    obtain ⟨s1, h1, hp1⟩ := hstep s i (List.mem_cons_self _ _) hs
    obtain ⟨s2, h2, hp2⟩ := ih (fun acc j hj => hstep acc j (List.mem_cons_of_mem _ hj)) s1 hp1
    exact ⟨s2, by rw [List.foldlM_cons, h1, bind_ok, h2], hp2⟩

theorem bind_exists {α β : Type} {x : Except Fault α} {f : α → Except Fault β}
    {P : α → Prop} {R : β → Prop} (hx : ∃ a, x = .ok a ∧ P a)
    (hf : ∀ a, P a → ∃ b, f a = .ok b ∧ R b) : ∃ b, (x >>= f) = .ok b ∧ R b := by
  obtain ⟨a, ha, hp⟩ := hx
  obtain ⟨b, hb, hr⟩ := hf a hp
  exact ⟨b, by rw [ha, bind_ok, hb], hr⟩

/-- The call `DestroyData(data, false)` on a live snapshot frees it and touches nothing
else: no storage slot, no other snapshot, not the queue. -/
theorem DestroyData_snapshot_only (fuel : Nat) (s : Repo) (p : DataPtr) (d : ResourceData)
    (st : ResourceStorage) (T : ResourceType)
    (hd : s.datas p = some d) (hst : s.getStorage d.storage = .ok st)
    (hT : st.resourceType = some T) (hwk : WellKinded T d.fields) :
    ∃ s', DestroyData (fuel + 1) s (some p) false = .ok s' ∧
      (SameBut p s s' ∧ s'.datas p = none) := by
  rw [DestroyData]
  simp only [getData_ok hd, bind_ok]
  by_cases hmem : d.memory = true
  · rw [if_pos hmem]
    refine bind_exists
      (P := fun acc => SameBut p s acc ∧ ∃ cur, acc.datas p = some cur ∧
        cur.storage = d.storage ∧ cur.fields.length = d.fields.length ∧
        ∀ (i : Nat) (v : FieldValue), cur.fields[i]? = some (some v) →
          d.fields[i]? = some (some v))
      (foldlM_inv _ ?_ s ⟨sameBut_refl p s, d, hd, rfl, rfl, fun _ _ h => h⟩) ?_
    · rintro acc i hi ⟨hsb, cur, hcur, hcs, hlen, hsub⟩
      have hi' : i < cur.fields.length := by
        rw [hlen]
        exact List.mem_range.mp hi
      obtain ⟨cell, hcell⟩ : ∃ cell, cur.fields[i]? = some cell :=
        ⟨cur.fields[i], List.getElem?_eq_getElem hi'⟩
      simp only [getData_ok hcur, bind_ok, index_eq_ok hcell]
      cases cell with
      | none => exact ⟨acc, rfl, hsb, cur, hcur, hcs, hlen, hsub⟩
      | some v =>
        obtain ⟨f, hf, hset⟩ := hwk i v (hsub i v hcell)
        have htype : typeOf acc cur = .ok T := by
          simp [typeOf, sameBut_getStorage hsb, hcs, hst, hT, deref]
        refine ⟨acc.setData p { cur with fields := cur.fields.set i none }, ?_,
          sameBut_setData hsb _, { cur with fields := cur.fields.set i none }, by simp [Repo.setData],
          hcs, by simp [hlen], ?_⟩
        · simp only [htype, bind_ok, index_eq_ok hf, deref]
          by_cases hk : f.fieldType = ResourceFieldType.SubObjectSet
          · obtain ⟨sd, hv⟩ := hset hk
            simp [hk, hv, asSet, getData_ok hcur]
          · simp [hk, getData_ok hcur]
        · intro j w hj
          by_cases hji : j = i
          · subst hji
            simp [List.getElem?_set_self hi'] at hj
          · rw [List.getElem?_set_ne (fun h => hji h.symm)] at hj
            exact hsub j w hj
    · rintro s2 ⟨hsb, cur, hcur, hcs, _, _⟩
      have htype : typeOf s2 cur = .ok T := by
        simp [typeOf, sameBut_getStorage hsb, hcs, hst, hT, deref]
      simp only [getData_ok hcur, bind_ok, htype]
      exact ⟨(s2.setData p { cur with memory := false }).freeData p,
        by simp [Repo.getData, Repo.setData], sameBut_freeData (sameBut_setData hsb _),
        by simp [Repo.freeData]⟩
  · rw [if_neg hmem]
    exact ⟨_, rfl, sameBut_freeData (sameBut_refl p s), by simp [Repo.freeData]⟩

theorem GarbageCollect_nil (m : Nat) (s : Repo) (h : s.toCollectItems = []) :
    Repository.GarbageCollect (m + 1) s = .ok s := by
  simp only [Repository.GarbageCollect, h]

theorem GarbageCollect_cons_data (m : Nat) (s : Repo) (item : ToDestroyResourceData)
    (rest : List ToDestroyResourceData) (h : s.toCollectItems = item :: rest)
    (hk : item.destroyResource = false) :
    Repository.GarbageCollect (m + 1) s =
      (DestroyData m { s with toCollectItems := rest } item.data item.destroySubObjects >>=
        Repository.GarbageCollect m) := by
  simp only [Repository.GarbageCollect, h, hk]
  rfl

theorem mem_owners_self {n : Nat} {s : Repo} {p : StoragePtr} (h : ownerChain n s p) :
    p ∈ owners n s p := by
  cases n with
  | zero => cases h
  | succ n => simp [owners]

theorem pendingSnapshot_congr {s t : Repo} {item : ToDestroyResourceData}
    (h : PendingSnapshot s item)
    (hst : ∀ q sq, s.getStorage q = .ok sq →
      ∃ sq', t.getStorage q = .ok sq' ∧ sq'.resourceType = sq.resourceType)
    (hda : ∀ a, item.data = some a → t.datas a = s.datas a) : PendingSnapshot t item := by
  obtain ⟨h1, h2, a, d, st, T, ha, hd, hs, hT, hwk⟩ := h
  obtain ⟨st', hs', hty⟩ := hst _ _ hs
  exact ⟨h1, h2, a, d, st', T, ha, by rw [hda a ha, hd], hs', by rw [hty, hT], hwk⟩

/-- A queue of snapshot-only items for different live snapshots: `GarbageCollect` frees those
snapshots and changes nothing else. -/
theorem GarbageCollect_snapshots (m : Nat) : ∀ (items : List ToDestroyResourceData) (t : Repo),
    t.toCollectItems = items → (∀ it ∈ items, PendingSnapshot t it) →
    (items.map (fun it => it.data)).Nodup →
    ∃ t', Repository.GarbageCollect (m + items.length + 1) t = .ok t' ∧
      (∀ q, t'.getStorage q = t.getStorage q) ∧ t'.toCollectItems = [] ∧
      (∀ a, some a ∉ items.map (fun it => it.data) → t'.datas a = t.datas a) ∧
      (∀ a, some a ∈ items.map (fun it => it.data) → t'.datas a = none)
  | [], t, hq, _, _ =>
    ⟨t, GarbageCollect_nil _ t hq, fun _ => rfl, hq, fun _ _ => rfl, fun a ha => by simp at ha⟩
  | it :: rest, t, hq, hpend, hnd => by
    obtain ⟨hsub, hres, a, d, st, T, ha, hd, hs, hT, hwk⟩ := hpend it (List.mem_cons_self _ _)
    simp only [List.map_cons, List.nodup_cons] at hnd
    obtain ⟨hnot, hnd'⟩ := hnd
    rw [ha] at hnot
    obtain ⟨t0, ht0⟩ : ∃ t0 : Repo, t0 = { t with toCollectItems := rest } := ⟨_, rfl⟩
    have h0d : t0.datas a = some d := by rw [ht0]; exact hd
    have h0s : t0.getStorage d.storage = .ok st := by rw [ht0]; exact hs
    obtain ⟨t1, ht1, hsb, hfree⟩ :=
      DestroyData_snapshot_only (m + rest.length) t0 a d st T h0d h0s hT hwk
    have hpend1 : ∀ it' ∈ rest, PendingSnapshot t1 it' := by
      intro it' hit'
      refine pendingSnapshot_congr (hpend it' (List.mem_cons_of_mem _ hit')) ?_ ?_
      · intro q sq hq'
        exact ⟨sq, by rw [sameBut_getStorage hsb, ht0]; exact hq', rfl⟩
      · intro a' ha'
        have hne : a' ≠ a := by
          intro h
          apply hnot
          rw [← h, ← ha']
          exact List.mem_map_of_mem _ hit'
        rw [hsb.datas a' hne, ht0]
    obtain ⟨t', hgc, hst', hq', hkeep, hgone⟩ :=
      GarbageCollect_snapshots m rest t1 (by rw [hsb.queue, ht0]) hpend1 hnd'
    refine ⟨t', ?_, ?_, hq', ?_, ?_⟩
    · have hfuel : m + (it :: rest).length + 1 = (m + rest.length + 1) + 1 := by
        simp only [List.length_cons]
        omega
      rw [hfuel, GarbageCollect_cons_data (m + rest.length + 1) t it rest hq hres, ha, hsub,
        ← ht0, ht1, bind_ok]
      exact hgc
    · intro q
      rw [hst', sameBut_getStorage hsb, ht0]
      rfl
    · intro a' ha'
      simp only [List.map_cons, List.mem_cons, not_or, ha] at ha'
      have hne : a' ≠ a := fun h => ha'.1 (by rw [h])
      rw [hkeep a' ha'.2, hsb.datas a' hne, ht0]
    · intro a' ha'
      simp only [List.map_cons, List.mem_cons, ha] at ha'
      by_cases hmem : some a' ∈ rest.map (fun it => it.data)
      · exact hgone a' hmem
      · rcases ha' with h | h
        · cases h
          rw [hkeep a hnot]
          exact hfree
        · exact absurd h hmem

/-- C26 (amended). A write handle whose snapshot was copied from the current snapshot `S` of
its resource commits while `S` is still current; the items pending in the reclamation queue
are snapshot-only items for other live snapshots, none of them current. The commit appends
exactly one item for `S` to the queue, and that item is snapshot-only; `GarbageCollect()`
then frees `S` and the other pending snapshots and changes no storage slot, so every
resource (those `S` refers to through a SubObject field or as a set member included) is as
alive as before, with the same current snapshot, version and owner slot, no current snapshot
is freed, and every snapshot that was not pending is untouched; slots outside the owner
chain of the resource are even the same as before the commit. -/
theorem superseded_snapshot_only (s : Repo) (p S : DataPtr) (d dS : ResourceData)
    (st : ResourceStorage) (T : ResourceType) (n k m : Nat)
    (hd : s.datas p = some d) (hst : s.getStorage d.storage = .ok st)
    (hdw : d.dataOnWrite = some S) (hcur : st.data = some S)
    (hdS : s.datas S = some dS) (hSs : dS.storage = d.storage) (hne : S ≠ p)
    (hT : st.resourceType = some T) (hwk : WellKinded T dS.fields)
    (hchain : ownerChain n s d.storage)
    (huniq : ∀ q sq, s.getStorage q = .ok sq → sq.data = some S → q = d.storage)
    (hpend : ∀ it ∈ s.toCollectItems, PendingSnapshot s it)
    (hnd : (s.toCollectItems.map (fun it => it.data)).Nodup)
    (hpq : some p ∉ s.toCollectItems.map (fun it => it.data))
    (hcurq : ∀ q sq a, s.getStorage q = .ok sq → sq.data = some a →
      some a ∉ s.toCollectItems.map (fun it => it.data)) :
    ∃ s1 s2, ResourceObject.Commit (n + k) s ⟨some p⟩ = .ok (⟨none⟩, s1) ∧
      s1.toCollectItems = s.toCollectItems ++
        [{ data := some S, destroySubObjects := false, destroyResource := false }] ∧
      Repository.GarbageCollect (m + s.toCollectItems.length + 2) s1 = .ok s2 ∧
      (∀ q, s2.getStorage q = s1.getStorage q) ∧
      (∀ q, q ∉ owners n s d.storage → s2.getStorage q = s.getStorage q) ∧
      (∀ a, a ≠ S → some a ∉ s.toCollectItems.map (fun it => it.data) →
        s2.datas a = s1.datas a) ∧
      s2.datas S = none ∧
      (∀ q sq a, s2.getStorage q = .ok sq → sq.data = some a →
        a ≠ S ∧ s2.datas a = s1.datas a) ∧
      s2.toCollectItems = [] := by
  have hc := Commit_eq s p d n k hd hst (Or.inr (hdw.trans hcur.symm)) hchain
  simp only [hdw] at hc
  obtain ⟨s1, hs1⟩ : ∃ s1, s1 = (committed s p d st (owners n s d.storage)).enqueue
      { data := some S, destroySubObjects := false, destroyResource := false } := ⟨_, rfl⟩
  rw [← hs1] at hc
  have hq1 : s1.toCollectItems = s.toCollectItems ++
      [{ data := some S, destroySubObjects := false, destroyResource := false }] := by
    rw [hs1]
    simp [committed, Repo.enqueue, bumpAll, Repo.setStorage, Repo.setData]
  have hself := mem_owners_self hchain
  have hSq : some S ∉ s.toCollectItems.map (fun it => it.data) :=
    hcurq d.storage st S hst hcur
  -- the slots after the commit
  have hslot : ∀ q, s1.getStorage q =
      if q = d.storage then .ok (bump { st with data := some p })
      else (s.getStorage q).map
        (fun sq => if q ∈ owners n s d.storage then bump sq else sq) := by
    intro q
    rw [hs1, getStorage_enqueue, committed, getStorage_bumpAll,
      getStorage_setStorage _ d.storage q st _ (by simpa using hst)]
    by_cases hqd : q = d.storage
    · subst hqd
      simp [hself, Except.map]
    · simp [hqd]
  have hdatas : s1.datas = upd s.datas p (some { d with readOnly := true }) := by
    rw [hs1]
    simp [committed]
  have htypes : ∀ q sq, s.getStorage q = .ok sq →
      ∃ sq', s1.getStorage q = .ok sq' ∧ sq'.resourceType = sq.resourceType := by
    intro q sq hq
    rw [hslot]
    by_cases hqd : q = d.storage
    · subst hqd
      rw [hst] at hq
      cases hq
      exact ⟨_, if_pos rfl, rfl⟩
    · rw [if_neg hqd, hq]
      by_cases hmem : q ∈ owners n s d.storage
      · exact ⟨bump sq, by simp [Except.map, hmem], rfl⟩
      · exact ⟨sq, by simp [Except.map, hmem], rfl⟩
  -- what is pending after the commit
  have hpend1 : ∀ it ∈ s1.toCollectItems, PendingSnapshot s1 it := by
    intro it hit
    rw [hq1, List.mem_append, List.mem_singleton] at hit
    rcases hit with hit | hit
    · refine pendingSnapshot_congr (hpend it hit) htypes ?_
      intro a ha
      have hap : a ≠ p := by
        intro h
        apply hpq
        rw [← h, ← ha]
        exact List.mem_map_of_mem _ hit
      rw [hdatas, upd_other _ _ _ _ hap]
    · subst hit
      refine ⟨rfl, rfl, S, dS, bump { st with data := some p }, T, rfl, ?_, ?_, hT, hwk⟩
      · rw [hdatas, upd_other _ _ _ _ hne, hdS]
      · rw [hslot, hSs, if_pos rfl]
  have hnd1 : (s1.toCollectItems.map (fun it => it.data)).Nodup := by
    rw [hq1, List.map_append, List.map_singleton]
    exact List.Nodup.append hnd (List.nodup_singleton _)
      (by
        intro x hx hx'
        rw [List.mem_singleton] at hx'
        subst hx'
        exact hSq hx)
  have hmemq : ∀ a, some a ∈ s1.toCollectItems.map (fun it => it.data) ↔
      (some a ∈ s.toCollectItems.map (fun it => it.data) ∨ a = S) := by
    intro a
    rw [hq1, List.map_append, List.map_singleton, List.mem_append, List.mem_singleton]
    constructor
    · rintro (h | h)
      · exact Or.inl h
      · cases h
        exact Or.inr rfl
    · rintro (h | h)
      · exact Or.inl h
      · subst h
        exact Or.inr rfl
  obtain ⟨s2, hgc, hsame, hq2, hkeep, hgone⟩ :=
    GarbageCollect_snapshots m s1.toCollectItems s1 rfl hpend1 hnd1
  have hfuel : m + s1.toCollectItems.length + 1 = m + s.toCollectItems.length + 2 := by
    rw [hq1, List.length_append, List.length_singleton]
    omega
  rw [hfuel] at hgc
  refine ⟨s1, s2, hc, hq1, hgc, hsame, ?_, ?_, ?_, ?_, hq2⟩
  · intro q hq
    have hqd : q ≠ d.storage := fun h => hq (h ▸ hself)
    rw [hsame, hslot, if_neg hqd]
    cases s.getStorage q <;> simp [Except.map, hq]
  · intro a ha hnq
    exact hkeep a (fun h => ((hmemq a).mp h).elim hnq ha)
  · exact hgone S ((hmemq S).mpr (Or.inr rfl))
  · intro q sq a hqs ha
    rw [hsame, hslot] at hqs
    have key : a ≠ S ∧ some a ∉ s.toCollectItems.map (fun it => it.data) := by
      by_cases hqd : q = d.storage
      · rw [if_pos hqd] at hqs
        cases hqs
        simp only [bump] at ha
        cases ha
        exact ⟨fun h => hne h.symm, hpq⟩
      · rw [if_neg hqd] at hqs
        cases hg : s.getStorage q with
        | error e => rw [hg] at hqs; cases hqs
        | ok s0q =>
          rw [hg] at hqs
          simp only [Except.map] at hqs
          cases hqs
          have hdata : s0q.data = some a := by
            split at ha
            · simpa [bump] using ha
            · exact ha
          exact ⟨fun h => hqd (huniq q s0q hg (h ▸ hdata)), hcurq q s0q a hg hdata⟩
    exact ⟨key.1, hkeep a (fun h => ((hmemq a).mp h).elim key.2 key.1)⟩

/-- C26 as stated fails: with `DestroyResource(c)` pending when a commit on the owner
supersedes the snapshot that lists `c`, the item the commit enqueues is snapshot-only, but
`GarbageCollect()` also serves the pending request, and afterwards `c` is no longer alive. -/
theorem pending_destroy_reaches_member :
    demo.pendingDestroyScenario 8 =
      .ok ((false, false), [true, true, true], [true, false, true]) := by
  decide!

/-! ## Retrying a lost commit -/

/-- The storage slots after a successful `Commit` of the snapshot at `p`. -/
theorem getStorage_committed (s : Repo) (p : DataPtr) (d : ResourceData)
    (st : ResourceStorage) (n : Nat) (hst : s.getStorage d.storage = .ok st)
    (hchain : ownerChain n s d.storage) (q : StoragePtr) :
    (committed s p d st (owners n s d.storage)).getStorage q =
      if q = d.storage then .ok (bump { st with data := some p })
      else (s.getStorage q).map
        (fun sq => if q ∈ owners n s d.storage then bump sq else sq) := by
  rw [committed, getStorage_bumpAll,
    getStorage_setStorage _ d.storage q st _ (by simpa using hst)]
  by_cases hqd : q = d.storage
  · subst hqd
    simp [mem_owners_self hchain, Except.map]
  · simp [hqd]

/-- C27 (retry after a lost commit). The handle `h2` recorded `old` as the snapshot it
replaces, but the resource's current snapshot is meanwhile `cur` (the winner's). The first
`h2.Commit()` fails its compare-exchange and stores `cur` as the recorded prior snapshot of
`h2`; an immediate second `h2.Commit()` then succeeds: the snapshot of `h2`, with the fields
it had (the winner's changes are not in it), becomes current, the version is incremented,
the winner's snapshot is enqueued for reclamation, and the handle is released. -/
theorem lost_commit_retry (s : Repo) (p old cur : DataPtr) (d : ResourceData)
    (st : ResourceStorage) (n k : Nat)
    (hd : s.datas p = some d) (hst : s.getStorage d.storage = .ok st)
    (hdw : d.dataOnWrite = some old) (hcur : st.data = some cur) (hne : cur ≠ old)
    (hchain : ownerChain n s d.storage) :
    ∃ s1 s2, ResourceObject.Commit (n + k) s ⟨some p⟩ = .ok (⟨some p⟩, s1) ∧
      s1 = s.setData p { d with readOnly := true, dataOnWrite := some cur } ∧
      ResourceObject.Commit (n + k) s1 ⟨some p⟩ = .ok (⟨none⟩, s2) ∧
      Repository.Read s2 d.storage = .ok ⟨some p⟩ ∧
      s2.datas p = some { d with readOnly := true, dataOnWrite := some cur } ∧
      Repository.GetVersion s2 d.storage = .ok ((st.version + 1) % 2 ^ 32) ∧
      s2.toCollectItems = s.toCollectItems ++
        [{ data := some cur, destroySubObjects := false, destroyResource := false }] ∧
      (p ≠ cur → s2.datas cur = s.datas cur) := by
  have h1 := Commit_conflict (n + k) s p d hd hst hdw
    (by rw [hcur]; intro h; cases h; exact hne rfl)
  rw [hcur] at h1
  obtain ⟨d1, hd1⟩ : ∃ d1 : ResourceData,
      d1 = { d with readOnly := true, dataOnWrite := some cur } := ⟨_, rfl⟩
  obtain ⟨s1, hs1⟩ : ∃ s1 : Repo, s1 = s.setData p d1 := ⟨_, rfl⟩
  rw [← hd1, ← hs1] at h1
  have hd1s : d1.storage = d.storage := by rw [hd1]
  have hs1d : s1.datas p = some d1 := by rw [hs1]; simp
  have hs1st : s1.getStorage d1.storage = .ok st := by rw [hs1, hd1s]; exact hst
  have hso : SameOwners s s1 := sameOwners_of_storages (by rw [hs1]; rfl) (by rw [hs1]; rfl)
  have hchain1 : ownerChain n s1 d1.storage := by
    rw [hd1s]
    exact ownerChain_congr n _ _ _ hso hchain
  have h2 := Commit_eq s1 p d1 n k hs1d hs1st (Or.inr (by rw [hd1, hcur])) hchain1
  have hdw1 : d1.dataOnWrite = some cur := by rw [hd1]
  simp only [hdw1] at h2
  have hslot := getStorage_committed s1 p d1 st n hs1st hchain1 d1.storage
  rw [if_pos rfl] at hslot
  refine ⟨s1, _, h1, by rw [hs1, hd1], h2, ?_, ?_, ?_, ?_, ?_⟩
  · simp only [Repository.Read, getStorage_enqueue, ← hd1s, hslot, bind_ok]
    rfl
  · simp [committed, hd1]
  · simp only [Repository.GetVersion, getStorage_enqueue, ← hd1s, hslot, bind_ok]
    rfl
  · rw [hs1]
    simp [committed, Repo.enqueue, bumpAll, Repo.setStorage, Repo.setData]
  · intro hpc
    rw [hs1]
    simp [committed, upd_other _ _ _ _ (Ne.symm hpc)]

/-! ## Inheritance through a handle taken earlier -/

/-- C28 (live inheritance). The handle `r = Read(clone)` is taken, then
`Write(p); SetValue(i, v); Commit()` runs on the prototype `p`. Afterwards `Read(clone)` is
still the handle `r`, and for every field `j` that is not locally present in the clone's
snapshot `r.GetValue(j)` is what `Read(p).GetValue(j)` gives now; in particular
`r.GetValue(i)` is the newly committed `v`. -/
theorem inheritance_live (s : Repo) (c p : RID) (sc sp : ResourceStorage) (ac : DataPtr)
    (dc : ResourceData) (T : ResourceType) (f : ResourceField)
    (src : List (Option FieldValue)) (i : Nat) (v : Value) (n k : Nat)
    (hsc : s.getStorage c = .ok sc) (hproto : sc.prototype = some p)
    (hdata : sc.data = some ac) (hdc : s.datas ac = some dc) (hds : dc.storage = c)
    (hne : c ≠ p)
    (hsp : s.getStorage p = .ok sp) (hT : sp.resourceType = some T) (hc : T.Complete)
    (hf : T.fieldsByIndex[i]? = some (some f))
    (hkind : f.fieldType = ResourceFieldType.Value) (hh : f.typeHandler ≠ none)
    (hsrc : IsSource s sp T.fieldsByIndex.length src)
    (hlen : src.length = T.fieldsByIndex.length)
    (hchain : ownerChain n s p) (hfresh : s.HeapFresh) :
    ∃ r s', Repository.Read s c = .ok r ∧ writeSetCommit (n + k) s p i v = .ok s' ∧
      Repository.Read s' c = .ok r ∧
      readValue 1 s' p i = .ok (some (FieldValue.value v)) ∧
      (∀ (j m : Nat) (y : Option FieldValue), dc.fields[j]? = some none →
        readValue m s' p j = .ok y → r.GetValue (m + 1) s' j = .ok y) ∧
      (dc.fields[i]? = some none → r.GetValue 2 s' i = .ok (some (FieldValue.value v))) := by
  obtain ⟨fs, hl, _, hw⟩ := writeSetCommit_eq v n k hsp hT hc hf hkind hh hsrc hlen hchain
  obtain ⟨s', hs'⟩ : ∃ s' : Repo, s' = afterWrite s p sp
      (fs.set i (some (FieldValue.value v))) (owners n s p) := ⟨_, rfl⟩
  rw [← hs'] at hw
  have hil : i < fs.length := by
    rw [hl]
    by_contra hcon
    rw [List.getElem?_eq_none (by omega)] at hf
    cases hf
  obtain ⟨sc', hsc', hscd, hscp⟩ := getStorage_afterWrite_other
    (fs.set i (some (FieldValue.value v))) (owners n s p) hsp hsc hne
  rw [← hs'] at hsc'
  have hdc' : s'.datas ac = some dc := by
    have hac : ac ≠ s.nextData := ne_of_heapFresh 0 hfresh hdc
    rw [hs', datas_afterWrite, upd_other _ _ _ _ hac, hdc]
  have hrp : readValue 1 s' p i = .ok (some (FieldValue.value v)) := by
    rw [hs']
    exact readValue_afterWrite (owners n s p) 0 hsp (by simp [List.getElem?_set_self hil])
  have hlive : ∀ (j m : Nat) (y : Option FieldValue), dc.fields[j]? = some none →
      readValue m s' p j = .ok y → ResourceObject.GetValue (m + 1) s' ⟨some ac⟩ j = .ok y := by
    intro j m y hj hy
    have := readValue_through_prototype hsc' (hscd.trans hdata) hdc' hds hj
      (hscp.trans hproto) hy
    simpa [readValue, Repository.Read, hsc', hscd, hdata] using this
  refine ⟨⟨some ac⟩, s', by simp [Repository.Read, hsc, hdata], hw,
    by simp [Repository.Read, hsc', hscd, hdata], hrp, hlive, fun hi => hlive i 1 _ hi hrp⟩

/-! ## Abandoned write handles -/

/-- C29 fails on the code for a child held in a SubObject field: destroying the write handle
reaches `DestroyStorage` of the child, whose detach step calls `RemoveFromSubObjectSet` on
the owner's SubObject field and fails its assertion. For children held in the set field the
destructor does what the claim says: `(2, 0)`, copied forward from the committed snapshot,
and `(3, 0)`, added through the handle, are destroyed, while the owner stays alive with two
further commits that empty its set. -/
theorem abandon_with_link_asserts :
    demo.abandonScenario true 6 = .error Fault.assertion ∧
      demo.abandonScenario false 6 = .ok ([true, false, false], [], 4, 2) := by
  constructor <;> decide!

/-! ## Removal without a membership test -/

/-- C30 (removal clears ownership unconditionally). On a handle whose field `i` is a
SubObjectSet: when the field is locally present, `RemoveFromSubObjectSet(i, c)` leaves the
owner slot of `c` at (null, `U32_MAX`) for every readable slot `c`, whoever owned it before
and whether or not it was a member (the local members are the former ones without `c`);
when the field is locally absent the call returns with the state unchanged. -/
theorem remove_clears_any_owner (s : Repo) (p : DataPtr) (d : ResourceData)
    (fd : ResourceField) (i : Nat) (c : RID) (sc : ResourceStorage)
    (hd : s.datas p = some d) (hf : fieldOf s d i = .ok fd)
    (hkind : fd.fieldType = ResourceFieldType.SubObjectSet)
    (hc : s.getStorage c = .ok sc) :
    (∀ sd, d.fields[i]? = some (some (FieldValue.set sd)) →
      ∃ s', ResourceObject.RemoveFromSubObjectSet s ⟨some p⟩ i [c] = .ok s' ∧
        ownerSlot s' c = .ok (none, U32_MAX) ∧
        localMembers s' ⟨some p⟩ i = .ok (sd.subObjects.Erase c) ∧
        (c ∉ sd.subObjects → localMembers s' ⟨some p⟩ i = .ok sd.subObjects)) ∧
    (d.fields[i]? = some none →
      ResourceObject.RemoveFromSubObjectSet s ⟨some p⟩ i [c] = .ok s) := by
  constructor
  · intro sd hcell
    have hi : i < d.fields.length := lt_of_getElem?_eq_some hcell
    have hmem : localMembers
        ((s.setStorage c { sc with parent := none, parentIndex := U32_MAX }).setData p
          { d with fields := d.fields.set i (some (FieldValue.set
            { sd with subObjects := sd.subObjects.Erase c })) }) ⟨some p⟩ i =
        .ok (sd.subObjects.Erase c) := by
      simp [localMembers, deref, Repo.getData, Repo.setData, setAt, index,
        List.getElem?_set_self hi, asSet, localOf]
    refine ⟨_, RemoveFromSubObjectSet_eq s p d hd hf hkind hcell hc,
      ownerSlot_setOwner none U32_MAX hc p _, hmem, ?_⟩
    intro hnot
    rw [hmem]
    congr 1
    unfold HashSet.Erase
    rw [List.filter_eq_self]
    intro x hx
    simp only [decide_eq_true_eq]
    intro hxc
    exact hnot (hxc ▸ hx)
  · intro hcell
    simp [ResourceObject.RemoveFromSubObjectSet, deref, getData_ok hd, hf, hkind,
      index_eq_ok hcell]

/-! ## Reading along a prototype chain that ends -/

theorem prototypeChain_unique : ∀ (n m : Nat) (s : Repo) (i : Nat) (p : StoragePtr),
    prototypeChain n s i p → prototypeChain m s i p → n = m
  | 0, _, _, _, _, h, _ => by cases h
  | _ + 1, 0, _, _, _, _, h => by cases h
  | n + 1, m + 1, s, i, p, h1, h2 => by
    obtain ⟨st, _, _, hst, _, _, _, _, h1⟩ := h1
    obtain ⟨st2, _, _, hst2, _, _, _, _, h2⟩ := h2
    rw [hst] at hst2
    cases hst2
    cases hp : st.prototype with
    | none => rw [hp] at h1 h2; simp at h1 h2; omega
    | some q =>
      rw [hp] at h1 h2
      have := prototypeChain_unique n m s i q h1 h2
      omega

theorem prototypeChain_of_mem : ∀ (n : Nat) (s : Repo) (i : Nat) (p x : StoragePtr),
    prototypeChain n s i p → x ∈ prototypes n s p → ∃ m, m ≤ n ∧ prototypeChain m s i x
  | 0, _, _, _, _, h, _ => by cases h
  | n + 1, s, i, p, x, h, hx => by
    obtain ⟨st, a, d, hst, ha, hd, hds, hi, h1⟩ := h
    simp only [prototypes, hst, List.mem_cons] at hx
    rcases hx with rfl | hx
    · exact ⟨n + 1, le_refl _, st, a, d, hst, ha, hd, hds, hi, h1⟩
    · cases hp : st.prototype with
      | none => rw [hp] at hx; simp at hx
      | some q =>
        rw [hp] at hx h1
        obtain ⟨m, hm, hc⟩ := prototypeChain_of_mem n s i q x h1 hx
        exact ⟨m, Nat.le_succ_of_le hm, hc⟩

/-- A prototype chain that ends lists `n` slots and none of them twice. -/
theorem prototypes_nodup : ∀ (n : Nat) (s : Repo) (i : Nat) (p : StoragePtr),
    prototypeChain n s i p → (prototypes n s p).length = n ∧ (prototypes n s p).Nodup
  | 0, _, _, _, h => by cases h
  | n + 1, s, i, p, h => by
    have hfull := h
    obtain ⟨st, a, d, hst, ha, hd, hds, hi, h1⟩ := h
    simp only [prototypes, hst]
    cases hp : st.prototype with
    | none =>
      rw [hp] at h1
      simp only at h1
      subst h1
      simp
    | some q =>
      rw [hp] at h1
      simp only at h1 ⊢
      obtain ⟨hlen, hnd⟩ := prototypes_nodup n s i q h1
      refine ⟨by simp [hlen], List.nodup_cons.mpr ⟨?_, hnd⟩⟩
      intro hmem
      obtain ⟨m, hm, hc⟩ := prototypeChain_of_mem n s i q p h1 hmem
      have := prototypeChain_unique _ _ _ _ _ hc hfull
      omega

theorem readValue_along_chain : ∀ (n k : Nat) (s : Repo) (i : Nat) (p : StoragePtr),
    prototypeChain n s i p →
      readValue (n + k) s p i = .ok ((prototypes n s p).findSome? (localValue s i))
  | 0, _, _, _, _, h => by cases h
  | n + 1, k, s, i, p, h => by
    obtain ⟨st, a, d, hst, ha, hd, hds, hi, h1⟩ := h
    obtain ⟨cell, hcell⟩ : ∃ cell, d.fields[i]? = some cell :=
      ⟨d.fields[i], List.getElem?_eq_getElem hi⟩
    have hfuel : n + 1 + k = (n + k) + 1 := by omega
    rw [hfuel]
    simp only [readValue, Repository.Read, hst, bind_ok, ha, ResourceObject.GetValue, deref,
      getData_ok hd, index_eq_ok hcell, prototypes, List.findSome?_cons]
    cases cell with
    | some v => simp [localValue, hst, ha, hd, hcell]
    | none =>
      have hloc : localValue s i p = none := by simp [localValue, hst, ha, hd, hcell]
      rw [hloc, hds]
      simp only [hst, bind_ok]
      cases hp : st.prototype with
      | none => simp
      | some q =>
        rw [hp] at h1
        simp only at h1 ⊢
        have ih := readValue_along_chain n k s i q h1
        cases n with
        | zero => cases h1
        | succ n' =>
          obtain ⟨sq, _, _, hsq, _⟩ := h1
          simp only [readValue, Repository.Read, hsq, bind_ok] at ih
          simp only [hsq, bind_ok]
          exact ih

/-- C25 (amended). When the prototype chain of a resource ends after `n` resources, each
with a current snapshot that has an entry for field `i`, the chain lists `n` different
resources and `Read(rid).GetValue(i)` returns within `n` steps of the recursion: the value of
the nearest resource of the chain in whose snapshot field `i` is locally present, or null
when none has it. -/
theorem getValue_terminates (s : Repo) (rid : RID) (i n k : Nat)
    (hchain : prototypeChain n s i rid) :
    readValue (n + k) s rid i = .ok ((prototypes n s rid).findSome? (localValue s i)) ∧
      (prototypes n s rid).length = n ∧ (prototypes n s rid).Nodup :=
  ⟨readValue_along_chain n k s i rid hchain, prototypes_nodup n s i rid hchain⟩

/-! ## The third group of properties at concrete inputs -/

theorem demo.superseding_current (q : StoragePtr) (sq : ResourceStorage)
    (h : demo.superseding.getStorage q = .ok sq) (hd : sq.data = some 0) : q = ⟨1, 0⟩ := by
  have hs := storages_of_getStorage h
  by_cases h1 : q = ⟨1, 0⟩
  · exact h1
  by_cases h2 : q = ⟨2, 0⟩
  · subst h2
    have e : (demo.superseding.storages ⟨2, 0⟩).bind (fun x => x.data) = none := by decide!
    rw [hs] at e
    simp [hd] at e
  by_cases h3 : q = ⟨3, 0⟩
  · subst h3
    have e : (demo.superseding.storages ⟨3, 0⟩).bind (fun x => x.data) = none := by decide!
    rw [hs] at e
    simp [hd] at e
  by_cases h0 : q = ⟨0, 0⟩
  · subst h0
    have e : (demo.superseding.storages ⟨0, 0⟩).bind (fun x => x.data) = none := by decide!
    rw [hs] at e
    simp [hd] at e
  have e : demo.superseding.storages q = none := by
    repeat (first
      | (show (if q = _ then _ else _) = none
         refine Eq.trans (if_neg ?_) ?_
         · first | exact h1 | exact h2 | exact h3 | exact h0)
      | rfl)
  rw [hs] at e
  cases e

theorem demo.superseding_wellKinded :
    WellKinded demo.nodeType
      [none, some (FieldValue.set { subObjects := [⟨2, 0⟩], prototypeRemoved := [] }),
        some (FieldValue.rid ⟨3, 0⟩)] := by
  intro i v h
  match i, h with
  | 0, h => cases h
  | 1, h =>
    cases h
    exact ⟨_, rfl, fun _ => ⟨_, rfl⟩⟩
  | 2, h =>
    cases h
    exact ⟨_, rfl, fun hk => by cases hk⟩
  | n + 3, h => cases h

theorem demo.requeued_current (q : StoragePtr) (sq : ResourceStorage) (a : DataPtr)
    (h : demo.requeued.getStorage q = .ok sq) (hd : sq.data = some a) :
    q = ⟨1, 0⟩ ∧ a = 1 := by
  have hs := storages_of_getStorage h
  by_cases h1 : q = ⟨1, 0⟩
  · subst h1
    have e : (demo.requeued.storages ⟨1, 0⟩).bind (fun x => x.data) = some 1 := by decide!
    rw [hs] at e
    simp [hd] at e
    exact ⟨rfl, e⟩
  by_cases h2 : q = ⟨2, 0⟩
  · subst h2
    have e : (demo.requeued.storages ⟨2, 0⟩).bind (fun x => x.data) = none := by decide!
    rw [hs] at e
    simp [hd] at e
  by_cases h3 : q = ⟨3, 0⟩
  · subst h3
    have e : (demo.requeued.storages ⟨3, 0⟩).bind (fun x => x.data) = none := by decide!
    rw [hs] at e
    simp [hd] at e
  by_cases h0 : q = ⟨0, 0⟩
  · subst h0
    have e : (demo.requeued.storages ⟨0, 0⟩).bind (fun x => x.data) = none := by decide!
    rw [hs] at e
    simp [hd] at e
  have e : demo.requeued.storages q = none := by
    repeat (first
      | (show (if q = _ then _ else _) = none
         refine Eq.trans (if_neg ?_) ?_
         · first | exact h1 | exact h2 | exact h3 | exact h0)
      | rfl)
  rw [hs] at e
  cases e

theorem demo.requeued_wellKinded :
    WellKinded demo.nodeType
      [some (FieldValue.value 5),
        some (FieldValue.set { subObjects := [⟨2, 0⟩], prototypeRemoved := [] }),
        some (FieldValue.rid ⟨3, 0⟩)] := by
  intro i v h
  match i, h with
  | 0, h =>
    cases h
    exact ⟨_, rfl, fun hk => by cases hk⟩
  | 1, h =>
    cases h
    exact ⟨_, rfl, fun _ => ⟨_, rfl⟩⟩
  | 2, h =>
    cases h
    exact ⟨_, rfl, fun hk => by cases hk⟩
  | n + 3, h => cases h

theorem demo.requeued_queue : demo.requeued.toCollectItems =
    [{ data := some 0, destroySubObjects := false, destroyResource := false }] := by
  decide!

theorem demo.requeued_pending :
    ∀ it ∈ demo.requeued.toCollectItems, PendingSnapshot demo.requeued it := by
  intro it hit
  rw [demo.requeued_queue, List.mem_singleton] at hit
  subst hit
  exact ⟨rfl, rfl, 0,
    { storage := ⟨1, 0⟩, memory := true,
      fields := [none, some (FieldValue.set { subObjects := [⟨2, 0⟩], prototypeRemoved := [] }),
        some (FieldValue.rid ⟨3, 0⟩)],
      dataOnWrite := none, readOnly := true },
    { rid := ⟨1, 0⟩, uuid := UUID.null, resourceType := some demo.nodeType, data := some 1,
      version := 3 },
    demo.nodeType, rfl, by decide!, by decide!, rfl, demo.superseding_wellKinded⟩

/-- C26 (amended) at a concrete input: the owner `(1, 0)` of `demo.requeued` refers to
`(2, 0)` as a set member and to `(3, 0)` through its SubObject field; the item of an earlier
commit is pending when the open write handle commits and `GarbageCollect()` runs. -/
theorem superseded_snapshot_only_witness :
    ∃ s1 s2, ResourceObject.Commit (1 + 0) demo.requeued ⟨some 2⟩ = .ok (⟨none⟩, s1) ∧
      s1.toCollectItems = demo.requeued.toCollectItems ++
        [{ data := some 1, destroySubObjects := false, destroyResource := false }] ∧
      Repository.GarbageCollect (0 + demo.requeued.toCollectItems.length + 2) s1 = .ok s2 ∧
      (∀ q, s2.getStorage q = s1.getStorage q) ∧
      (∀ q, q ∉ owners 1 demo.requeued ⟨1, 0⟩ →
        s2.getStorage q = demo.requeued.getStorage q) ∧
      (∀ a, a ≠ 1 → some a ∉ demo.requeued.toCollectItems.map (fun it => it.data) →
        s2.datas a = s1.datas a) ∧
      s2.datas 1 = none ∧
      (∀ q sq a, s2.getStorage q = .ok sq → sq.data = some a →
        a ≠ 1 ∧ s2.datas a = s1.datas a) ∧
      s2.toCollectItems = [] :=
  superseded_snapshot_only demo.requeued 2 1
    { storage := ⟨1, 0⟩, memory := true,
      fields := [some (FieldValue.value 5),
        some (FieldValue.set { subObjects := [⟨2, 0⟩], prototypeRemoved := [] }),
        some (FieldValue.rid ⟨3, 0⟩)],
      dataOnWrite := some 1, readOnly := false }
    { storage := ⟨1, 0⟩, memory := true,
      fields := [some (FieldValue.value 5),
        some (FieldValue.set { subObjects := [⟨2, 0⟩], prototypeRemoved := [] }),
        some (FieldValue.rid ⟨3, 0⟩)],
      dataOnWrite := some 0, readOnly := true }
    { rid := ⟨1, 0⟩, uuid := UUID.null, resourceType := some demo.nodeType, data := some 1,
      version := 3 }
    demo.nodeType 1 0 0 (by decide!) (by decide!) rfl rfl (by decide!) rfl (by decide)
    rfl demo.requeued_wellKinded
    ⟨{ rid := ⟨1, 0⟩, uuid := UUID.null, resourceType := some demo.nodeType, data := some 1,
       version := 3 }, by decide!, rfl⟩
    (fun q sq h hd => (demo.requeued_current q sq 1 h hd).1)
    demo.requeued_pending
    (by rw [demo.requeued_queue]; decide)
    (by rw [demo.requeued_queue]; decide)
    (fun q sq a h hd => by
      rw [demo.requeued_queue, (demo.requeued_current q sq a h hd).2]
      decide)

/-- C27 at a concrete input: in `demo.lost` the handle `h2` (Health = 9, copied from the
snapshot with Health = 7) lost against `h1` (Health = 8); it commits twice. -/
theorem lost_commit_retry_witness :
    ∃ s1 s2, ResourceObject.Commit (1 + 0) demo.lost ⟨some 2⟩ = .ok (⟨some 2⟩, s1) ∧
      s1 = demo.lost.setData 2
        { storage := ⟨1, 0⟩, memory := true, fields := [some (FieldValue.value 9)],
          dataOnWrite := some 1, readOnly := true } ∧
      ResourceObject.Commit (1 + 0) s1 ⟨some 2⟩ = .ok (⟨none⟩, s2) ∧
      Repository.Read s2 ⟨1, 0⟩ = .ok ⟨some 2⟩ ∧
      s2.datas 2 = some
        { storage := ⟨1, 0⟩, memory := true, fields := [some (FieldValue.value 9)],
          dataOnWrite := some 1, readOnly := true } ∧
      Repository.GetVersion s2 ⟨1, 0⟩ = .ok ((3 + 1) % 2 ^ 32) ∧
      s2.toCollectItems = demo.lost.toCollectItems ++
        [{ data := some 1, destroySubObjects := false, destroyResource := false }] ∧
      ((2 : DataPtr) ≠ 1 → s2.datas 1 = demo.lost.datas 1) :=
  lost_commit_retry demo.lost 2 0 1
    { storage := ⟨1, 0⟩, memory := true, fields := [some (FieldValue.value 9)],
      dataOnWrite := some 0, readOnly := false }
    { rid := ⟨1, 0⟩, uuid := UUID.null, resourceType := some (healthType 77 ⟨10, 4⟩),
      data := some 1, version := 3 }
    1 0 (by decide!) (by decide!) rfl rfl (by decide)
    ⟨{ rid := ⟨1, 0⟩, uuid := UUID.null, resourceType := some (healthType 77 ⟨10, 4⟩),
       data := some 1, version := 3 }, by decide!, rfl⟩

theorem demo.cloned_heapFresh : demo.cloned.HeapFresh := by
  intro a ha
  have h1 : demo.cloned.nextData = 2 := by decide!
  rw [h1] at ha
  have ha2 : (2 : Nat) ≤ a := ha
  have hne0 : a ≠ 0 := Nat.ne_of_gt (by omega)
  have hne1 : a ≠ 1 := Nat.ne_of_gt (by omega)
  repeat (first
    | (show (if a = _ then _ else _) = none
       refine Eq.trans (if_neg ?_) ?_
       · first | exact hne0 | exact hne1)
    | rfl)

/-- C28 at a concrete input: `r = Read((2, 0))` on the clone of the populated `(1, 0)`, then
Health = 9 is committed on `(1, 0)`. -/
theorem inheritance_live_witness :
    ∃ r s', Repository.Read demo.cloned ⟨2, 0⟩ = .ok r ∧
      writeSetCommit (1 + 0) demo.cloned ⟨1, 0⟩ 0 9 = .ok s' ∧
      Repository.Read s' ⟨2, 0⟩ = .ok r ∧
      readValue 1 s' ⟨1, 0⟩ 0 = .ok (some (FieldValue.value 9)) ∧
      (∀ (j m : Nat) (y : Option FieldValue),
        ([none] : List (Option FieldValue))[j]? = some none →
        readValue m s' ⟨1, 0⟩ j = .ok y → r.GetValue (m + 1) s' j = .ok y) ∧
      (([none] : List (Option FieldValue))[0]? = some none →
        r.GetValue 2 s' 0 = .ok (some (FieldValue.value 9))) :=
  inheritance_live demo.cloned ⟨2, 0⟩ ⟨1, 0⟩
    { rid := ⟨2, 0⟩, uuid := UUID.null, resourceType := some (healthType 77 ⟨10, 4⟩),
      data := some 1, prototype := some ⟨1, 0⟩ }
    { rid := ⟨1, 0⟩, uuid := UUID.null, resourceType := some (healthType 77 ⟨10, 4⟩),
      data := some 0, version := 2 }
    1 { storage := ⟨2, 0⟩, memory := false, fields := [none] }
    (healthType 77 ⟨10, 4⟩) (healthField ⟨10, 4⟩) [some (FieldValue.value 7)] 0 9 1 0
    (by decide!) rfl rfl (by decide!) rfl (by decide) (by decide!) rfl
    demo.healthType_complete rfl rfl (by decide)
    ⟨{ storage := ⟨1, 0⟩, memory := true, fields := [some (FieldValue.value 7)],
       dataOnWrite := none, readOnly := true }, by decide!, rfl⟩
    rfl
    ⟨{ rid := ⟨1, 0⟩, uuid := UUID.null, resourceType := some (healthType 77 ⟨10, 4⟩),
       data := some 0, version := 2 }, by decide!, rfl⟩
    demo.cloned_heapFresh

/-- C30 at a concrete input: through the write handle on `b = (2, 0)` of `demo.twoOwners`,
whose set field 1 holds `(4, 0)`, `RemoveFromSubObjectSet(1, (3, 0))` is called for the
resource `(3, 0)`, which is owned by `a = (1, 0)` and is no member of the set of `b`. -/
theorem remove_clears_any_owner_witness :
    (∀ sd, ([none, some (FieldValue.set { subObjects := [⟨4, 0⟩], prototypeRemoved := [] }),
        none] : List (Option FieldValue))[1]? = some (some (FieldValue.set sd)) →
      ∃ s', ResourceObject.RemoveFromSubObjectSet demo.twoOwners ⟨some 2⟩ 1 [⟨3, 0⟩] = .ok s' ∧
        ownerSlot s' ⟨3, 0⟩ = .ok (none, U32_MAX) ∧
        localMembers s' ⟨some 2⟩ 1 = .ok (sd.subObjects.Erase ⟨3, 0⟩) ∧
        ((⟨3, 0⟩ : RID) ∉ sd.subObjects → localMembers s' ⟨some 2⟩ 1 = .ok sd.subObjects)) ∧
    (([none, some (FieldValue.set { subObjects := [⟨4, 0⟩], prototypeRemoved := [] }),
        none] : List (Option FieldValue))[1]? = some none →
      ResourceObject.RemoveFromSubObjectSet demo.twoOwners ⟨some 2⟩ 1 [⟨3, 0⟩] =
        .ok demo.twoOwners) :=
  remove_clears_any_owner demo.twoOwners 2
    { storage := ⟨2, 0⟩, memory := true,
      fields := [none, some (FieldValue.set { subObjects := [⟨4, 0⟩], prototypeRemoved := [] }),
        none],
      dataOnWrite := some 1, readOnly := false }
    { name := "Children", index := 1, fieldType := ResourceFieldType.SubObjectSet,
      typeHandler := some ⟨2, 64⟩, offset := 4 }
    1 ⟨3, 0⟩
    { rid := ⟨3, 0⟩, uuid := UUID.null, resourceType := some demo.nodeType, data := none,
      parent := some ⟨1, 0⟩, parentIndex := 1 }
    (by decide!) (by decide!) rfl (by decide!)

/-- C25 (amended) at a concrete input: the clone `(2, 0)` of the populated `(1, 0)` has the
chain `(2, 0), (1, 0)`, and reading Health through it takes the 7 of `(1, 0)`. -/
theorem getValue_terminates_witness :
    (readValue (2 + 0) demo.cloned ⟨2, 0⟩ 0 =
        .ok ((prototypes 2 demo.cloned ⟨2, 0⟩).findSome? (localValue demo.cloned 0)) ∧
      (prototypes 2 demo.cloned ⟨2, 0⟩).length = 2 ∧ (prototypes 2 demo.cloned ⟨2, 0⟩).Nodup) ∧
    prototypes 2 demo.cloned ⟨2, 0⟩ = [⟨2, 0⟩, ⟨1, 0⟩] ∧
    (prototypes 2 demo.cloned ⟨2, 0⟩).findSome? (localValue demo.cloned 0) =
      some (FieldValue.value 7) :=
  ⟨getValue_terminates demo.cloned ⟨2, 0⟩ 0 2 0
    ⟨{ rid := ⟨2, 0⟩, uuid := UUID.null, resourceType := some (healthType 77 ⟨10, 4⟩),
       data := some 1, prototype := some ⟨1, 0⟩ },
     1, { storage := ⟨2, 0⟩, memory := false, fields := [none] },
     by decide!, rfl, by decide!, rfl, by decide,
     ⟨{ rid := ⟨1, 0⟩, uuid := UUID.null, resourceType := some (healthType 77 ⟨10, 4⟩),
        data := some 0, version := 2 },
      0, { storage := ⟨1, 0⟩, memory := true, fields := [some (FieldValue.value 7)],
           dataOnWrite := none, readOnly := true },
      by decide!, rfl, by decide!, rfl, by decide, rfl⟩⟩,
   by decide!, by decide!⟩

end Fyrion
